import Mathlib

/-!
# Release testing and rollback

A shallow embedding of `pkg/releasetesting/release_testing.go` (the test suite
runner) and of the rollback workflow exercised by
`pkg/tiller/release_rollback_test.go`, with the properties proved about them.

Conventions of the embedding:

* A Go `error` is an `Option String`: `none` is `nil`, `some s` is an error whose
  text is `s`.  A Go function returning `(T, error)` with `nil` data on failure
  is an `Except String T`.
* External collaborators (the cluster client, the response stream, the clock,
  the YAML decoder) are oracles.  Each oracle sees the list of events performed
  so far, so its answers may change from call to call.
* Every call made to a collaborator is appended to an event log, oldest first.
* Writes to the process log (`log.Printf`) are not modelled.
-/

namespace Helm

/-! ## Data model (package `release`) -/

/-- Modelled from the spec: `release.Hook_Event`, whose declaration is not among
the sources: the lifecycle events of section 3, under the names the sources
use. -/
inductive Hook_Event
  | UNKNOWN
  | PRE_INSTALL
  | POST_INSTALL
  | PRE_DELETE
  | POST_DELETE
  | PRE_UPGRADE
  | POST_UPGRADE
  | PRE_ROLLBACK
  | POST_ROLLBACK
  | RELEASE_TEST
  deriving DecidableEq, Repr

/-- Modelled from the spec: `release.Status_Code`, whose declaration is not among
the sources: the status codes of section 3. -/
inductive Status_Code
  | UNKNOWN
  | DEPLOYED
  | DELETED
  | SUPERSEDED
  | FAILED
  | PENDING_INSTALL
  | PENDING_UPGRADE
  | PENDING_ROLLBACK
  deriving DecidableEq, Repr

/-- Modelled from the spec: timestamps (`timestamp.Timestamp`); `0` is the zero,
unset, timestamp. -/
abbrev Timestamp := Nat

/-- Modelled from the spec: the deletion policy of a hook (section 3): before hook
creation, after success, after failure. -/
inductive Hook_DeletePolicy
  | BEFORE_HOOK_CREATION
  | SUCCEEDED
  | FAILED
  deriving DecidableEq, Repr

/-- Modelled from the spec: `release.Hook`, whose declaration is not among the
sources: the fields the sources use (`Name`, `Kind`, `Path`, `Manifest`,
`Events`, `LastRun`) and the weight and deletion policy of section 3.
`LastRun` is `0` while the hook has never run. -/
structure Hook where
  Name : String
  Kind : String
  Path : String
  Manifest : String
  Events : List Hook_Event
  LastRun : Timestamp
  Weight : Int
  DeletePolicies : List Hook_DeletePolicy
  deriving DecidableEq, Repr

/-- Modelled from the spec: `release.Status`, whose declaration is not among the
sources: the status code of a revision and its notes. -/
structure Status where
  Code : Status_Code
  Notes : String
  deriving DecidableEq, Repr

/-- Modelled from the spec: `release.Info`, whose declaration is not among the
sources: the status and the free-text description of a revision. -/
structure Info where
  Status : Status
  Description : String
  deriving DecidableEq, Repr

/-- Modelled from the spec: `release.Release`, one revision of a release, whose
declaration is not among the sources: the record of section 6. -/
structure Release where
  Name : String
  Info : Info
  Chart : String
  Config : String
  Manifest : String
  Hooks : List Hook
  Version : Int
  Namespace : String
  deriving DecidableEq, Repr

/-- Modelled from the spec: `release.TestRun_Status`, whose declaration is not
among the sources: the statuses of a test run of section 3. -/
inductive TestRun_Status
  | UNKNOWN
  | SUCCESS
  | FAILURE
  | RUNNING
  deriving DecidableEq, Repr

/-- Modelled from the spec: `release.TestRun`, whose declaration is not among the
sources: name, status, info string and the two timestamps (section 3).  The
zero value has status `UNKNOWN`, empty strings and no timestamps. -/
structure TestRun where
  Name : String
  Status : TestRun_Status
  Info : String
  StartedAt : Option Timestamp
  CompletedAt : Option Timestamp
  deriving DecidableEq, Repr

/-! ## Collaborators of the test suite runner -/

/-- Phase of a pod (`api.PodPhase`). -/
inductive PodPhase
  | PodPending
  | PodRunning
  | PodSucceeded
  | PodFailed
  | PodUnknown
  deriving DecidableEq, Repr

/-- Modelled from the spec: the messages of `streamRunning`, `streamError`,
`streamUnknown`, `streamSuccess` and `streamFailed`, whose definitions are not
among the sources.  Each helper streams one status message to the caller; the
message records which helper built it and the arguments it was given. -/
inductive StreamMsg
  | running (name : String)
  | error (info : String)
  | unknown (name info : String)
  | success (name : String)
  | failed (name : String)
  deriving DecidableEq, Repr

/-- Modelled from the spec: the operations of the cluster client interface, whose
declaration is not among the sources.  `Create` and
`WaitAndGetCompletedPodPhase` are the two methods the runner calls; `Delete`
and `Update` are the other mutating operations of the client. -/
inductive KubeCall
  | Create (ns manifest : String)
  | WaitAndGetCompletedPodPhase (ns manifest : String) (timeout : Int)
  | Delete (ns manifest : String)
  | Update (ns manifest : String)
  deriving DecidableEq, Repr

/-- One step visible outside the runner: a cluster client call or a message
handed to the stream. -/
inductive Event
  | kube (c : KubeCall)
  | send (m : StreamMsg)
  deriving DecidableEq, Repr

/-- Modelled from the spec: the cluster client interface `environment.KubeClient`,
whose declaration is not among the sources, reduced to the two methods the
runner calls.  Each method sees the events so far and answers with an error or
none. -/
structure KubeClient where
  Create : List Event → String → String → Option String
  WaitAndGetCompletedPodPhase : List Event → String → String → Int → PodPhase × Option String

/-- Modelled from the spec: the response stream of a test run, whose declaration
is not among the sources: `Send` answers with an error or none. -/
structure ReleaseService_RunReleaseTestServer where
  Send : List Event → StreamMsg → Option String

/-- Modelled from the spec: `Environment`, whose declaration is not among the
sources: the four fields `Run` and its helpers read. -/
structure Environment where
  Namespace : String
  KubeClient : KubeClient
  Stream : ReleaseService_RunReleaseTestServer
  Timeout : Int

/-- Modelled from the spec: `util.SimpleHead`, whose declaration is not among the
sources: the kind of a manifest and its `Metadata.Name`. -/
structure SimpleHead where
  Kind : String
  Name : String
  deriving DecidableEq, Repr

/-- Library functions the runner calls: the YAML decoder applied to a manifest
head, the manifest splitter `util.SplitManifests` (the sequence of documents
in the order a `range` over its result yields them) and the clock
`timeconv.Now`. -/
structure Lib where
  yamlUnmarshal : String → Except String SimpleHead
  SplitManifests : String → List String
  Now : List Event → Timestamp

/-- Wrap-around of a 64-bit signed integer. -/
def wrapInt64 (x : Int) : Int :=
  (x + 2 ^ 63) % 2 ^ 64 - 2 ^ 63

/-- Nanoseconds per second, `time.Second`. -/
def timeSecond : Int := 1000000000

/-! ## The test suite runner -/

/-- The suite of tests of a release (`TestSuite`). -/
structure TestSuite where
  StartedAt : Option Timestamp
  CompletedAt : Option Timestamp
  TestManifests : List String
  Results : List TestRun
  deriving DecidableEq, Repr

/-- One test being run (`test`). -/
structure test where
  manifest : String
  result : TestRun
  deriving DecidableEq, Repr

/-- The hooks carrying `RELEASE_TEST`, as the two nested loops of
`filterTestHooks` collect them: the inner loop appends the hook every time it
meets the event (its `continue` resumes the inner loop). -/
def filterTestHooks (hooks : List Hook) (releaseName : String) : Except String (List Hook) :=
  let notFoundErr := "no tests found for release " ++ releaseName
  if hooks.length = 0 then
    .error notFoundErr
  else
    let testHooks := hooks.foldl
      (fun testHooks h =>
        h.Events.foldl
          (fun testHooks e => if e = Hook_Event.RELEASE_TEST then testHooks ++ [h] else testHooks)
          testHooks)
      []
    if testHooks.length = 0 then
      .error notFoundErr
    else
      .ok testHooks

/-- Manifests of the tests of a release (`prepareTestManifests`). -/
def prepareTestManifests (lib : Lib) (hooks : List Hook) (releaseName : String) :
    Except String (List String) :=
  match filterTestHooks hooks releaseName with
  | .error err => .error err
  | .ok testHooks =>
    .ok (testHooks.foldl
      (fun tests h => (lib.SplitManifests h.Manifest).foldl (fun tests t => tests ++ [t]) tests)
      [])

/-- Constructor of a suite (`NewTestSuite`).  The release is passed by pointer:
the first component is the release object as the call leaves it, the second
the returned suite or error. -/
def NewTestSuite (lib : Lib) (rel : Release) (_env : Environment) :
    Release × Except String TestSuite :=
  match prepareTestManifests lib rel.Hooks rel.Name with
  | .error err => (rel, .error err)
  | .ok testManifests =>
    let results : List TestRun := []
    (rel, .ok { StartedAt := none, CompletedAt := none,
                TestManifests := testManifests, Results := results })

/-- Builds the test of a manifest (`newTest`): fails when the manifest head
cannot be decoded or its kind is not `Pod`. -/
def newTest (lib : Lib) (testManifest : String) : Except String test :=
  match lib.yamlUnmarshal testManifest with
  | .error err => .error err
  | .ok sh =>
    if sh.Kind ≠ "Pod" then
      .error (sh.Name ++ " is not a pod")
    else
      .ok { manifest := testManifest,
            result := { Name := sh.Name, Status := .UNKNOWN, Info := "",
                        StartedAt := none, CompletedAt := none } }

/-- Modelled from the spec: `streamMessage`, the helper behind the five stream
functions, which is not among the sources: it hands one message to the
stream and returns the error of the stream. -/
def streamMessage (msg : StreamMsg) (stream : ReleaseService_RunReleaseTestServer)
    (log : List Event) : List Event × Option String :=
  (log ++ [Event.send msg], stream.Send log msg)

/-- Modelled from the spec: `streamRunning`, not among the sources: streams the
"running" status of the named test. -/
def streamRunning (name : String) (stream : ReleaseService_RunReleaseTestServer)
    (log : List Event) : List Event × Option String :=
  streamMessage (.running name) stream log

/-- Modelled from the spec: `streamError`, not among the sources: streams an
error carrying the given text. -/
def streamError (info : String) (stream : ReleaseService_RunReleaseTestServer)
    (log : List Event) : List Event × Option String :=
  streamMessage (.error info) stream log

/-- Modelled from the spec: `streamUnknown`, not among the sources: streams the
terminal status `UNKNOWN` of the named test with its info text. -/
def streamUnknown (name info : String) (stream : ReleaseService_RunReleaseTestServer)
    (log : List Event) : List Event × Option String :=
  streamMessage (.unknown name info) stream log

/-- Modelled from the spec: `streamSuccess`, not among the sources: streams the
terminal status `SUCCESS` of the named test. -/
def streamSuccess (name : String) (stream : ReleaseService_RunReleaseTestServer)
    (log : List Event) : List Event × Option String :=
  streamMessage (.success name) stream log

/-- Modelled from the spec: `streamFailed`, not among the sources: streams the
terminal status `FAILURE` of the named test. -/
def streamFailed (name : String) (stream : ReleaseService_RunReleaseTestServer)
    (log : List Event) : List Event × Option String :=
  streamMessage (.failed name) stream log

/-- Creates the pod of a test (`TestSuite.createTestPod`): returns the test as
the call leaves it, the extended log and the error. -/
def createTestPod (t : test) (env : Environment) (log : List Event) :
    test × List Event × Option String :=
  let err := env.KubeClient.Create log env.Namespace t.manifest
  let log1 := log ++ [Event.kube (.Create env.Namespace t.manifest)]
  let t1 : test :=
    match err with
    | some e => { t with result := { t.result with Info := e, Status := .FAILURE } }
    | none => t
  (t1, log1, err)

/-- Waits for the pod of a test (`TestSuite.getPodExitStatus`): returns the test
as the call leaves it, the extended log, the phase and the error. -/
def getPodExitStatus (t : test) (env : Environment) (log : List Event) :
    test × List Event × PodPhase × Option String :=
  let timeout := wrapInt64 (env.Timeout * timeSecond)
  let answer := env.KubeClient.WaitAndGetCompletedPodPhase log env.Namespace t.manifest timeout
  let status := answer.1
  let err := answer.2
  let log1 := log ++ [Event.kube (.WaitAndGetCompletedPodPhase env.Namespace t.manifest timeout)]
  let t1 : test :=
    match err with
    | some e => { t with result := { t.result with Info := e, Status := .UNKNOWN } }
    | none => t
  (t1, log1, status, err)

/-- State at the end of one pass through the body of the loop of `Run`.
`result` is `test.result` (absent when `newTest` failed); `ret` is `some e`
when the body executed `return e` and `none` when it reached the `append`. -/
structure TestStep where
  result : Option TestRun
  log : List Event
  ret : Option (Option String)

/-- One pass through the body of the loop of `TestSuite.Run` (lines 108-148),
for one manifest, from the log so far. -/
def runTest (lib : Lib) (env : Environment) (log : List Event) (testManifest : String) :
    TestStep :=
  match newTest lib testManifest with
  | .error err => { result := none, log := log, ret := some (some err) }
  | .ok t0 =>
    let t1 : test := { t0 with result := { t0.result with StartedAt := some (lib.Now log) } }
    match streamRunning t1.result.Name env.Stream log with
    | (log1, some err) => { result := some t1.result, log := log1, ret := some (some err) }
    | (log1, none) =>
      match createTestPod t1 env log1 with
      | (t2, log2, some err) =>
        -- resourceCreated = false: neither the wait nor a terminal status follows
        match streamError t2.result.Info env.Stream log2 with
        | (log3, some _) => { result := some t2.result, log := log3, ret := some (some err) }
        | (log3, none) => { result := some t2.result, log := log3, ret := none }
      | (t2, log2, none) =>
        match getPodExitStatus t2 env log2 with
        | (t3, log3, _, some _) =>
          -- resourceCleanExit = false
          match streamUnknown t3.result.Name t3.result.Info env.Stream log3 with
          | (log4, some streamErr) =>
            { result := some t3.result, log := log4, ret := some (some streamErr) }
          | (log4, none) => { result := some t3.result, log := log4, ret := none }
        | (t3, log3, status, none) =>
          if status = PodPhase.PodSucceeded then
            let t4 : test := { t3 with result := { t3.result with Status := .SUCCESS } }
            match streamSuccess t4.result.Name env.Stream log3 with
            | (log4, some streamErr) =>
              { result := some t4.result, log := log4, ret := some (some streamErr) }
            | (log4, none) => { result := some t4.result, log := log4, ret := none }
          else if status = PodPhase.PodFailed then
            let t4 : test := { t3 with result := { t3.result with Status := .FAILURE } }
            match streamFailed t4.result.Name env.Stream log3 with
            | (log4, some _) =>
              -- `return err`: here err is the nil error of getPodExitStatus
              { result := some t4.result, log := log4, ret := some none }
            | (log4, none) => { result := some t4.result, log := log4, ret := none }
          else
            { result := some t3.result, log := log3, ret := none }

/-- What `Run` leaves behind: the suite, the events performed and the returned
error. -/
structure RunResult where
  suite : TestSuite
  log : List Event
  err : Option String

/-- The loop of `TestSuite.Run` over the remaining manifests, followed by the
assignment of `CompletedAt`. -/
def runLoop (lib : Lib) (env : Environment) : List String → TestSuite → List Event → RunResult
  | [], t, log => { suite := { t with CompletedAt := some (lib.Now log) }, log := log, err := none }
  | testManifest :: rest, t, log =>
    let step := runTest lib env log testManifest
    match step.ret, step.result with
    | some err, _ => { suite := t, log := step.log, err := err }
    | none, none => runLoop lib env rest t step.log
    | none, some result =>
      -- `_ = append(t.Results, test.result)`: the slice built by append is dropped
      -- and t.Results keeps its value
      let _dropped := t.Results ++ [result]
      runLoop lib env rest t step.log

/-- Runs the tests of a suite (`TestSuite.Run`), starting from the empty log. -/
def TestSuite.Run (lib : Lib) (t : TestSuite) (env : Environment) : RunResult :=
  runLoop lib env t.TestManifests { t with StartedAt := some (lib.Now []) } []

/-- The sequence described by a release test: `NewTestSuite` on the release, then
`Run` on the returned suite. -/
structure TestSession where
  rel : Release
  suite : Option TestSuite
  log : List Event
  err : Option String

/-- Calls `NewTestSuite` and, when it returns a suite, `Run` on that suite. -/
def runReleaseTest (lib : Lib) (rel : Release) (env : Environment) : TestSession :=
  match NewTestSuite lib rel env with
  | (rel1, .error err) => { rel := rel1, suite := none, log := [], err := some err }
  | (rel1, .ok suite) =>
    let r := suite.Run lib env
    { rel := rel1, suite := some r.suite, log := r.log, err := r.err }

/-- The cluster client calls of a log, in order. -/
def kubeCalls (log : List Event) : List KubeCall :=
  log.filterMap (fun e => match e with | .kube c => some c | .send _ => none)

/-- The messages handed to the stream in a log, in order. -/
def streamed (log : List Event) : List StreamMsg :=
  log.filterMap (fun e => match e with | .send m => some m | .kube _ => none)

/-! ## Revision store and rollback workflow

`RollbackRelease` and the revision store are exercised by
`pkg/tiller/release_rollback_test.go` but are not among the sources; they are
modelled from sections 4.1, 4.3, 4.4, 6 and 7 of the specification. -/

/-- Modelled from the spec: the error taxonomy of section 7. -/
inductive Err
  | NotFound
  | AlreadyExists
  | InvalidTarget
  | NoPriorRevision
  | NoTestsFound
  | HookTimeout (hook : String)
  | HookFailed (hook : String)
  | ApplyFailed (reason : String)
  | RenderError (reason : String)
  deriving DecidableEq, Repr

/-- Modelled from the spec: the human-readable description recorded for a
failure (section 7). -/
def Err.text : Err → String
  | .NotFound => "not found"
  | .AlreadyExists => "already exists"
  | .InvalidTarget => "invalid rollback target"
  | .NoPriorRevision => "no prior revision"
  | .NoTestsFound => "no tests found"
  | .HookTimeout hook => "hook " ++ hook ++ " timed out"
  | .HookFailed hook => "hook " ++ hook ++ " failed"
  | .ApplyFailed reason => "apply failed: " ++ reason
  | .RenderError reason => "render error: " ++ reason

/-- Modelled from the spec: the persisted revisions of the Revision Store
(section 4.1), one record per (release name, version). -/
abbrev Store := List Release

/-- Modelled from the spec: the key of a stored record (section 4.1): whether it
is the revision `version` of release `name`. -/
def Release.isRev (r : Release) (name : String) (version : Int) : Bool :=
  decide (r.Name = name) && decide (r.Version = version)

/-- Modelled from the spec: `Get(name, version)` of section 4.1, `NotFound` if
absent. -/
def Store.Get (s : Store) (name : String) (version : Int) : Except Err Release :=
  match s.find? (fun r => r.isRev name version) with
  | some r => .ok r
  | none => .error .NotFound

/-- Modelled from the spec: `Create(revision)` of section 4.1, `AlreadyExists`
if (release name, version) is already present. -/
def Store.Create (s : Store) (r : Release) : Except Err Store :=
  if s.any (fun x => x.isRev r.Name r.Version) then .error .AlreadyExists
  else .ok (s ++ [r])

/-- Modelled from the spec: `Update(revision)` of section 4.1, `NotFound` if
absent; the record keeps its release name and version. -/
def Store.Update (s : Store) (r : Release) : Except Err Store :=
  if s.any (fun x => x.isRev r.Name r.Version) then
    .ok (s.map (fun x => if x.isRev r.Name r.Version then r else x))
  else .error .NotFound

/-- Modelled from the spec: `History(name)` of section 4.1, all revisions of a
release by ascending version. -/
def Store.History (s : Store) (name : String) : List Release :=
  (s.filter (fun r => decide (r.Name = name))).insertionSort (fun a b => a.Version ≤ b.Version)

/-- Modelled from the spec: `Deployed(name)` of section 4.1, the revision of the
release that is `DEPLOYED`, `NotFound` if none. -/
def Store.Deployed (s : Store) (name : String) : Except Err Release :=
  match (s.History name).find? (fun r => decide (r.Info.Status.Code = .DEPLOYED)) with
  | some r => .ok r
  | none => .error .NotFound

/-- Modelled from the spec: the operations of the Cluster Client of section 6. -/
inductive ClusterCall
  | Apply (ns resource : String)
  | Delete (ns resource : String)
  | GetPhase (ns resource : String) (timeout : Int)
  deriving DecidableEq, Repr

/-- Modelled from the spec: the terminal phases a polled resource can reach
(section 4.4). -/
inductive TerminalPhase
  | Succeeded
  | Failed
  deriving DecidableEq, Repr

/-- Modelled from the spec: the Cluster Client of section 6 and the clock, as
oracles over the calls made so far.  `GetPhase` answers with the terminal phase
reached within the timeout, or with an error (poll error or timeout). -/
structure ClusterClient where
  Apply : List ClusterCall → String → String → Option String
  Delete : List ClusterCall → String → String → Option String
  GetPhase : List ClusterCall → String → String → Int → Except String TerminalPhase
  Now : List ClusterCall → Timestamp

/-- Modelled from the spec: what the Hook Executor reports: the hooks with their
last-run timestamps, the calls made and the failure, if any. -/
structure HookRun where
  hooks : List Hook
  log : List ClusterCall
  err : Option Err

/-- Modelled from the spec: deletion of the resource of a hook when its deletion
policy lists `policy` (section 4.4); deletion errors are not propagated. -/
def deleteByPolicy (ns : String) (h : Hook) (policy : Hook_DeletePolicy)
    (log : List ClusterCall) : List ClusterCall :=
  if policy ∈ h.DeletePolicies then log ++ [ClusterCall.Delete ns h.Manifest] else log

/-- Modelled from the spec: execution of one hook by the Hook Executor (section
4.4): pre-deletion policy, creation of the resource, poll until a terminal
phase or the timeout, record of the run, post-success or post-failure
deletion. -/
def execOneHook (cc : ClusterClient) (ns : String) (timeout : Int) (h : Hook)
    (log : List ClusterCall) : Hook × List ClusterCall × Option Err :=
  let log1 := deleteByPolicy ns h .BEFORE_HOOK_CREATION log
  let h1 : Hook := { h with LastRun := cc.Now log1 }
  let log2 := log1 ++ [ClusterCall.Apply ns h.Manifest]
  match cc.Apply log1 ns h.Manifest with
  | some _ => (h1, deleteByPolicy ns h .FAILED log2, some (.HookFailed h.Name))
  | none =>
    let log3 := log2 ++ [ClusterCall.GetPhase ns h.Manifest timeout]
    match cc.GetPhase log2 ns h.Manifest timeout with
    | .ok .Succeeded => (h1, deleteByPolicy ns h .SUCCEEDED log3, none)
    | .ok .Failed => (h1, deleteByPolicy ns h .FAILED log3, some (.HookFailed h.Name))
    | .error _ => (h1, deleteByPolicy ns h .FAILED log3, some (.HookTimeout h.Name))

/-- Modelled from the spec: the hooks of a revision that fire on an event, by
ascending weight, ties in manifest order, each with its position in the hook
list (section 4.4). -/
def hookOrder (event : Hook_Event) (hooks : List Hook) : List (Nat × Hook) :=
  (hooks.enum.filter (fun p => decide (event ∈ p.2.Events))).insertionSort
    (fun a b => a.2.Weight ≤ b.2.Weight)

/-- Modelled from the spec: sequential execution of the ordered hooks (section
4.4); a failure aborts the remaining hooks. -/
def execHooksLoop (cc : ClusterClient) (ns : String) (timeout : Int) :
    List (Nat × Hook) → List Hook → List ClusterCall → HookRun
  | [], hooks, log => { hooks := hooks, log := log, err := none }
  | (i, h) :: rest, hooks, log =>
    match execOneHook cc ns timeout h log with
    | (h1, log1, some e) => { hooks := hooks.set i h1, log := log1, err := some e }
    | (h1, log1, none) => execHooksLoop cc ns timeout rest (hooks.set i h1) log1

/-- Modelled from the spec: the Hook Executor of section 4.4 for one event. -/
def execHooks (cc : ClusterClient) (ns : String) (timeout : Int) (event : Hook_Event)
    (hooks : List Hook) (log : List ClusterCall) : HookRun :=
  execHooksLoop cc ns timeout (hookOrder event hooks) hooks log

/-- Modelled from the spec: `hapi.RollbackReleaseRequest`, whose declaration is not
among the sources: release name, target version (`0` when unset) and the
options of section 6. -/
structure RollbackReleaseRequest where
  Name : String
  Version : Int
  DisableHooks : Bool
  Timeout : Int
  Recreate : Bool
  Force : Bool
  Wait : Bool
  deriving DecidableEq, Repr

/-- Modelled from the spec: what `RollbackRelease` leaves behind: the store, the
cluster calls made, the returned revision and the returned error. -/
structure RollbackResult where
  store : Store
  log : List ClusterCall
  rel : Option Release
  err : Option Err

/-- Modelled from the spec: target resolution of section 4.3.  A given target
must exist and must not be the current head, else `InvalidTarget`; an unset
target is the highest-versioned non-`DELETED` revision strictly older than the
current `DEPLOYED` one, `NoPriorRevision` if there is none. -/
def resolveTarget (s : Store) (head : Release) (req : RollbackReleaseRequest) :
    Except Err Release :=
  if req.Version ≠ 0 then
    match s.Get req.Name req.Version with
    | .error _ => .error .InvalidTarget
    | .ok target => if target.Version = head.Version then .error .InvalidTarget else .ok target
  else
    match s.Deployed req.Name with
    | .error e => .error e
    | .ok current =>
      match ((s.History req.Name).filter (fun r =>
          decide (r.Info.Status.Code ≠ .DELETED) && decide (r.Version < current.Version))).getLast? with
      | none => .error .NoPriorRevision
      | some target => .ok target

/-- Modelled from the spec: the new revision of a rollback (section 4.3): next
version after the head; manifest, chart, config and hooks of the target, copied
as they are stored, the last-run timestamps of the hooks included; status
`PENDING_ROLLBACK`. -/
def rollbackRevision (head target : Release) (req : RollbackReleaseRequest) : Release :=
  { Name := req.Name
    Namespace := head.Namespace
    Chart := target.Chart
    Config := target.Config
    Manifest := target.Manifest
    Hooks := target.Hooks
    Version := head.Version + 1
    Info := { Status := { Code := .PENDING_ROLLBACK, Notes := target.Info.Status.Notes }
              Description := "" } }

/-- Modelled from the spec: a status transition of a revision (section 4.2): the
revision with its status code set. -/
def Release.withCode (r : Release) (code : Status_Code) : Release :=
  { r with Info := { r.Info with Status := { r.Info.Status with Code := code } } }

/-- Modelled from the spec: the commit that ends a rollback (section 4.3): the
revision that was `DEPLOYED` before the rollback becomes `SUPERSEDED`, after a
success as after a failure, and the new revision is written with its terminal
status. -/
def commitRollback (s : Store) (prior : Option Release) (final : Release)
    (log : List ClusterCall) (err : Option Err) : RollbackResult :=
  let s1 : Except Err Store :=
    match prior with
    | none => .ok s
    | some d => s.Update (d.withCode .SUPERSEDED)
  match s1 with
  | .error e => { store := s, log := log, rel := some final, err := some e }
  | .ok s2 =>
    match s2.Update final with
    | .error e => { store := s2, log := log, rel := some final, err := some e }
    | .ok s3 => { store := s3, log := log, rel := some final, err := err }

/-- Modelled from the spec: the new revision in its terminal failed state
(sections 4.3 and 7): `FAILED`, described by the failure. -/
def failedRevision (r : Release) (hooks : List Hook) (e : Err) : Release :=
  { (r.withCode .FAILED) with
    Hooks := hooks
    Info := { (r.withCode .FAILED).Info with Description := e.text } }

/-- Modelled from the spec: the new revision in its terminal successful state
(section 4.3): `DEPLOYED`, described as a rollback to the target version. -/
def deployedRevision (r : Release) (hooks : List Hook) (target : Release) : Release :=
  { (r.withCode .DEPLOYED) with
    Hooks := hooks
    Info := { (r.withCode .DEPLOYED).Info with
              Description := "Rollback to " ++ toString target.Version } }

/-- Modelled from the spec: the Rollback Workflow of section 4.3,
`RollbackRelease`.  Errors before the new revision is persisted leave the store
as it was and return no revision (section 7). -/
def RollbackRelease (cc : ClusterClient) (s : Store) (req : RollbackReleaseRequest) :
    RollbackResult :=
  match (s.History req.Name).getLast? with
  | none => { store := s, log := [], rel := none, err := some .NotFound }
  | some head =>
    match resolveTarget s head req with
    | .error e => { store := s, log := [], rel := none, err := some e }
    | .ok target =>
      let pending := rollbackRevision head target req
      let prior := (s.Deployed req.Name).toOption
      match s.Create pending with
      | .error e => { store := s, log := [], rel := none, err := some e }
      | .ok s1 =>
        let pre : HookRun :=
          if req.DisableHooks then { hooks := pending.Hooks, log := [], err := none }
          else execHooks cc pending.Namespace req.Timeout .PRE_ROLLBACK pending.Hooks []
        match pre.err with
        | some e => commitRollback s1 prior (failedRevision pending pre.hooks e) pre.log (some e)
        | none =>
          let log1 := pre.log ++ [ClusterCall.Apply pending.Namespace pending.Manifest]
          match cc.Apply pre.log pending.Namespace pending.Manifest with
          | some reason =>
            commitRollback s1 prior (failedRevision pending pre.hooks (.ApplyFailed reason)) log1
              (some (.ApplyFailed reason))
          | none =>
            let post : HookRun :=
              if req.DisableHooks then { hooks := pre.hooks, log := log1, err := none }
              else execHooks cc pending.Namespace req.Timeout .POST_ROLLBACK pre.hooks log1
            match post.err with
            | some e =>
              commitRollback s1 prior (failedRevision pending post.hooks e) post.log (some e)
            | none =>
              commitRollback s1 prior (deployedRevision pending post.hooks target) post.log none

/-! ## The rollback command (`cmd/helm/rollback.go`) -/

/-- Modelled from the spec: `action.Rollback`, whose declaration is not among the
sources: the fields the flags of the command are bound to, the options of a
rollback of section 6. -/
structure Rollback where
  Version : Int
  DryRun : Bool
  Recreate : Bool
  Force : Bool
  DisableHooks : Bool
  Timeout : Int
  Wait : Bool
  deriving DecidableEq, Repr

/-- The client of the command as the flag definitions of `newRollbackCmd` leave
it when no flag is given: `--version` defaults to `0` ("rollback to previous
release"), `--timeout` to `300`, every switch to `false`. -/
def defaultRollback : Rollback :=
  { Version := 0, DryRun := false, Recreate := false, Force := false, DisableHooks := false,
    Timeout := 300, Wait := false }

/-- What one execution of the command does: the calls of `client.Run`, each with
the state of the client and the release name it was given, the text written to
`out`, and the returned error. -/
structure CmdRun where
  calls : List (Rollback × String)
  out : String
  err : Option String

/-- Modelled from the spec: `require.ExactArgs`, not among the sources: accepts
exactly `n` positional arguments. -/
def ExactArgs (n : Nat) (args : List String) : Option String :=
  if args.length = n then none
  else some ("this command requires exactly " ++ toString n ++ " arguments")

/-- The `RunE` function of `newRollbackCmd` (lines 45-54): runs the action on
`args[0]` with the client as the flags left it.  `Run` is the rollback action,
an oracle answering with an error or none.  With no argument the index
expression `args[0]` panics, which is reported as an error. -/
def rollbackRunE (client : Rollback) (Run : Rollback → String → Option String)
    (args : List String) : CmdRun :=
  match args with
  | [] => { calls := [], out := "", err := some "index out of range" }
  | name :: _ =>
    match Run client name with
    | some err => { calls := [(client, name)], out := "", err := some err }
    | none =>
      { calls := [(client, name)], out := "Rollback was a success! Happy Helming!\n",
        err := none }

/-- The command built by `newRollbackCmd`, executed on positional arguments
`args` after the flags have been parsed into `client`: the arguments are
validated by `Args`, then `RunE` runs. -/
def newRollbackCmd (client : Rollback) (Run : Rollback → String → Option String)
    (args : List String) : CmdRun :=
  match ExactArgs 2 args with
  | some err => { calls := [], out := "", err := some err }
  | none => rollbackRunE client Run args

/-! ## Chart URLs (`url/url.go`)

Go strings are Lean strings here.  `net/url` is a library outside the
repository: its functions are oracles of the structure `NetLib`.  The regular
expression `TarNameRegex` is a constant of the package, so package `regexp` is
embedded for the syntax that occurs in it: literals, escaped punctuation, `.`,
character classes of characters and ranges, groups, alternation, the greedy
operators `*`, `+`, `?`, and the anchors `^` and `$`.  Matching is the
leftmost-first search of `regexp`: the match that begins earliest and that a
backtracking search finds first. -/

/-- The fields of `net/url.URL` that the package reads or sets. -/
structure NetURL where
  Scheme : String
  Opaque : String
  Host : String
  Path : String
  Fragment : String
  deriving DecidableEq, Repr

/-- The functions of `net/url` the package calls: `url.Parse` and the method
`String` of `net/url.URL` (field `UrlString`). -/
structure NetLib where
  Parse : String → Except String NetURL
  UrlString : NetURL → String

/-- Text of `ErrLocal`. -/
def ErrLocal : String := "cannot use local URL as remote"

/-- Text of `ErrRemote`. -/
def ErrRemote : String := "cannot use remote URL as local"

/-- Scheme constant `SchemeHTTP`. -/
def SchemeHTTP : String := "http"

/-- Scheme constant `SchemeHTTPS`. -/
def SchemeHTTPS : String := "https"

/-- Scheme constant `SchemeHelm`. -/
def SchemeHelm : String := "helm"

/-- Scheme constant `SchemeFile`. -/
def SchemeFile : String := "file"

/-- The regular expression `TarNameRegex` that splits a tar name into name and
version. -/
def TarNameRegex : String :=
  "([0-9A-Za-z\\-_/]+)-(v?([0-9]+)(\\.[0-9]+)?(\\.[0-9]+)?" ++
  "(-([0-9A-Za-z\\-]+(\\.[0-9A-Za-z\\-]+)*))?" ++
  "(\\+([0-9A-Za-z\\-]+(\\.[0-9A-Za-z\\-]+)*))?)(.tgz)?"

/-- A parsed regular expression of package `regexp`: the empty expression, a
literal character, `.`, a character class given by its ranges, the anchors `^`
and `$`, concatenation, alternation, the greedy repetitions and a capturing
group with its index. -/
inductive Regex
  | empty
  | lit (c : Char)
  | any
  | cls (ranges : List (Char × Char))
  | bol
  | eol
  | seq (a b : Regex)
  | alt (a b : Regex)
  | star (a : Regex)
  | plus (a : Regex)
  | opt (a : Regex)
  | group (i : Nat) (a : Regex)
  deriving DecidableEq, Repr

/-- A compiled expression (`regexp.Regexp`): the parsed expression and the number
of its capturing groups (`NumSubexp`). -/
structure Regexp where
  re : Regex
  numSubexp : Nat
  deriving DecidableEq, Repr

/-- The characters of an expression, each marked as escaped when a backslash
precedes it; a backslash at the end is an error. -/
def lexRegex : List Char → Option (List (Char × Bool))
  | [] => some []
  | c :: rest =>
    if c = '\\' then
      match rest with
      | [] => none
      | d :: rest2 => (lexRegex rest2).map (fun ts => (d, true) :: ts)
    else (lexRegex rest).map (fun ts => (c, false) :: ts)

/-- The ranges of a character class from the characters between the brackets: `a-b`
with an unescaped hyphen is the range from `a` to `b`, any other character
stands for itself. -/
def classRanges : List (Char × Bool) → List (Char × Char)
  | [] => []
  | [a] => [(a.1, a.1)]
  | [a, b] => [(a.1, a.1), (b.1, b.1)]
  | a :: m :: b :: rest =>
    if m = ('-', false) then (a.1, b.1) :: classRanges rest
    else (a.1, a.1) :: classRanges (m :: b :: rest)

/-- The concatenation of a list of expressions. -/
def Regex.ofSeq : List Regex → Regex
  | [] => .empty
  | [a] => a
  | a :: b :: rest => .seq a (Regex.ofSeq (b :: rest))

/-- The alternation of a list of expressions, the first one preferred. -/
def Regex.ofAlts : List Regex → Regex
  | [] => .empty
  | [a] => a
  | a :: b :: rest => .alt a (Regex.ofAlts (b :: rest))

/-- A group being read: its index, the alternatives already closed by `|` and
the items of the current alternative. -/
structure Frame where
  idx : Nat
  alts : List Regex
  cur : List Regex
  deriving Repr

/-- The expression of a group when its closing parenthesis is read. -/
def Frame.close (f : Frame) : Regex :=
  Regex.ofAlts (f.alts ++ [Regex.ofSeq f.cur])

/-- State of the reader of an expression: the innermost open group, the groups
around it, the index of the next group, the characters of the class being read
if any, and whether a repetition operator may follow. -/
structure ParseState where
  top : Frame
  stack : List Frame
  next : Nat
  cls : Option (List (Char × Bool))
  canRepeat : Bool
  deriving Repr

/-- Appends an item to the current alternative. -/
def ParseState.atom (st : ParseState) (r : Regex) (canRepeat : Bool) : ParseState :=
  { st with top := { st.top with cur := st.top.cur ++ [r] }, canRepeat := canRepeat }

/-- Applies a repetition operator to the last item; an operator with nothing to
repeat is an error, and an operator after an operator (the non-greedy forms)
is outside the embedded syntax. -/
def ParseState.quantify (st : ParseState) (q : Regex → Regex) : Option ParseState :=
  if st.canRepeat then
    match st.top.cur.reverse with
    | [] => none
    | last :: before =>
      some { st with top := { st.top with cur := before.reverse ++ [q last] }, canRepeat := false }
  else none

/-- Reads one character of an expression.  The result is none on an error of the
expression and on syntax outside the embedded one (escapes of letters and
digits, negated and named classes, counted repetition, flags). -/
def parseStep (st : ParseState) (t : Char × Bool) : Option ParseState :=
  match st.cls with
  | some items =>
    if t.2 then
      if t.1.toNat < 128 ∧ t.1.isAlphanum = false then some { st with cls := some (items ++ [t]) }
      else none
    else if t.1 = ']' ∧ items ≠ [] then
      if (classRanges items).all (fun r => decide (r.1.toNat ≤ r.2.toNat)) then
        some ({ st with cls := none }.atom (.cls (classRanges items)) true)
      else none
    else if t.1 = '[' ∨ (t.1 = '^' ∧ items = []) then none
    else some { st with cls := some (items ++ [t]) }
  | none =>
    if t.2 then
      if t.1.toNat < 128 ∧ t.1.isAlphanum = false then some (st.atom (.lit t.1) true) else none
    else if t.1 = '(' then
      some { st with top := { idx := st.next, alts := [], cur := [] },
                     stack := st.top :: st.stack, next := st.next + 1, canRepeat := false }
    else if t.1 = ')' then
      match st.stack with
      | [] => none
      | f :: fs =>
        some { st with top := { f with cur := f.cur ++ [.group st.top.idx st.top.close] },
                       stack := fs, canRepeat := true }
    else if t.1 = '|' then
      some { st with top := { st.top with alts := st.top.alts ++ [Regex.ofSeq st.top.cur],
                                          cur := [] },
                     canRepeat := false }
    else if t.1 = '*' then st.quantify .star
    else if t.1 = '+' then st.quantify .plus
    else if t.1 = '?' then st.quantify .opt
    else if t.1 = '[' then some { st with cls := some [] }
    else if t.1 = '.' then some (st.atom .any true)
    else if t.1 = '^' then some (st.atom .bol false)
    else if t.1 = '$' then some (st.atom .eol false)
    else if t.1 = Char.ofNat 123 then none
    else some (st.atom (.lit t.1) true)

/-- The function `regexp.MustCompile` on the embedded syntax; none stands for the
panic on an expression that does not compile. -/
def MustCompile (str : String) : Option Regexp :=
  match lexRegex str.toList with
  | none => none
  | some toks =>
    match toks.foldl (fun st t => st.bind (fun s => parseStep s t))
        (some { top := { idx := 0, alts := [], cur := [] }, stack := [], next := 1,
                cls := none, canRepeat := false }) with
    | none => none
    | some st =>
      if st.cls.isSome || !st.stack.isEmpty then none
      else some { re := st.top.close, numSubexp := st.next - 1 }

/-- State of a match: the position in the text, the text still to read, and the
submatches recorded so far, the most recent first. -/
structure MState where
  pos : Nat
  rest : List Char
  caps : List (Nat × List Char)
  deriving Repr

/-- Whether a character lies in one of the ranges of a class. -/
def inRanges (ranges : List (Char × Char)) (c : Char) : Bool :=
  ranges.any (fun r => decide (r.1.toNat ≤ c.toNat) && decide (c.toNat ≤ r.2.toNat))

/-- The state after one character is read. -/
def MState.next (s : MState) (rest : List Char) : MState :=
  { s with pos := s.pos + 1, rest := rest }

/-- Greedy repetition of the matcher `m`, then the continuation `k`: one more
round of `m` is tried first, and only a round that reads at least one character
is repeated; at most `n` rounds, where `n` is the length of the text left. -/
def matchLoop (m : MState → (MState → Option MState) → Option MState) :
    Nat → MState → (MState → Option MState) → Option MState
  | 0, s, k => k s
  | n + 1, s, k =>
    match m s (fun s1 => if s1.rest.length < s.rest.length then matchLoop m n s1 k else none) with
    | some r => some r
    | none => k s

/-- The backtracking search for a match of an expression from a state, followed
by the continuation `k`: the first alternative, the longer repetition and the
presence of an optional item are tried first. -/
def Regex.run : Regex → MState → (MState → Option MState) → Option MState
  | .empty, s, k => k s
  | .lit c, s, k =>
    match s.rest with
    | x :: xs => if x = c then k (s.next xs) else none
    | [] => none
  | .any, s, k =>
    match s.rest with
    | x :: xs => if x ≠ '\n' then k (s.next xs) else none
    | [] => none
  | .cls ranges, s, k =>
    match s.rest with
    | x :: xs => if inRanges ranges x then k (s.next xs) else none
    | [] => none
  | .bol, s, k => if s.pos = 0 then k s else none
  | .eol, s, k => if s.rest = [] then k s else none
  | .seq a b, s, k => a.run s (fun s1 => b.run s1 k)
  | .alt a b, s, k =>
    match a.run s k with
    | some r => some r
    | none => b.run s k
  | .star a, s, k => matchLoop a.run s.rest.length s k
  | .plus a, s, k => a.run s (fun s1 => matchLoop a.run s1.rest.length s1 k)
  | .opt a, s, k =>
    match a.run s k with
    | some r => some r
    | none => k s
  | .group i a, s, k =>
    a.run s (fun s1 =>
      k { s1 with caps := (i, s.rest.take (s.rest.length - s1.rest.length)) :: s1.caps })

/-- The leftmost match: the search is started at each position of the text in
turn; the whole match is recorded as group 0. -/
def findFrom (re : Regex) : Nat → List Char → Option MState
  | pos, [] => (Regex.group 0 re).run { pos := pos, rest := [], caps := [] } some
  | pos, c :: rest =>
    match (Regex.group 0 re).run { pos := pos, rest := c :: rest, caps := [] } some with
    | some st => some st
    | none => findFrom re (pos + 1) rest

/-- The text of a submatch: the empty string for a group that took no part in
the match. -/
def capture (caps : List (Nat × List Char)) (i : Nat) : String :=
  match caps.find? (fun p => p.1 = i) with
  | some p => String.mk p.2
  | none => ""

/-- The method `FindStringSubmatch`: none when there is no match, else the whole
match followed by the submatch of each group. -/
def Regexp.FindStringSubmatch (r : Regexp) (s : String) : Option (List String) :=
  match findFrom r.re 0 s.toList with
  | none => none
  | some st => some ((List.range (r.numSubexp + 1)).map (capture st.caps))

/-- The compiled expression `tnregexp` of `init`. -/
def tnregexp : Option Regexp :=
  MustCompile ("^" ++ TarNameRegex ++ "$")

/-- A chart URL (`URL`). -/
structure URL where
  Scheme : String
  Host : String
  Bucket : String
  Name : String
  Version : String
  LocalRef : String
  isLocal : Bool
  original : String
  deriving DecidableEq, Repr

/-- The slices of `strings.SplitN(s, sep, n)` for a one-character separator, on
lists of characters: at most `n` pieces, the last one the unsplit rest. -/
def splitNChars (sep : Char) : Nat → List Char → List (List Char)
  | 0, _ => []
  | 1, s => [s]
  | n + 2, s =>
    match s.span (fun c => c ≠ sep) with
    | (a, []) => [a]
    | (a, _ :: rest) => a :: splitNChars sep (n + 1) rest

/-- The function `strings.SplitN` for a one-character separator. -/
def SplitN (s : String) (sep : Char) (n : Nat) : List String :=
  (splitNChars sep n s.toList).map String.mk

/-- The function `strings.HasSuffix`. -/
def HasSuffix (s suffix : String) : Bool :=
  suffix.toList.isSuffixOf s.toList

/-- The function `strings.TrimSuffix`. -/
def TrimSuffix (s suffix : String) : String :=
  if HasSuffix s suffix then String.mk (s.toList.take (s.toList.length - suffix.toList.length))
  else s

/-- Splits a long-form tar file name into name and version (`parseTarName`).  The
result is the triple of the Go function: name, version, error.  The expression
has more than two groups, so `v[1]` and `v[2]` exist whenever it matches.  The
first branch stands for the panic of `init` on an expression that does not
compile. -/
def parseTarName (name : String) : String × String × Option String :=
  let name := if HasSuffix name ".tgz" then TrimSuffix name ".tgz" else name
  match tnregexp with
  | none => (name, "", some "regexp: Compile: error parsing regexp")
  | some re =>
    match re.FindStringSubmatch name with
    | none => (name, "", some ("invalid name " ++ name))
    | some v => (v.getD 1 "", v.getD 2 "", none)

/-- Parses a chart reference (`Parse`). -/
def Parse (lib : NetLib) (path : String) : Except String URL :=
  match lib.Parse path with
  | .error err => .error err
  | .ok u =>
    if u.Scheme = SchemeHelm then
      let parts := SplitN u.Opaque '/' 3
      if parts.length < 3 then
        .error ("both bucket and chart name are required in " ++ path ++ ": " ++ u.Path)
      else
        .ok { Scheme := u.Scheme, Host := parts.getD 0 "", Bucket := parts.getD 1 "",
              Name := parts.getD 2 "", Version := u.Fragment, LocalRef := "",
              isLocal := false, original := path }
    else if u.Scheme = SchemeHTTP ∨ u.Scheme = SchemeHTTPS then
      let parts := SplitN u.Path '/' 3
      if parts.length < 3 then
        .error ("both bucket and chart name are required in " ++ path)
      else
        match parseTarName (parts.getD 2 "") with
        | (_, _, some err) => .error err
        | (name, version, none) =>
          .ok { Scheme := u.Scheme, Host := u.Host, Bucket := parts.getD 1 "",
                Name := name, Version := version, LocalRef := "",
                isLocal := false, original := path }
    else if u.Scheme = SchemeFile then
      .ok { Scheme := "", Host := "", Bucket := "", Name := "", Version := "",
            LocalRef := u.Path, isLocal := true, original := path }
    else
      .ok { Scheme := "", Host := "", Bucket := "", Name := "", Version := "",
            LocalRef := path, isLocal := true, original := path }

/-- Whether the URL is a local path (`URL.IsLocal`). -/
def URL.IsLocal (u : URL) : Bool :=
  u.isLocal

/-- The local path of the URL and the error (`URL.Local`): the body returns
`u.LocalRef, nil` on every URL. -/
def URL.Local (u : URL) : String × Option String :=
  (u.LocalRef, none)

/-- The short form of the URL and the error (`URL.Short`). -/
def URL.Short (lib : NetLib) (u : URL) : String × Option String :=
  if u.IsLocal then ("", some ErrLocal)
  else
    let fname := u.Host ++ "/" ++ u.Bucket ++ "/" ++ u.Name
    let short : NetURL :=
      { Scheme := SchemeHelm, Opaque := fname, Host := "", Path := "", Fragment := u.Version }
    (lib.UrlString short, none)

/-- The long form of the URL and the error (`URL.Long`). -/
def URL.Long (lib : NetLib) (u : URL) (secure : Bool) : String × Option String :=
  if u.IsLocal then ("", some ErrLocal)
  else
    let scheme := if !secure then SchemeHTTP else SchemeHTTPS
    let fname := u.Bucket ++ "/" ++ u.Name ++ "-" ++ u.Version ++ ".tgz"
    let long : NetURL :=
      { Scheme := scheme, Opaque := "", Host := u.Host, Path := fname, Fragment := "" }
    (lib.UrlString long, none)

/-! ## Chart files (`pkg/chartutil/files.go`)

A Go string is a sequence of bytes, and `string(v)` of a byte slice `v` is the
same sequence: in this section byte slices and strings are both lists of bytes.
A Go map is the list of its entries in the order a `range` yields them; a map
has one entry per key.  The libraries `glob` and `yaml` are oracles. -/

/-- A byte. -/
abbrev Byte := Fin 256

/-- A byte slice, or a Go string. -/
abbrev Bytes := List Byte

/-- The bytes of a text of ASCII characters. -/
def ascii (s : String) : Bytes :=
  s.toList.map (fun c => Fin.ofNat c.toNat)

/-- The index expression `m[k]` of a map in its two-valued form: the value and
whether the key is present. -/
def mapIndex {V : Type} (m : List (Bytes × V)) (k : Bytes) : Option V :=
  (m.find? (fun e => decide (e.1 = k))).map Prod.snd

/-- The assignment `m[k] = v` to a map: the entry of `k`, if any, is replaced. -/
def mapAssign {V : Type} (m : List (Bytes × V)) (k : Bytes) (v : V) : List (Bytes × V) :=
  m.filter (fun e => decide (e.1 ≠ k)) ++ [(k, v)]

/-- The type `Files`, a map from file names to contents, possibly the nil map. -/
inductive Files
  | nil
  | map (entries : List (Bytes × Bytes))
  deriving DecidableEq, Repr

/-- The entries a `range` over the files yields; none for the nil map. -/
def Files.entries : Files → List (Bytes × Bytes)
  | .nil => []
  | .map es => es

/-- A file of a chart (`any.Any`): its name in `TypeUrl`, its content in `Value`. -/
structure Any where
  TypeUrl : Bytes
  Value : Bytes
  deriving DecidableEq, Repr

/-- Builds the files of a chart (`NewFiles`); `none` is the nil slice. -/
def NewFiles (src : Option (List Any)) : Files :=
  match src with
  | none => .map []
  | some fs => .map (fs.foldl (fun files f => mapAssign files f.TypeUrl f.Value) [])

/-- The content of a file (`Files.GetBytes`): empty for a missed key. -/
def Files.GetBytes (f : Files) (name : Bytes) : Bytes :=
  match mapIndex f.entries name with
  | none => []
  | some v => v

/-- The content of a file as a string (`Files.Get`). -/
def Files.Get (f : Files) (name : Bytes) : Bytes :=
  f.GetBytes name

/-- The library functions the package calls: `glob.Compile` with its separators,
answering with the `Match` function of the compiled pattern or an error, and
`yaml.Marshal` on a map of strings. -/
structure ChartLib where
  Compile : Bytes → List Char → Except String (Bytes → Bool)
  Marshal : List (Bytes × Bytes) → Except String Bytes

/-- The matcher `g` of `Files.Glob` (lines 77-80): the compiled pattern, or, when
the pattern does not compile, the compiled pattern `**`; none when that does
not compile either and `g` is left nil. -/
def globMatcher (lib : ChartLib) (pattern : Bytes) : Option (Bytes → Bool) :=
  match lib.Compile pattern ['/'] with
  | .ok g => some g
  | .error _ =>
    match lib.Compile (ascii "**") [] with
    | .ok g => some g
    | .error _ => none

/-- The files matched by a pattern (`Files.Glob`).  The map is passed by
reference: the first component is `f` as the call leaves it.  The second is the
returned files, or none when `Match` is called on a nil matcher, which
panics. -/
def Files.Glob (lib : ChartLib) (f : Files) (pattern : Bytes) : Files × Option Files :=
  let g := globMatcher lib pattern
  let nf : Option (List (Bytes × Bytes)) :=
    f.entries.foldl
      (fun nf e =>
        match nf, g with
        | some nf, some g => if g e.1 then some (mapAssign nf e.1 e.2) else some nf
        | _, _ => none)
      (some (NewFiles none).entries)
  (f, nf.map Files.map)

/-- The function `path.Base` on a slash-separated path: its last element, after
removal of trailing slashes; `.` for the empty path and `/` for a path of
slashes only. -/
def pathBase (p : Bytes) : Bytes :=
  if p = [] then ascii "."
  else
    let stripped := (p.reverse.dropWhile (fun c => decide (c = 47))).reverse
    let last := (stripped.reverse.takeWhile (fun c => decide (c ≠ 47))).reverse
    if last = [] then ascii "/" else last

/-- Marshals a value to YAML (`ToYaml`): the empty string on a marshal error. -/
def ToYaml (lib : ChartLib) (v : List (Bytes × Bytes)) : Bytes :=
  match lib.Marshal v with
  | .error _ => []
  | .ok data => data

/-- The character of the standard base64 alphabet for a 6-bit value. -/
def b64Char (i : Nat) : Byte :=
  if i < 26 then Fin.ofNat (65 + i)
  else if i < 52 then Fin.ofNat (97 + (i - 26))
  else if i < 62 then Fin.ofNat (48 + (i - 52))
  else if i = 62 then 43
  else 47

/-- The 6-bit value of a character of the standard base64 alphabet. -/
def b64Index (c : Byte) : Option Nat :=
  if 65 ≤ c.val ∧ c.val ≤ 90 then some (c.val - 65)
  else if 97 ≤ c.val ∧ c.val ≤ 122 then some (c.val - 97 + 26)
  else if 48 ≤ c.val ∧ c.val ≤ 57 then some (c.val - 48 + 52)
  else if c.val = 43 then some 62
  else if c.val = 47 then some 63
  else none

/-- The padding character `=`. -/
def b64Pad : Byte := 61

/-- The function `base64.StdEncoding.EncodeToString`: three bytes become four
characters, the last group is padded. -/
def EncodeToString : Bytes → Bytes
  | a :: b :: c :: rest =>
    b64Char (a.val / 4) :: b64Char (a.val % 4 * 16 + b.val / 16)
      :: b64Char (b.val % 16 * 4 + c.val / 64) :: b64Char (c.val % 64) :: EncodeToString rest
  | [a, b] =>
    [b64Char (a.val / 4), b64Char (a.val % 4 * 16 + b.val / 16), b64Char (b.val % 16 * 4),
     b64Pad]
  | [a] => [b64Char (a.val / 4), b64Char (a.val % 4 * 16), b64Pad, b64Pad]
  | [] => []

/-- The function `base64.StdEncoding.DecodeString` on text without line breaks:
the decoded bytes, or none for malformed input. -/
def DecodeString : Bytes → Option Bytes
  | [] => some []
  | c0 :: c1 :: c2 :: c3 :: rest =>
    match b64Index c0, b64Index c1 with
    | some i0, some i1 =>
      if rest = [] ∧ c2 = b64Pad ∧ c3 = b64Pad then
        some [Fin.ofNat (i0 * 4 + i1 / 16)]
      else
        match b64Index c2 with
        | none => none
        | some i2 =>
          if rest = [] ∧ c3 = b64Pad then
            some [Fin.ofNat (i0 * 4 + i1 / 16), Fin.ofNat (i1 % 16 * 16 + i2 / 4)]
          else
            match b64Index c3 with
            | none => none
            | some i3 =>
              (DecodeString rest).map (fun tail =>
                Fin.ofNat (i0 * 4 + i1 / 16) :: Fin.ofNat (i1 % 16 * 16 + i2 / 4)
                  :: Fin.ofNat (i2 % 4 * 64 + i3) :: tail)
    | _, _ => none
  | _ => none

/-- The map `m` that `AsConfig` marshals (lines 111-116): for each file, the base
name of the file mapped to its content as a string. -/
def configData (f : Files) : List (Bytes × Bytes) :=
  f.entries.foldl (fun m e => mapAssign m (pathBase e.1) e.2) []

/-- The files as the `data` of a ConfigMap (`Files.AsConfig`). -/
def Files.AsConfig (lib : ChartLib) (f : Files) : Bytes :=
  if f = .nil then []
  else ToYaml lib (configData f)

/-- The map `m` that `AsSecrets` marshals (lines 140-144): for each file, the
base name of the file mapped to the base64 encoding of its content. -/
def secretsData (f : Files) : List (Bytes × Bytes) :=
  f.entries.foldl (fun m e => mapAssign m (pathBase e.1) (EncodeToString e.2)) []

/-- The files as the `data` of a Secret (`Files.AsSecrets`). -/
def Files.AsSecrets (lib : ChartLib) (f : Files) : Bytes :=
  if f = .nil then []
  else ToYaml lib (secretsData f)

/-! ## The HTTP getter (`pkg/getter/httpgetter.go`)

`net/http` is a library outside the repository: the construction of a request
and the client are oracles.  The body of a response is a stream: reading it
delivers bytes and ends at the end of the stream or with an error. -/

/-- The options of a getter (`options`) that `get` reads. -/
structure options where
  username : String
  password : String
  userAgent : String
  deriving DecidableEq, Repr

/-- The getter (`HTTPGetter`); its client is the oracle `Do` of the library. -/
structure HTTPGetter where
  opts : options
  deriving DecidableEq, Repr

/-- A request (`http.Request`): method, URL and headers. -/
structure HttpRequest where
  Method : String
  URL : String
  Header : List (String × String)
  deriving DecidableEq, Repr

/-- The body of a response (`resp.Body`): the bytes that reading delivers, and the
error that ends the reading, none when the stream ends normally. -/
structure HttpBody where
  data : Bytes
  err : Option String
  deriving DecidableEq, Repr

/-- A response (`http.Response`): status code, status line and body. -/
structure HttpResponse where
  StatusCode : Int
  Status : String
  Body : HttpBody
  deriving DecidableEq, Repr

/-- The library functions the getter calls: `http.NewRequest` without body, the
method `Do` of the client, and the value that `SetBasicAuth` gives the
`Authorization` header. -/
structure HttpLib where
  NewRequest : String → String → Except String HttpRequest
  Do : HttpRequest → Except String HttpResponse
  BasicAuth : String → String → String

/-- The method `Header.Set`: the header gets the single value given. -/
def headerSet (h : List (String × String)) (key value : String) : List (String × String) :=
  h.filter (fun e => decide (e.1 ≠ key)) ++ [(key, value)]

/-- What `get` leaves: the content of the returned buffer, the returned error
and whether the body of the response was closed. -/
structure GetResult where
  buf : Bytes
  err : Option String
  closed : Bool
  deriving DecidableEq, Repr

/-- The request of `get` after the headers are set (lines 61-67). -/
def HTTPGetter.prepare (lib : HttpLib) (g : HTTPGetter) (req : HttpRequest) : HttpRequest :=
  let req1 : HttpRequest :=
    if g.opts.userAgent ≠ "" then
      { req with Header := headerSet req.Header "User-Agent" g.opts.userAgent }
    else req
  if g.opts.username ≠ "" ∧ g.opts.password ≠ "" then
    { req1 with
      Header := headerSet req1.Header "Authorization"
        (lib.BasicAuth g.opts.username g.opts.password) }
  else req1

/-- Fetches a URL (`HTTPGetter.get`).  `io.Copy` moves into the buffer the bytes
that reading the body delivers and returns the error that ended the reading,
if any. -/
def HTTPGetter.get (lib : HttpLib) (g : HTTPGetter) (href : String) : GetResult :=
  let buf : Bytes := []
  match lib.NewRequest "GET" href with
  | .error err => { buf := buf, err := some err, closed := false }
  | .ok req =>
    match lib.Do (g.prepare lib req) with
    | .error err => { buf := buf, err := some err, closed := false }
    | .ok resp =>
      if resp.StatusCode ≠ 200 then
        { buf := buf, err := some ("failed to fetch " ++ href ++ " : " ++ resp.Status),
          closed := false }
      else
        { buf := buf ++ resp.Body.data, err := resp.Body.err, closed := true }

/-- Performs a Get and returns the body (`HTTPGetter.Get`). -/
def HTTPGetter.Get (lib : HttpLib) (g : HTTPGetter) (href : String) : GetResult :=
  g.get lib href

/-! ## Auxiliary definitions for the statements -/

/-- Every hook, in order, repeated once per occurrence of `RELEASE_TEST` among
its events: the closed form of the two loops of `filterTestHooks`. -/
def collectedTestHooks (hooks : List Hook) : List Hook :=
  hooks.flatMap (fun h => List.replicate (h.Events.count Hook_Event.RELEASE_TEST) h)

/-- A hook with its last-run timestamp unset: two hooks with the same image
differ at most in their last run. -/
def Hook.notRun (h : Hook) : Hook :=
  { h with LastRun := 0 }

/-- A hook with the given name, manifest and events, and nothing else set. -/
def mkHook (name manifest : String) (events : List Hook_Event) : Hook :=
  { Name := name, Kind := "Pod", Path := name, Manifest := manifest, Events := events,
    LastRun := 0, Weight := 0, DeletePolicies := [] }

/-- A test hook whose annotation names the test event twice. -/
def twiceTestHook : Hook :=
  mkHook "t" "m" [Hook_Event.RELEASE_TEST, Hook_Event.RELEASE_TEST]

/-- The messages of a test named `name` once the stream accepts every message
and its pod is created, from the answer of the wait on the pod: the "running"
status, then `UNKNOWN` with the text of the error when the wait fails,
`SUCCESS` for phase `PodSucceeded`, `FAILURE` for phase `PodFailed`, and no
terminal status for any other phase. -/
def testBlock (name : String) (answer : PodPhase × Option String) : List StreamMsg :=
  match answer with
  | (_, some e) => [.running name, .unknown name e]
  | (phase, none) =>
    if phase = .PodSucceeded then [.running name, .success name]
    else if phase = .PodFailed then [.running name, .failed name]
    else [.running name]

/-- The answer of the cluster client to the wait on the pod of manifest `m`, asked
after the events `log`, the "running" status of the test and the creation of
the pod. -/
def waitAnswer (env : Environment) (log : List Event) (name m : String) :
    PodPhase × Option String :=
  env.KubeClient.WaitAndGetCompletedPodPhase
    (log ++ [Event.send (.running name)] ++ [Event.kube (.Create env.Namespace m)])
    env.Namespace m (wrapInt64 (env.Timeout * timeSecond))

/-- The name of the test of a manifest: the name in the head of the manifest. -/
def testName (lib : Lib) (m : String) : String :=
  match lib.yamlUnmarshal m with
  | .ok sh => sh.Name
  | .error _ => ""

/-- The cluster client calls one test can make: the creation of its pod in the
namespace of the environment, then the wait for its completed phase. -/
def testCalls (env : Environment) (m : String) : List KubeCall :=
  [KubeCall.Create env.Namespace m,
   KubeCall.WaitAndGetCompletedPodPhase env.Namespace m (wrapInt64 (env.Timeout * timeSecond))]

/-- A library in which every manifest is a pod named after the manifest. -/
def podLib : Lib :=
  { yamlUnmarshal := fun m => .ok { Kind := "Pod", Name := m }
    SplitManifests := fun m => [m]
    Now := fun log => log.length }

/-- An environment whose stream accepts every message and whose pod creations
succeed; pod `a` completes as succeeded, pod `b` as failed, and the wait on
any other pod times out. -/
def threePodsEnv : Environment :=
  { Namespace := "default"
    KubeClient :=
      { Create := fun _ _ _ => none
        WaitAndGetCompletedPodPhase := fun _ _ m _ =>
          if m = "a" then (PodPhase.PodSucceeded, none)
          else if m = "b" then (PodPhase.PodFailed, none)
          else (PodPhase.PodUnknown, some "timed out") }
    Stream := { Send := fun _ _ => none }
    Timeout := 300 }

/-- A suite of the three tests `a`, `b`, `c`, as `NewTestSuite` builds it. -/
def threePodsSuite : TestSuite :=
  { StartedAt := none, CompletedAt := none, TestManifests := ["a", "b", "c"], Results := [] }

/-- The terminal revision of a rollback: deployed when there is no error, failed
with the error otherwise. -/
def finalRevision (pending : Release) (hooks : List Hook) (target : Release) :
    Option Err → Release
  | none => deployedRevision pending hooks target
  | some e => failedRevision pending hooks e

/-- A cluster client on which every operation succeeds. -/
def okClient : ClusterClient :=
  { Apply := fun _ _ _ => none
    Delete := fun _ _ _ => none
    GetPhase := fun _ _ _ _ => .ok .Succeeded
    Now := fun log => log.length + 1 }

/-- A cluster client that fails every apply (`newUpdateFailingKubeClient` of the
tests). -/
def failingClient : ClusterClient :=
  { okClient with Apply := fun _ _ _ => some "update failed" }

/-- A revision with the given name, version, status, manifest and hooks, in
namespace `default`. -/
def mkRelease (name : String) (version : Int) (code : Status_Code) (manifest : String)
    (hooks : List Hook) : Release :=
  { Name := name, Namespace := "default", Chart := "hello", Config := "name: value",
    Manifest := manifest, Hooks := hooks, Version := version,
    Info := { Status := { Code := code, Notes := "" }, Description := "Named Release Stub" } }

/-- A rollback request with the given name, target version and hook switch. -/
def mkRequest (name : String) (version : Int) (disableHooks : Bool) : RollbackReleaseRequest :=
  { Name := name, Version := version, DisableHooks := disableHooks, Timeout := 0,
    Recreate := false, Force := false, Wait := false }

/-- The two hooks of the release stub of the tests. -/
def stubHooks : List Hook :=
  [mkHook "test-cm" "manifestWithHook" [Hook_Event.POST_INSTALL, Hook_Event.PRE_DELETE],
   mkHook "finding-nemo" "manifestWithTestHook" [Hook_Event.RELEASE_TEST]]

/-- The rollback hook of the upgraded release of the tests. -/
def rollbackHooks : List Hook :=
  [mkHook "test-cm" "manifestWithRollbackHooks"
    [Hook_Event.PRE_ROLLBACK, Hook_Event.POST_ROLLBACK]]

/-- Store of `TestRollbackRelease` before its first rollback: revision 1
superseded, revision 2 deployed with the rollback hook and manifest
"hello world". -/
def storeTwo : Store :=
  [mkRelease "angry-panda" 1 .SUPERSEDED "stub manifest" stubHooks,
   mkRelease "angry-panda" 2 .DEPLOYED "hello world" rollbackHooks]

/-- Store of `TestRollbackWithReleaseVersion`: another release, and a release
whose revision 2 is deployed under a failed head, revision 3. -/
def storeFailedHead : Store :=
  [mkRelease "other" 1 .DEPLOYED "stub manifest" stubHooks,
   mkRelease "angry-panda" 1 .SUPERSEDED "stub manifest" stubHooks,
   mkRelease "angry-panda" 2 .DEPLOYED "stub manifest" stubHooks,
   mkRelease "angry-panda" 3 .FAILED "stub manifest" stubHooks]

/-- Store of `TestRollbackRelease` before its second rollback: revisions 1 and 2
superseded, revision 3, the first rollback, deployed. -/
def storeThree : Store :=
  [mkRelease "angry-panda" 1 .SUPERSEDED "stub manifest" stubHooks,
   mkRelease "angry-panda" 2 .SUPERSEDED "hello world" rollbackHooks,
   mkRelease "angry-panda" 3 .DEPLOYED "stub manifest" stubHooks]

/-- Store of `TestRollbackReleaseNoHooks`: revision 1, superseded, carries the
rollback hook; revision 2 is deployed. -/
def storeRollbackHooks : Store :=
  [mkRelease "angry-panda" 1 .SUPERSEDED "stub manifest" rollbackHooks,
   mkRelease "angry-panda" 2 .DEPLOYED "stub manifest" []]

/-- The rollback hook of a release that also fires after the install and ran
then, at time 7. -/
def ranHooks : List Hook :=
  [{ mkHook "test-cm" "manifestWithRollbackHooks"
      [Hook_Event.POST_INSTALL, Hook_Event.PRE_ROLLBACK, Hook_Event.POST_ROLLBACK] with
     LastRun := 7 }]

/-- A store like that of `TestRollbackReleaseNoHooks` in which the hook of
revision 1 ran after the install: revision 1, superseded, carries the hook with
its last run; revision 2 is deployed. -/
def storeHookRan : Store :=
  [mkRelease "angry-panda" 1 .SUPERSEDED "stub manifest" ranHooks,
   mkRelease "angry-panda" 2 .DEPLOYED "stub manifest" []]

/-- The answers of `net/url` on the inputs of the examples: the two forms of the
chart of the package comment, a short form without chart name, short forms
with an empty chart name and with an empty bucket, long forms with an empty
chart name and with an empty bucket, a `file` URL, a relative path, an absolute
path, a URL of another scheme, and a relative path with a percent sign that
starts no escape, which `url.Parse` rejects.  `UrlString` assembles the URLs
that `Short` and `Long` build. -/
def exampleNet : NetLib :=
  { Parse := fun s =>
      match s with
      | "https://example.com/foo/bar-1.2.3.tgz" =>
        .ok { Scheme := "https", Opaque := "", Host := "example.com",
              Path := "/foo/bar-1.2.3.tgz", Fragment := "" }
      | "helm:example.com/foo/bar#1.2.3" =>
        .ok { Scheme := "helm", Opaque := "example.com/foo/bar", Host := "", Path := "",
              Fragment := "1.2.3" }
      | "helm:example.com/foo" =>
        .ok { Scheme := "helm", Opaque := "example.com/foo", Host := "", Path := "",
              Fragment := "" }
      | "helm:example.com/foo/" =>
        .ok { Scheme := "helm", Opaque := "example.com/foo/", Host := "", Path := "",
              Fragment := "" }
      | "helm:example.com//bar#1.2.3" =>
        .ok { Scheme := "helm", Opaque := "example.com//bar", Host := "", Path := "",
              Fragment := "1.2.3" }
      | "https://example.com/foo/" =>
        .ok { Scheme := "https", Opaque := "", Host := "example.com", Path := "/foo/",
              Fragment := "" }
      | "https://example.com//bar-1.2.3.tgz" =>
        .ok { Scheme := "https", Opaque := "", Host := "example.com",
              Path := "//bar-1.2.3.tgz", Fragment := "" }
      | "file:///foo/bar" =>
        .ok { Scheme := "file", Opaque := "", Host := "", Path := "/foo/bar", Fragment := "" }
      | "./charts/alpine" =>
        .ok { Scheme := "", Opaque := "", Host := "", Path := "./charts/alpine", Fragment := "" }
      | "/charts/alpine" =>
        .ok { Scheme := "", Opaque := "", Host := "", Path := "/charts/alpine", Fragment := "" }
      | "s3://charts/alpine" =>
        .ok { Scheme := "s3", Opaque := "", Host := "charts", Path := "/alpine", Fragment := "" }
      | "./charts/100%" => .error "parse \"./charts/100%\": invalid URL escape \"%\""
      | _ => .error "parse error"
    UrlString := fun u =>
      if u.Opaque ≠ "" then
        u.Scheme ++ ":" ++ u.Opaque ++ (if u.Fragment ≠ "" then "#" ++ u.Fragment else "")
      else u.Scheme ++ "://" ++ u.Host ++ "/" ++ u.Path }

/-- Whether a character is a decimal digit. -/
def isDigitChar (c : Char) : Bool := inRanges [('0', '9')] c

/-- Whether a character may occur in an identifier of a semantic version: a
digit, a letter or a hyphen. -/
def isIdentChar (c : Char) : Bool := inRanges [('0', '9'), ('A', 'Z'), ('a', 'z'), ('-', '-')] c

/-- Whether a character may occur in a chart name: a digit, a letter, an
underscore, and also a hyphen or a slash. -/
def isNameChar (c : Char) : Bool :=
  inRanges [('0', '9'), ('A', 'Z'), ('a', 'z'), ('-', '-'), ('_', '_'), ('/', '/')] c

/-- Whether a text is a number: one digit or more. -/
def isNumber (x : List Char) : Bool := !x.isEmpty && x.all isDigitChar

/-- Whether a text is an identifier of a semantic version: one identifier
character or more. -/
def isIdent (x : List Char) : Bool := !x.isEmpty && x.all isIdentChar

/-- The identifiers of a list, each after a dot. -/
def dotted (ids : List (List Char)) : List Char := ids.flatMap (fun i => '.' :: i)

/-- The text of a list of identifiers in a semantic version: nothing for the
empty list, else the separator and the identifiers with dots in between. -/
def identList (sep : Char) : List (List Char) → List Char
  | [] => []
  | i :: ids => sep :: (i ++ dotted ids)

/-- The parts of a semantic version: major, minor and patch number, pre-release
identifiers and build identifiers. -/
structure SemVer where
  major : List Char
  minor : List Char
  patch : List Char
  pre : List (List Char)
  build : List (List Char)
  deriving DecidableEq, Repr

/-- Whether the parts of a semantic version are numbers and identifiers. -/
def SemVer.wellFormed (v : SemVer) : Bool :=
  isNumber v.major && isNumber v.minor && isNumber v.patch
    && v.pre.all isIdent && v.build.all isIdent

/-- The text of a semantic version: `major.minor.patch`, then the pre-release
identifiers after a hyphen and the build identifiers after a plus sign. -/
def SemVer.text (v : SemVer) : List Char :=
  v.major ++ ('.' :: (v.minor ++ ('.' :: (v.patch ++
    (identList '-' v.pre ++ identList '+' v.build)))))

/-- The class of digits, as `TarNameRegex` writes it. -/
def digitRanges : List (Char × Char) := [('0', '9')]

/-- The class of identifier characters, as `TarNameRegex` writes it. -/
def identRanges : List (Char × Char) := [('0', '9'), ('A', 'Z'), ('a', 'z'), ('-', '-')]

/-- The class of name characters, as `TarNameRegex` writes it. -/
def nameRanges : List (Char × Char) :=
  [('0', '9'), ('A', 'Z'), ('a', 'z'), ('-', '-'), ('_', '_'), ('/', '/')]

/-- The group of `TarNameRegex` for a dot and an identifier. -/
def dottedRe (i : Nat) : Regex :=
  .group i (.seq (.lit '.') (.plus (.cls identRanges)))

/-- The group of `TarNameRegex` for a dot and a number. -/
def numberRe (i : Nat) : Regex :=
  .group i (.seq (.lit '.') (.plus (.cls digitRanges)))

/-- The group of `TarNameRegex` for a separator and a list of identifiers. -/
def identsRe (sep : Char) (i : Nat) : Regex :=
  .group i (.seq (.lit sep)
    (.group (i + 1) (.seq (.plus (.cls identRanges)) (.star (dottedRe (i + 2))))))

/-- The body of the version group of `TarNameRegex`. -/
def versionRe : Regex :=
  .seq (.opt (.lit 'v'))
    (.seq (.group 3 (.plus (.cls digitRanges)))
      (.seq (.opt (numberRe 4))
        (.seq (.opt (numberRe 5))
          (.seq (.opt (identsRe '-' 6)) (.opt (identsRe '+' 9))))))

/-- The last group of `TarNameRegex`: any character and `tgz`. -/
def tgzRe : Regex :=
  .group 12 (.seq .any (.seq (.lit 't') (.seq (.lit 'g') (.lit 'z'))))

/-- What follows the hyphen in the expression of `tnregexp`: the version group,
the optional last group and the end of the text. -/
def tailRe : Regex :=
  .seq (.group 2 versionRe) (.seq (.opt tgzRe) .eol)

/-- The parsed form of the expression of `tnregexp`. -/
def tarNameTree : Regex :=
  .seq .bol (.seq (.group 1 (.plus (.cls nameRanges))) (.seq (.lit '-') tailRe))

/-- A search result that exists and has the property `Q`. -/
def Good (Q : MState → Prop) (o : Option MState) : Prop := ∃ st, o = some st ∧ Q st

/-- From a state with `P`, the search for `r` reaches a state with `Post` on its
first attempt: it succeeds with a good result whenever the continuation gives a
good result on every state with `Post`. -/
def Triple (P : MState → Prop) (r : Regex) (Post : MState → Prop) : Prop :=
  ∀ (Q : MState → Prop) (s : MState) (k : MState → Option MState),
    P s → (∀ s1, Post s1 → Good Q (k s1)) → Good Q (r.run s k)

/-- The search for `r` from `s` fails whatever follows. -/
def Fails (r : Regex) (s : MState) : Prop := ∀ k, r.run s k = none

/-- A state with the text `r` left and the submatches `c1` and `c2` of groups 1
and 2. -/
def At (r : List Char) (c1 c2 : String) (s : MState) : Prop :=
  s.rest = r ∧ capture s.caps 1 = c1 ∧ capture s.caps 2 = c2

/-- The local URL that `Parse` returns for `file:///foo/bar`. -/
def localFooBar : URL :=
  { Scheme := "", Host := "", Bucket := "", Name := "", Version := "",
    LocalRef := "/foo/bar", isLocal := true, original := "file:///foo/bar" }

/-- A glob and YAML library for the examples: the pattern `[` does not compile,
`**` matches every name, `config/*` the names under `config/`, any other
pattern the name equal to it; a map is marshalled entry by entry. -/
def exampleChart : ChartLib :=
  { Compile := fun p _ =>
      if p = ascii "[" then .error "unexpected end of input"
      else if p = ascii "**" then .ok (fun _ => true)
      else if p = ascii "config/*" then .ok (fun n => (ascii "config/").isPrefixOf n)
      else .ok (fun n => decide (n = p))
    Marshal := fun m => .ok (m.flatMap (fun e => e.1 ++ ascii ": " ++ e.2 ++ ascii "\n")) }

/-- Three files of a chart: a configuration file, a binary key and a readme. -/
def exampleFiles : Files :=
  .map [(ascii "config/a.toml", ascii "a = 1"), (ascii "secrets/key.pem", [0, 255, 16]),
        (ascii "README.md", ascii "hi")]

/-- An HTTP library for the examples: the URL `:` cannot be made into a request;
the client answers `200` with a body for the index, `404` for a missing file,
`200` with a body whose reading breaks off for the broken file, and fails to
connect otherwise. -/
def exampleHttp : HttpLib :=
  { NewRequest := fun method url =>
      if url = ":" then .error "parse \":\": missing protocol scheme"
      else .ok { Method := method, URL := url, Header := [] }
    Do := fun req =>
      match req.URL with
      | "https://example.com/index.yaml" =>
        .ok { StatusCode := 200, Status := "200 OK",
              Body := { data := ascii "entries", err := none } }
      | "https://example.com/missing" =>
        .ok { StatusCode := 404, Status := "404 Not Found",
              Body := { data := ascii "not found", err := none } }
      | "https://example.com/broken" =>
        .ok { StatusCode := 200, Status := "200 OK",
              Body := { data := ascii "ent", err := some "unexpected EOF" } }
      | _ => .error "connection refused"
    BasicAuth := fun username password => "Basic " ++ username ++ ":" ++ password }

/-- A getter without credentials and without user agent. -/
def plainGetter : HTTPGetter :=
  { opts := { username := "", password := "", userAgent := "" } }

/-! ## Properties of the test suite runner -/

/-- The inner loop of `filterTestHooks` appends the hook once per occurrence of
`RELEASE_TEST` among its events. -/
theorem filter_inner_loop (h : Hook) (events : List Hook_Event) (acc : List Hook) :
    events.foldl
        (fun testHooks e => if e = Hook_Event.RELEASE_TEST then testHooks ++ [h] else testHooks)
        acc
      = acc ++ List.replicate (events.count Hook_Event.RELEASE_TEST) h := by
  induction events generalizing acc with
  | nil => simp
  | cons e es ih =>
    rw [List.foldl_cons, ih]
    by_cases he : e = Hook_Event.RELEASE_TEST
    · subst he
      simp [List.replicate_succ]
    · have hne : ¬ (Hook_Event.RELEASE_TEST = e) := fun hc => he hc.symm
      simp [he, List.count_cons, hne]

/-- The outer loop of `filterTestHooks`: every hook, in order, repeated once per
occurrence of `RELEASE_TEST` among its events. -/
theorem filter_outer_loop (hooks : List Hook) (acc : List Hook) :
    hooks.foldl
        (fun testHooks h =>
          h.Events.foldl
            (fun testHooks e =>
              if e = Hook_Event.RELEASE_TEST then testHooks ++ [h] else testHooks)
            testHooks)
        acc
      = acc ++ hooks.flatMap
          (fun h => List.replicate (h.Events.count Hook_Event.RELEASE_TEST) h) := by
  induction hooks generalizing acc with
  | nil => simp
  | cons h hs ih =>
    rw [List.foldl_cons, filter_inner_loop, ih]
    simp [List.flatMap_cons, List.append_assoc]

/-- The collected hooks are empty exactly when no hook lists `RELEASE_TEST`. -/
theorem collected_eq_nil_iff (hooks : List Hook) :
    collectedTestHooks hooks = [] ↔ ∀ h ∈ hooks, Hook_Event.RELEASE_TEST ∉ h.Events := by
  unfold collectedTestHooks
  induction hooks with
  | nil => simp
  | cons h hs ih =>
    simp only [List.flatMap_cons, List.append_eq_nil, ih, List.mem_cons, forall_eq_or_imp]
    constructor
    · rintro ⟨h1, h2⟩
      refine ⟨?_, h2⟩
      have : h.Events.count Hook_Event.RELEASE_TEST = 0 := by
        cases hc : h.Events.count Hook_Event.RELEASE_TEST with
        | zero => rfl
        | succ n => rw [hc] at h1; simp [List.replicate_succ] at h1
      exact List.count_eq_zero.mp this
    · rintro ⟨h1, h2⟩
      refine ⟨?_, h2⟩
      rw [List.count_eq_zero.mpr h1]
      rfl

/-- Closed form of `filterTestHooks`. -/
theorem filterTestHooks_eq (hooks : List Hook) (releaseName : String) :
    filterTestHooks hooks releaseName =
      if collectedTestHooks hooks = [] then
        .error ("no tests found for release " ++ releaseName)
      else .ok (collectedTestHooks hooks) := by
  unfold filterTestHooks
  simp only [filter_outer_loop, List.nil_append]
  cases hooks with
  | nil => simp [collectedTestHooks]
  | cons h hs =>
    simp only [List.length_cons, Nat.succ_ne_zero, if_false, List.length_eq_zero]
    rfl

/-- Closed form of `prepareTestManifests`: the split manifests of the collected
hooks, concatenated in the order of the hooks. -/
theorem prepareTestManifests_eq (lib : Lib) (hooks : List Hook) (releaseName : String) :
    prepareTestManifests lib hooks releaseName =
      if collectedTestHooks hooks = [] then
        .error ("no tests found for release " ++ releaseName)
      else .ok ((collectedTestHooks hooks).flatMap (fun h => lib.SplitManifests h.Manifest)) := by
  have inner : ∀ (l acc : List String), l.foldl (fun tests t => tests ++ [t]) acc = acc ++ l := by
    intro l
    induction l with
    | nil => simp
    | cons a l ih => intro acc; simp [ih]
  have outer : ∀ (hs : List Hook) (acc : List String),
      hs.foldl (fun tests h =>
          (lib.SplitManifests h.Manifest).foldl (fun tests t => tests ++ [t]) tests) acc
        = acc ++ hs.flatMap (fun h => lib.SplitManifests h.Manifest) := by
    intro hs
    induction hs with
    | nil => simp
    | cons a l ih =>
      intro acc
      rw [List.foldl_cons, inner, ih]
      simp [List.flatMap_cons, List.append_assoc]
  unfold prepareTestManifests
  rw [filterTestHooks_eq]
  by_cases hc : collectedTestHooks hooks = []
  · simp [hc]
  · simp [hc, outer]

/-- When no hook lists `RELEASE_TEST` more than once, the collected hooks are the
hooks filtered to those listing `RELEASE_TEST`, in order. -/
theorem collected_eq_filter (hooks : List Hook)
    (hnodup : ∀ h ∈ hooks, h.Events.count Hook_Event.RELEASE_TEST ≤ 1) :
    collectedTestHooks hooks =
      hooks.filter (fun h => decide (Hook_Event.RELEASE_TEST ∈ h.Events)) := by
  unfold collectedTestHooks
  induction hooks with
  | nil => rfl
  | cons h hs ih =>
    have ih1 := ih (fun x hx => hnodup x (List.mem_cons_of_mem _ hx))
    have h1 := hnodup h (List.mem_cons_self _ _)
    rw [List.flatMap_cons, ih1, List.filter_cons]
    by_cases hm : Hook_Event.RELEASE_TEST ∈ h.Events
    · have hpos : 0 < h.Events.count Hook_Event.RELEASE_TEST := List.count_pos_iff.mpr hm
      have : h.Events.count Hook_Event.RELEASE_TEST = 1 := by omega
      simp [this, hm]
    · have : h.Events.count Hook_Event.RELEASE_TEST = 0 := List.count_eq_zero.mpr hm
      simp [this, hm]

/-- C1: `NewTestSuite` fails, with "no tests found for release" followed by the
name of the release, exactly when no hook of the release lists `RELEASE_TEST`
among its events (so also when the release has no hooks); exactly when some
hook lists it, a suite is returned without error, and its results are empty. -/
theorem NewTestSuite_no_tests_iff (lib : Lib) (rel : Release) (env : Environment) :
    ((NewTestSuite lib rel env).2 = .error ("no tests found for release " ++ rel.Name)
        ↔ ∀ h ∈ rel.Hooks, Hook_Event.RELEASE_TEST ∉ h.Events)
    ∧ ((∃ suite, (NewTestSuite lib rel env).2 = .ok suite ∧ suite.Results = [])
        ↔ ∃ h ∈ rel.Hooks, Hook_Event.RELEASE_TEST ∈ h.Events)
    ∧ ((NewTestSuite lib { rel with Hooks := [] } env).2
        = .error ("no tests found for release " ++ rel.Name)) := by
  have key : ∀ r : Release, (NewTestSuite lib r env).2 =
      if collectedTestHooks r.Hooks = [] then
        .error ("no tests found for release " ++ r.Name)
      else .ok { StartedAt := none, CompletedAt := none,
                 TestManifests :=
                   (collectedTestHooks r.Hooks).flatMap (fun h => lib.SplitManifests h.Manifest),
                 Results := [] } := by
    intro r
    unfold NewTestSuite
    rw [prepareTestManifests_eq]
    by_cases hc : collectedTestHooks r.Hooks = [] <;> simp [hc]
  refine ⟨?_, ?_, ?_⟩
  · rw [key, ← collected_eq_nil_iff]
    by_cases hc : collectedTestHooks rel.Hooks = [] <;> simp [hc]
  · rw [key]
    have hiff := collected_eq_nil_iff rel.Hooks
    by_cases hc : collectedTestHooks rel.Hooks = []
    · have hall := hiff.mp hc
      simp only [hc, if_true]
      constructor
      · rintro ⟨suite, hs, _⟩
        cases hs
      · rintro ⟨h, hh, hev⟩
        exact absurd hev (hall h hh)
    · have hex : ∃ h ∈ rel.Hooks, Hook_Event.RELEASE_TEST ∈ h.Events := by
        by_contra hne
        apply hc
        apply hiff.mpr
        intro h hh hev
        exact hne ⟨h, hh, hev⟩
      simp only [hc, if_false]
      exact ⟨fun _ => hex, fun _ => ⟨_, rfl, rfl⟩⟩
  · rw [key]
    simp [collectedTestHooks]

/-- C5, evaluated on the source: for the one-hook list whose hook names
`RELEASE_TEST` twice among its events, `filterTestHooks` succeeds and returns
that hook twice, and `prepareTestManifests` returns its manifests twice. -/
theorem filterTestHooks_repeats_hook :
    filterTestHooks [twiceTestHook] "r" = .ok [twiceTestHook, twiceTestHook]
    ∧ [twiceTestHook].filter (fun h => decide (Hook_Event.RELEASE_TEST ∈ h.Events))
        = [twiceTestHook]
    ∧ ∀ lib : Lib, prepareTestManifests lib [twiceTestHook] "r"
        = .ok (lib.SplitManifests "m" ++ lib.SplitManifests "m") := by
  refine ⟨rfl, by decide, ?_⟩
  intro lib
  rw [prepareTestManifests_eq]
  simp [collectedTestHooks, twiceTestHook, mkHook]

/-- What a successful `newTest` returns. -/
theorem newTest_ok (lib : Lib) (m : String) (t0 : test) (h : newTest lib m = .ok t0) :
    ∃ sh, lib.yamlUnmarshal m = .ok sh ∧ sh.Kind = "Pod" ∧
      t0 = { manifest := m,
             result := { Name := sh.Name, Status := .UNKNOWN, Info := "",
                         StartedAt := none, CompletedAt := none } } := by
  unfold newTest at h
  cases hy : lib.yamlUnmarshal m with
  | error e => rw [hy] at h; cases h
  | ok sh =>
    rw [hy] at h
    by_cases hk : sh.Kind = "Pod"
    · simp only [hk, ne_eq, not_true_eq_false, if_false] at h
      refine ⟨sh, rfl, hk, ?_⟩
      cases h
      rfl
    · simp only [ne_eq, hk, not_false_eq_true, if_true] at h
      cases h

/-- The cluster client calls of one pass through the loop body: nothing, the
creation of the pod, or the creation followed by the wait, all in the namespace
of the environment and on the manifest of the test. -/
theorem runTest_kubeCalls (lib : Lib) (env : Environment) (log : List Event) (m : String) :
    kubeCalls (runTest lib env log m).log = kubeCalls log
    ∨ kubeCalls (runTest lib env log m).log
        = kubeCalls log ++ [KubeCall.Create env.Namespace m]
    ∨ kubeCalls (runTest lib env log m).log
        = kubeCalls log ++ [KubeCall.Create env.Namespace m,
            KubeCall.WaitAndGetCompletedPodPhase env.Namespace m
              (wrapInt64 (env.Timeout * timeSecond))] := by
  unfold runTest
  cases hn : newTest lib m with
  | error e => left; rfl
  | ok t0 =>
    obtain ⟨sh, _, _, ht0⟩ := newTest_ok lib m t0 hn
    subst ht0
    simp only [streamRunning, streamError, streamUnknown, streamSuccess, streamFailed,
      streamMessage, createTestPod, getPodExitStatus]
    repeat' split
    all_goals (simp only [Prod.mk.injEq] at *)
    all_goals (casesm* _ ∧ _)
    all_goals subst_vars
    all_goals simp_all [kubeCalls, List.filterMap_append]

/-- A manifest whose head decodes to kind `Pod` yields a test. -/
theorem newTest_pod (lib : Lib) (m : String) (sh : SimpleHead)
    (hy : lib.yamlUnmarshal m = .ok sh) (hk : sh.Kind = "Pod") :
    newTest lib m = .ok { manifest := m,
                          result := { Name := sh.Name, Status := .UNKNOWN, Info := "",
                                      StartedAt := none, CompletedAt := none } } := by
  simp [newTest, hy, hk]

/-- With an accepting stream and successful creations, one pass through the loop
body reaches the `append` and streams the block of messages that the answer of
the wait on the pod determines. -/
theorem runTest_streamed (lib : Lib) (env : Environment) (log : List Event) (m : String)
    (sh : SimpleHead) (hy : lib.yamlUnmarshal m = .ok sh) (hk : sh.Kind = "Pod")
    (hsend : ∀ l msg, env.Stream.Send l msg = none)
    (hcreate : ∀ l ns x, env.KubeClient.Create l ns x = none) :
    (runTest lib env log m).ret = none
    ∧ streamed (runTest lib env log m).log
        = streamed log ++ testBlock sh.Name (waitAnswer env log sh.Name m) := by
  unfold runTest
  rw [newTest_pod lib m sh hy hk]
  simp only [streamRunning, streamError, streamUnknown, streamSuccess, streamFailed,
    streamMessage, createTestPod, getPodExitStatus, hsend, hcreate, waitAnswer]
  generalize env.KubeClient.WaitAndGetCompletedPodPhase _ _ _ _ = ans
  obtain ⟨phase, err⟩ := ans
  cases err with
  | some e => simp [testBlock, streamed, List.filterMap_append]
  | none =>
    by_cases h1 : phase = .PodSucceeded
    · simp [testBlock, streamed, List.filterMap_append, h1]
    · by_cases h2 : phase = .PodFailed
      · simp [testBlock, streamed, List.filterMap_append, h2]
      · simp [testBlock, streamed, List.filterMap_append, h1, h2]

/-- C3: for a test whose manifest is accepted, whose "running" status is streamed
and whose pod is created, the status of its `TestRun` follows the answer of the
wait on the pod: phase `PodSucceeded` without error gives `SUCCESS`, phase
`PodFailed` without error gives `FAILURE`, and an error of the wait gives
`UNKNOWN` with `Info` set to the text of the error. -/
theorem runTest_status_of_wait (lib : Lib) (env : Environment) (log : List Event) (m : String)
    (t0 : test) (phase : PodPhase) (err : Option String)
    (hnew : newTest lib m = .ok t0)
    (hsend : env.Stream.Send log (.running t0.result.Name) = none)
    (hcreate : env.KubeClient.Create (log ++ [Event.send (.running t0.result.Name)])
        env.Namespace m = none)
    (hwait : env.KubeClient.WaitAndGetCompletedPodPhase
        (log ++ [Event.send (.running t0.result.Name)] ++ [Event.kube (.Create env.Namespace m)])
        env.Namespace m (wrapInt64 (env.Timeout * timeSecond)) = (phase, err)) :
    ∃ r, (runTest lib env log m).result = some r ∧ r.Name = t0.result.Name
      ∧ (phase = .PodSucceeded → err = none → r.Status = .SUCCESS)
      ∧ (phase = .PodFailed → err = none → r.Status = .FAILURE)
      ∧ (∀ e, err = some e → r.Status = .UNKNOWN ∧ r.Info = e) := by
  obtain ⟨sh, _, _, ht0⟩ := newTest_ok lib m t0 hnew
  subst ht0
  unfold runTest
  rw [hnew]
  simp only [streamRunning, streamError, streamUnknown, streamSuccess, streamFailed,
    streamMessage, createTestPod, getPodExitStatus] at *
  simp only [hsend, hcreate, hwait]
  repeat' split
  all_goals (simp only [Prod.mk.injEq] at *)
  all_goals (casesm* _ ∧ _)
  all_goals subst_vars
  all_goals simp_all

/-- The loop of `Run` leaves the results and the manifests of the suite as they
were. -/
theorem runLoop_results (lib : Lib) (env : Environment) (ms : List String) (t : TestSuite)
    (log : List Event) :
    (runLoop lib env ms t log).suite.Results = t.Results
    ∧ (runLoop lib env ms t log).suite.TestManifests = t.TestManifests := by
  induction ms generalizing log with
  | nil => simp [runLoop]
  | cons m rest ih =>
    rw [runLoop]
    simp only []
    split
    · simp
    · exact ih _
    · exact ih _

/-- The cluster client calls of the loop of `Run`: one block per manifest, each a
prefix of the creation followed by the wait. -/
theorem runLoop_kubeCalls (lib : Lib) (env : Environment) (ms : List String) (t : TestSuite)
    (log : List Event) :
    ∃ blocks : List (List KubeCall),
      List.Forall₂ (fun b m => b <+: testCalls env m) blocks ms
      ∧ kubeCalls (runLoop lib env ms t log).log = kubeCalls log ++ blocks.flatten := by
  induction ms generalizing log with
  | nil => exact ⟨[], List.Forall₂.nil, by simp [runLoop]⟩
  | cons m rest ih =>
    have hstep : ∃ b, b <+: testCalls env m ∧
        kubeCalls (runTest lib env log m).log = kubeCalls log ++ b := by
      rcases runTest_kubeCalls lib env log m with h | h | h
      · exact ⟨[], List.nil_prefix, by simp [h]⟩
      · exact ⟨[KubeCall.Create env.Namespace m], ⟨[_], rfl⟩, h⟩
      · exact ⟨testCalls env m, List.prefix_refl _, h⟩
    obtain ⟨b, hb, hlog⟩ := hstep
    have hstop : ∃ blocks : List (List KubeCall),
        List.Forall₂ (fun b m => b <+: testCalls env m) blocks (m :: rest)
        ∧ kubeCalls (runTest lib env log m).log = kubeCalls log ++ blocks.flatten := by
      refine ⟨b :: rest.map (fun _ => []), List.Forall₂.cons hb ?_, ?_⟩
      · clear ih
        induction rest with
        | nil => exact List.Forall₂.nil
        | cons a l ih2 => exact List.Forall₂.cons List.nil_prefix ih2
      · have : (rest.map (fun _ => ([] : List KubeCall))).flatten = [] := by
          clear ih
          induction rest with
          | nil => rfl
          | cons a l ih2 => simp [ih2]
        simp [hlog, this]
    have hgo : ∃ blocks : List (List KubeCall),
        List.Forall₂ (fun b m => b <+: testCalls env m) blocks (m :: rest)
        ∧ kubeCalls (runLoop lib env rest t (runTest lib env log m).log).log
            = kubeCalls log ++ blocks.flatten := by
      obtain ⟨blocks, hf, hl⟩ := ih (runTest lib env log m).log
      exact ⟨b :: blocks, List.Forall₂.cons hb hf, by simp [hl, hlog, List.append_assoc]⟩
    rw [runLoop]
    simp only []
    split
    · exact hstop
    · exact hgo
    · exact hgo

/-- The messages of the loop of `Run` under an accepting stream and successful
creations: one block per manifest, in the order of the manifests, each the
block that the answer of the wait on its pod determines. -/
theorem runLoop_streamed (lib : Lib) (env : Environment) (ms : List String) (t : TestSuite)
    (log : List Event)
    (hpods : ∀ m ∈ ms, ∃ sh, lib.yamlUnmarshal m = .ok sh ∧ sh.Kind = "Pod")
    (hsend : ∀ l msg, env.Stream.Send l msg = none)
    (hcreate : ∀ l ns x, env.KubeClient.Create l ns x = none) :
    (runLoop lib env ms t log).err = none
    ∧ ∃ blocks : List (List StreamMsg),
        List.Forall₂ (fun b m => ∃ pre,
            b = testBlock (testName lib m) (waitAnswer env pre (testName lib m) m))
          blocks ms
        ∧ streamed (runLoop lib env ms t log).log = streamed log ++ blocks.flatten := by
  induction ms generalizing log with
  | nil => exact ⟨by simp [runLoop], [], List.Forall₂.nil, by simp [runLoop]⟩
  | cons m rest ih =>
    obtain ⟨sh, hy, hk⟩ := hpods m (List.mem_cons_self _ _)
    obtain ⟨hret, hlog⟩ := runTest_streamed lib env log m sh hy hk hsend hcreate
    have hname : testName lib m = sh.Name := by simp [testName, hy]
    obtain ⟨herr, blocks, hf, hl⟩ :=
      ih (runTest lib env log m).log (fun x hx => hpods x (List.mem_cons_of_mem _ hx))
    have hgo : (runLoop lib env rest t (runTest lib env log m).log).err = none
      ∧ ∃ blocks : List (List StreamMsg),
        List.Forall₂ (fun b m => ∃ pre,
            b = testBlock (testName lib m) (waitAnswer env pre (testName lib m) m))
          blocks (m :: rest)
        ∧ streamed (runLoop lib env rest t (runTest lib env log m).log).log
            = streamed log ++ blocks.flatten :=
      ⟨herr, _ :: blocks, List.Forall₂.cons ⟨log, by rw [hname]⟩ hf,
        by simp [hl, hlog, List.append_assoc]⟩
    rw [runLoop]
    simp only []
    split
    · rename_i heq
      rw [hret] at heq
      cases heq
    · exact hgo
    · exact hgo

/-- Every element of the concatenation of blocks related to a list lies in a block
related to a member of that list. -/
theorem mem_flatten_of_forall₂ {α β : Type} (R : List α → β → Prop) (blocks : List (List α))
    (ms : List β) (h : List.Forall₂ R blocks ms) (c : α) (hc : c ∈ blocks.flatten) :
    ∃ b m, m ∈ ms ∧ R b m ∧ c ∈ b := by
  induction h with
  | nil => simp at hc
  | @cons b m bs ms1 hbm _ ih =>
    rw [List.flatten_cons, List.mem_append] at hc
    rcases hc with hc | hc
    · exact ⟨b, m, List.mem_cons_self _ _, hbm, hc⟩
    · obtain ⟨b1, m1, hm1, hr, hcb⟩ := ih hc
      exact ⟨b1, m1, List.mem_cons_of_mem _ hm1, hr, hcb⟩

/-- C2, evaluated on the source: `Run` never changes the results of the suite
(the slice built by `append` is dropped); for the suite of three tests built by
`NewTestSuite`, `Run` returns nil and the results are still empty. -/
theorem Run_discards_results :
    (∀ (lib : Lib) (t : TestSuite) (env : Environment),
        (t.Run lib env).suite.Results = t.Results)
    ∧ (threePodsSuite.Run podLib threePodsEnv).err = none
    ∧ (threePodsSuite.Run podLib threePodsEnv).suite.TestManifests.length = 3
    ∧ (threePodsSuite.Run podLib threePodsEnv).suite.Results = [] := by
  refine ⟨fun lib t env => (runLoop_results lib env _ _ _).1, ?_, ?_, ?_⟩
  · decide
  · decide
  · decide

/-- C3 at the three pods: the wait on `a` answers succeeded, on `b` failed, on `c`
a timeout; the test results are `SUCCESS`, `FAILURE` and `UNKNOWN` with the text
of the timeout. -/
theorem runTest_status_of_wait_witness :
    (∃ r, (runTest podLib threePodsEnv [] "c").result = some r ∧ r.Name = "c"
      ∧ (PodPhase.PodUnknown = .PodSucceeded → some "timed out" = none → r.Status = .SUCCESS)
      ∧ (PodPhase.PodUnknown = .PodFailed → some "timed out" = none → r.Status = .FAILURE)
      ∧ (∀ e, some "timed out" = some e → r.Status = .UNKNOWN ∧ r.Info = e))
    ∧ (runTest podLib threePodsEnv [] "a").result
        = some { Name := "a", Status := .SUCCESS, Info := "", StartedAt := some 0,
                 CompletedAt := none }
    ∧ (runTest podLib threePodsEnv [] "b").result
        = some { Name := "b", Status := .FAILURE, Info := "", StartedAt := some 0,
                 CompletedAt := none }
    ∧ (runTest podLib threePodsEnv [] "c").result
        = some { Name := "c", Status := .UNKNOWN, Info := "timed out", StartedAt := some 0,
                 CompletedAt := none } :=
  ⟨runTest_status_of_wait podLib threePodsEnv [] "c"
      { manifest := "c",
        result := { Name := "c", Status := .UNKNOWN, Info := "", StartedAt := none,
                    CompletedAt := none } }
      .PodUnknown (some "timed out") rfl rfl rfl rfl,
   by decide, by decide, by decide⟩

/-- C4: when every manifest of the suite is a pod, the stream accepts every
message and every pod creation succeeds, `Run` returns nil and the messages it
streams are one block per manifest, in the order of the manifests, so all
messages of a manifest precede those of the next.  The block of a manifest is
the "running" status of its test followed by the terminal status that the
answer of the wait on its pod determines: `SUCCESS` for a succeeded pod,
`FAILURE` for a failed pod, `UNKNOWN` with the text of the error for a wait
that fails.  When the answer of the wait depends on the manifest only, the
stream is the concatenation of these blocks over the manifests.  For every
suite of three tests whose pods resolve to succeeded, failed and an error of
the wait, the streamed messages are running and success for the first,
running and failure for the second, running and unknown for the third. -/
theorem Run_streams_in_manifest_order (lib : Lib) (t : TestSuite) (env : Environment)
    (hpods : ∀ m ∈ t.TestManifests, ∃ sh, lib.yamlUnmarshal m = .ok sh ∧ sh.Kind = "Pod")
    (hsend : ∀ l msg, env.Stream.Send l msg = none)
    (hcreate : ∀ l ns x, env.KubeClient.Create l ns x = none) :
    (t.Run lib env).err = none
    ∧ (∃ blocks : List (List StreamMsg),
        List.Forall₂ (fun b m => ∃ pre,
            b = testBlock (testName lib m) (waitAnswer env pre (testName lib m) m))
          blocks t.TestManifests
        ∧ streamed (t.Run lib env).log = blocks.flatten)
    ∧ (∀ wait : String → PodPhase × Option String,
        (∀ l m, env.KubeClient.WaitAndGetCompletedPodPhase l env.Namespace m
            (wrapInt64 (env.Timeout * timeSecond)) = wait m) →
        streamed (t.Run lib env).log
          = t.TestManifests.flatMap (fun m => testBlock (testName lib m) (wait m)))
    ∧ (∀ (a b c : String) (p : PodPhase) (e : String), t.TestManifests = [a, b, c] →
        (∀ l, env.KubeClient.WaitAndGetCompletedPodPhase l env.Namespace a
            (wrapInt64 (env.Timeout * timeSecond)) = (.PodSucceeded, none)) →
        (∀ l, env.KubeClient.WaitAndGetCompletedPodPhase l env.Namespace b
            (wrapInt64 (env.Timeout * timeSecond)) = (.PodFailed, none)) →
        (∀ l, env.KubeClient.WaitAndGetCompletedPodPhase l env.Namespace c
            (wrapInt64 (env.Timeout * timeSecond)) = (p, some e)) →
        streamed (t.Run lib env).log
          = [.running (testName lib a), .success (testName lib a),
             .running (testName lib b), .failed (testName lib b),
             .running (testName lib c), .unknown (testName lib c) e]) := by
  obtain ⟨herr, blocks, hf, hl⟩ :=
    runLoop_streamed lib env t.TestManifests { t with StartedAt := some (lib.Now []) } []
      hpods hsend hcreate
  have hlog : streamed (t.Run lib env).log = blocks.flatten := by
    rw [TestSuite.Run, hl]
    simp [streamed]
  refine ⟨herr, ⟨blocks, hf, hlog⟩, ?_, ?_⟩
  · intro wait hwait
    rw [hlog]
    have key : ∀ (bl : List (List StreamMsg)) (ms : List String),
        List.Forall₂ (fun b m => ∃ pre,
            b = testBlock (testName lib m) (waitAnswer env pre (testName lib m) m)) bl ms →
        bl.flatten = ms.flatMap (fun m => testBlock (testName lib m) (wait m)) := by
      intro bl ms h
      induction h with
      | nil => rfl
      | @cons b m bs ms1 hbm _ ih =>
        obtain ⟨pre, hb⟩ := hbm
        rw [List.flatten_cons, List.flatMap_cons, ih, hb, waitAnswer, hwait]
    exact key _ _ hf
  · intro a b c p e hms ha hb hc
    rw [hlog]
    rw [hms] at hf
    cases hf with
    | cons h1 hf1 =>
      cases hf1 with
      | cons h2 hf2 =>
        cases hf2 with
        | cons h3 hf3 =>
          cases hf3
          obtain ⟨p1, rfl⟩ := h1
          obtain ⟨p2, rfl⟩ := h2
          obtain ⟨p3, rfl⟩ := h3
          simp [waitAnswer, ha, hb, hc, testBlock]

/-- C4 at the three pods `a`, `b`, `c`, whose waits answer succeeded, failed and a
timeout: the hypotheses hold there, `Run` returns nil and streams running and
success for `a`, running and failure for `b`, running and unknown with the
text of the timeout for `c`. -/
theorem Run_streams_in_manifest_order_witness :
    (threePodsSuite.Run podLib threePodsEnv).err = none
    ∧ streamed (threePodsSuite.Run podLib threePodsEnv).log
        = [.running "a", .success "a", .running "b", .failed "b", .running "c",
           .unknown "c" "timed out"]
    ∧ streamed (threePodsSuite.Run podLib threePodsEnv).log
        = ["a", "b", "c"].flatMap (fun m => testBlock m
            (threePodsEnv.KubeClient.WaitAndGetCompletedPodPhase [] "default" m 300000000000)) :=
  ⟨(Run_streams_in_manifest_order podLib threePodsSuite threePodsEnv
      (fun m _ => ⟨{ Kind := "Pod", Name := m }, rfl, rfl⟩) (fun _ _ => rfl)
      (fun _ _ _ => rfl)).1,
   (Run_streams_in_manifest_order podLib threePodsSuite threePodsEnv
      (fun m _ => ⟨{ Kind := "Pod", Name := m }, rfl, rfl⟩) (fun _ _ => rfl)
      (fun _ _ _ => rfl)).2.2.2 "a" "b" "c" .PodUnknown "timed out" rfl
      (fun _ => rfl) (fun _ => rfl) (fun _ => rfl),
   (Run_streams_in_manifest_order podLib threePodsSuite threePodsEnv
      (fun m _ => ⟨{ Kind := "Pod", Name := m }, rfl, rfl⟩) (fun _ _ => rfl)
      (fun _ _ _ => rfl)).2.2.1
      (fun m => threePodsEnv.KubeClient.WaitAndGetCompletedPodPhase [] "default" m 300000000000)
      (fun _ _ => rfl)⟩

/-- C6: after `NewTestSuite` on a release and `Run` on the returned suite, whatever
the outcome of the tests, the release object is what it was: same status code,
version, manifest and hook list. -/
theorem runReleaseTest_release_unchanged (lib : Lib) (rel : Release) (env : Environment) :
    (runReleaseTest lib rel env).rel = rel
    ∧ (runReleaseTest lib rel env).rel.Info.Status.Code = rel.Info.Status.Code
    ∧ (runReleaseTest lib rel env).rel.Version = rel.Version
    ∧ (runReleaseTest lib rel env).rel.Manifest = rel.Manifest
    ∧ (runReleaseTest lib rel env).rel.Hooks = rel.Hooks
    ∧ (NewTestSuite lib rel env).1 = rel := by
  have h1 : (NewTestSuite lib rel env).1 = rel := by
    unfold NewTestSuite
    split <;> rfl
  have h2 : (runReleaseTest lib rel env).rel = rel := by
    unfold runReleaseTest
    split
    · rename_i heq
      rw [heq] at h1
      exact h1
    · rename_i heq
      rw [heq] at h1
      exact h1
  refine ⟨h2, ?_, ?_, ?_, ?_, h1⟩ <;> rw [h2]

/-- C7: the cluster client calls of `Run` are one block per manifest, in order,
each block a prefix of "create the manifest, then wait for its completed
phase", both in the namespace of the environment.  So every call is a `Create`
or a `WaitAndGetCompletedPodPhase` on a manifest of the suite, at most one of
each per manifest, and no `Delete` (nor `Update`) is ever issued. -/
theorem Run_only_creates_and_waits (lib : Lib) (t : TestSuite) (env : Environment) :
    (∃ blocks : List (List KubeCall),
        List.Forall₂ (fun b m => b <+: testCalls env m) blocks t.TestManifests
        ∧ kubeCalls (t.Run lib env).log = blocks.flatten)
    ∧ (∀ c ∈ kubeCalls (t.Run lib env).log, ∃ m ∈ t.TestManifests,
        c = KubeCall.Create env.Namespace m
        ∨ c = KubeCall.WaitAndGetCompletedPodPhase env.Namespace m
              (wrapInt64 (env.Timeout * timeSecond)))
    ∧ (∀ ns m, KubeCall.Delete ns m ∉ kubeCalls (t.Run lib env).log)
    ∧ (∀ ns m, KubeCall.Update ns m ∉ kubeCalls (t.Run lib env).log) := by
  obtain ⟨blocks, hf, hl⟩ :=
    runLoop_kubeCalls lib env t.TestManifests { t with StartedAt := some (lib.Now []) } []
  have hlog : kubeCalls (t.Run lib env).log = blocks.flatten := by
    rw [TestSuite.Run, hl]
    simp [kubeCalls]
  have hmem : ∀ c ∈ kubeCalls (t.Run lib env).log, ∃ m ∈ t.TestManifests,
      c = KubeCall.Create env.Namespace m
      ∨ c = KubeCall.WaitAndGetCompletedPodPhase env.Namespace m
            (wrapInt64 (env.Timeout * timeSecond)) := by
    intro c hc
    rw [hlog] at hc
    obtain ⟨b, m, hm, hpre, hcb⟩ := mem_flatten_of_forall₂ _ blocks _ hf c hc
    have hin : c ∈ testCalls env m := hpre.subset hcb
    refine ⟨m, hm, ?_⟩
    simpa [testCalls] using hin
  refine ⟨⟨blocks, hf, hlog⟩, hmem, ?_, ?_⟩
  · intro ns m hc
    obtain ⟨m1, _, h | h⟩ := hmem _ hc <;> cases h
  · intro ns m hc
    obtain ⟨m1, _, h | h⟩ := hmem _ hc <;> cases h

/-! ## Properties of the revision store and of the rollback workflow -/

/-- A record is revision `v` of `name` when its name and version say so. -/
theorem isRev_iff (r : Release) (name : String) (v : Int) :
    r.isRev name v = true ↔ r.Name = name ∧ r.Version = v := by
  simp [Release.isRev]

/-- A record is the revision its own key names. -/
theorem isRev_self (r : Release) : r.isRev r.Name r.Version = true := by
  simp [Release.isRev]

/-- Two records with the same key answer the same key tests. -/
theorem isRev_congr (x r : Release) (h : x.isRev r.Name r.Version = true) (name : String)
    (v : Int) : x.isRev name v = r.isRev name v := by
  obtain ⟨h1, h2⟩ := (isRev_iff _ _ _).mp h
  simp [Release.isRev, h1, h2]

/-- `Update` on a present key replaces the records of that key. -/
theorem Store.Update_ok (s : Store) (r : Release)
    (h : s.any (fun x => x.isRev r.Name r.Version) = true) :
    s.Update r = .ok (s.map (fun x => if x.isRev r.Name r.Version then r else x)) := by
  simp [Store.Update, h]

/-- Replacing the records of a key keeps the set of keys. -/
theorem Store.any_replace (s : Store) (r : Release) (name : String) (v : Int) :
    (s.map (fun x => if x.isRev r.Name r.Version then r else x)).any (fun x => x.isRev name v)
      = s.any (fun x => x.isRev name v) := by
  induction s with
  | nil => rfl
  | cons x xs ih =>
    simp only [List.map_cons, List.any_cons, ih]
    by_cases hx : x.isRev r.Name r.Version = true
    · simp only [hx, if_true]
      rw [isRev_congr x r hx]
    · simp only [hx]
      rfl

/-- After replacing the records of a present key, `Get` on that key returns the
new record. -/
theorem Store.Get_replace_same (s : Store) (r : Release)
    (h : s.any (fun x => x.isRev r.Name r.Version) = true) :
    Store.Get (s.map (fun x => if x.isRev r.Name r.Version then r else x)) r.Name r.Version
      = .ok r := by
  induction s with
  | nil => simp at h
  | cons x xs ih =>
    unfold Store.Get
    by_cases hx : x.isRev r.Name r.Version = true
    · simp [hx, List.find?_cons, isRev_self]
    · have hxs : xs.any (fun x => x.isRev r.Name r.Version) = true := by
        simpa [hx] using h
      have := ih hxs
      unfold Store.Get at this
      simpa [hx, List.find?_cons] using this

/-- Replacing the records of a key leaves `Get` on every other key as it was. -/
theorem Store.Get_replace_other (s : Store) (r : Release) (name : String) (v : Int)
    (hne : ¬ (r.Name = name ∧ r.Version = v)) :
    Store.Get (s.map (fun x => if x.isRev r.Name r.Version then r else x)) name v
      = Store.Get s name v := by
  have hr : r.isRev name v = false := by
    simpa [Release.isRev] using hne
  induction s with
  | nil => rfl
  | cons x xs ih =>
    unfold Store.Get at ih ⊢
    by_cases hx : x.isRev r.Name r.Version = true
    · have hxr : x.isRev name v = false := by rw [isRev_congr x r hx]; exact hr
      simpa [hx, List.find?_cons, hr, hxr] using ih
    · by_cases hxn : x.isRev name v = true
      · simp [hx, List.find?_cons, hxn]
      · simpa [hx, List.find?_cons, hxn] using ih

/-- Setting the status code keeps name and version. -/
theorem withCode_key (d : Release) (c : Status_Code) :
    (d.withCode c).Name = d.Name ∧ (d.withCode c).Version = d.Version
    ∧ (d.withCode c).Info.Status.Code = c := ⟨rfl, rfl, rfl⟩

/-- What the commit of a rollback leaves in the store. -/
theorem commitRollback_spec (s1 : Store) (prior : Option Release) (final : Release)
    (log : List ClusterCall) (err : Option Err)
    (hfinal : s1.any (fun x => x.isRev final.Name final.Version) = true)
    (hprior : ∀ d, prior = some d → s1.any (fun x => x.isRev d.Name d.Version) = true
      ∧ ¬ (final.Name = d.Name ∧ final.Version = d.Version)) :
    (commitRollback s1 prior final log err).rel = some final
    ∧ (commitRollback s1 prior final log err).err = err
    ∧ (commitRollback s1 prior final log err).log = log
    ∧ (commitRollback s1 prior final log err).store.Get final.Name final.Version = .ok final
    ∧ (∀ d, prior = some d →
        (commitRollback s1 prior final log err).store.Get d.Name d.Version
          = .ok (d.withCode .SUPERSEDED)) := by
  cases prior with
  | none =>
    simp only [commitRollback, Store.Update_ok s1 final hfinal]
    refine ⟨trivial, trivial, trivial, Store.Get_replace_same s1 final hfinal, ?_⟩
    intro d hd
    cases hd
  | some d =>
    obtain ⟨hd, hne⟩ := hprior d rfl
    have hd1 : s1.any (fun x => x.isRev (d.withCode .SUPERSEDED).Name
        (d.withCode .SUPERSEDED).Version) = true := hd
    have hfinal2 : (s1.map (fun x =>
        if x.isRev (d.withCode .SUPERSEDED).Name (d.withCode .SUPERSEDED).Version
        then d.withCode .SUPERSEDED else x)).any
          (fun x => x.isRev final.Name final.Version) = true := by
      rw [Store.any_replace]
      exact hfinal
    simp only [commitRollback, Store.Update_ok s1 _ hd1, Store.Update_ok _ final hfinal2]
    refine ⟨trivial, trivial, trivial, Store.Get_replace_same _ final hfinal2, ?_⟩
    intro d1 hd1eq
    cases hd1eq
    rw [Store.Get_replace_other _ final d.Name d.Version hne]
    exact Store.Get_replace_same s1 (d.withCode .SUPERSEDED) hd1

/-- The history of a release holds exactly the records of that name. -/
theorem mem_History (s : Store) (name : String) (x : Release) :
    x ∈ s.History name ↔ x ∈ s ∧ x.Name = name := by
  unfold Store.History
  rw [(List.perm_insertionSort _ _).mem_iff]
  simp

/-- The revision `Deployed` returns is a stored `DEPLOYED` revision of the release. -/
theorem Deployed_ok (s : Store) (name : String) (d : Release) (h : s.Deployed name = .ok d) :
    d ∈ s ∧ d.Name = name ∧ d.Info.Status.Code = .DEPLOYED := by
  unfold Store.Deployed at h
  cases hf : (s.History name).find? (fun r => decide (r.Info.Status.Code = .DEPLOYED)) with
  | none => rw [hf] at h; cases h
  | some r =>
    rw [hf] at h
    have hrd : r = d := by
      injection h
    subst hrd
    have hm := (mem_History s name r).mp (List.mem_of_find?_eq_some hf)
    have hc := List.find?_some hf
    exact ⟨hm.1, hm.2, by simpa using hc⟩

/-- A stored record stays present after a record is appended. -/
theorem any_of_mem_append (s : Store) (x p : Release) (hx : x ∈ s) :
    (s ++ [p]).any (fun y => y.isRev x.Name x.Version) = true := by
  rw [List.any_eq_true]
  exact ⟨x, List.mem_append_left _ hx, isRev_self x⟩

/-- A successful `Create` appends the record, whose key was absent. -/
theorem Create_ok (s : Store) (r : Release) (s1 : Store) (h : s.Create r = .ok s1) :
    s1 = s ++ [r] ∧ ∀ x ∈ s, ¬ (x.Name = r.Name ∧ x.Version = r.Version) := by
  unfold Store.Create at h
  by_cases ha : s.any (fun x => x.isRev r.Name r.Version) = true
  · simp [ha] at h
  · simp only [ha] at h
    cases h
    refine ⟨rfl, ?_⟩
    intro x hx hk
    apply ha
    rw [List.any_eq_true]
    exact ⟨x, hx, (isRev_iff _ _ _).mpr hk⟩

/-- Unsetting the last run twice is unsetting it once. -/
theorem notRun_idem (h : Hook) : h.notRun.notRun = h.notRun := rfl

/-- Executing a hook changes nothing but its last-run timestamp. -/
theorem execOneHook_notRun (cc : ClusterClient) (ns : String) (timeout : Int) (h : Hook)
    (log : List ClusterCall) : (execOneHook cc ns timeout h log).1.notRun = h.notRun := by
  unfold execOneHook
  simp only []
  repeat' split
  all_goals rfl

/-- Writing to a position the value it already holds changes nothing. -/
theorem set_eq_self_of_getElem? {α : Type} (l : List α) (i : Nat) (a : α)
    (h : l[i]? = some a) : l.set i a = l := by
  induction l generalizing i with
  | nil => rfl
  | cons x xs ih =>
    cases i with
    | zero =>
      simp at h
      simp [h]
    | succ n =>
      simp at h
      simp [ih n h]

/-- The hook loop changes nothing but last-run timestamps. -/
theorem execHooksLoop_notRun (cc : ClusterClient) (ns : String) (timeout : Int)
    (ord : List (Nat × Hook)) (cur : List Hook) (log : List ClusterCall) (K : List Hook)
    (hK : cur.map Hook.notRun = K) (hord : ∀ p ∈ ord, K[p.1]? = some p.2.notRun) :
    (execHooksLoop cc ns timeout ord cur log).hooks.map Hook.notRun = K := by
  induction ord generalizing cur log with
  | nil => simpa [execHooksLoop] using hK
  | cons p rest ih =>
    obtain ⟨i, h⟩ := p
    have hset : (cur.set i (execOneHook cc ns timeout h log).1).map Hook.notRun = K := by
      rw [List.map_set, execOneHook_notRun, hK]
      exact set_eq_self_of_getElem? K i _ (hord (i, h) (List.mem_cons_self _ _))
    have hrest : ∀ p ∈ rest, K[p.1]? = some p.2.notRun :=
      fun p hp => hord p (List.mem_cons_of_mem _ hp)
    rw [execHooksLoop]
    split
    · rename_i h1 log1 e heq
      have : h1 = (execOneHook cc ns timeout h log).1 := by rw [heq]
      subst this
      exact hset
    · rename_i h1 log1 heq
      have : h1 = (execOneHook cc ns timeout h log).1 := by rw [heq]
      subst this
      exact ih _ _ hset hrest

/-- Every entry of the execution order is a hook at its position. -/
theorem hookOrder_mem (event : Hook_Event) (hooks : List Hook) (p : Nat × Hook)
    (hp : p ∈ hookOrder event hooks) : hooks[p.1]? = some p.2 := by
  unfold hookOrder at hp
  rw [(List.perm_insertionSort _ _).mem_iff] at hp
  have hmem := (List.mem_filter.mp hp).1
  obtain ⟨i, h⟩ := p
  obtain ⟨hi, hx⟩ := List.mem_enum hmem
  simp [hx, hi]

/-- The Hook Executor changes nothing but last-run timestamps. -/
theorem execHooks_notRun (cc : ClusterClient) (ns : String) (timeout : Int)
    (event : Hook_Event) (hooks : List Hook) (log : List ClusterCall) :
    (execHooks cc ns timeout event hooks log).hooks.map Hook.notRun
      = hooks.map Hook.notRun := by
  unfold execHooks
  apply execHooksLoop_notRun _ _ _ _ _ _ _ rfl
  intro p hp
  rw [List.getElem?_map, hookOrder_mem event hooks p hp]
  rfl

/-- Shape of a rollback: either it stops before anything is persisted, returning
an error and no revision and leaving the store as it was, or it persists the new
revision and ends with the commit of its terminal state. -/
theorem RollbackRelease_shape (cc : ClusterClient) (s : Store) (req : RollbackReleaseRequest) :
    ((RollbackRelease cc s req).rel = none ∧ (RollbackRelease cc s req).store = s
      ∧ (RollbackRelease cc s req).err ≠ none)
    ∨ ∃ head target s1 hooks log err,
        (s.History req.Name).getLast? = some head
        ∧ resolveTarget s head req = .ok target
        ∧ s.Create (rollbackRevision head target req) = .ok s1
        ∧ hooks.map Hook.notRun = target.Hooks.map Hook.notRun
        ∧ (req.DisableHooks = true → hooks = target.Hooks)
        ∧ RollbackRelease cc s req
            = commitRollback s1 (s.Deployed req.Name).toOption
                (finalRevision (rollbackRevision head target req) hooks target err) log err := by
  unfold RollbackRelease
  cases hh : (s.History req.Name).getLast? with
  | none => left; simp
  | some head =>
    simp only []
    cases ht : resolveTarget s head req with
    | error e => left; simp
    | ok target =>
      simp only []
      cases hc : s.Create (rollbackRevision head target req) with
      | error e => left; simp
      | ok s1 =>
        right
        simp only []
        have hp0 : (rollbackRevision head target req).Hooks.map Hook.notRun
            = target.Hooks.map Hook.notRun := rfl
        have hp1 : (rollbackRevision head target req).Hooks = target.Hooks := rfl
        by_cases hdis : req.DisableHooks = true
        · simp only [hdis, if_true]
          cases ha : cc.Apply [] (rollbackRevision head target req).Namespace
              (rollbackRevision head target req).Manifest with
          | some reason =>
            exact ⟨head, target, s1, _, _, some (.ApplyFailed reason), rfl, ht, hc, hp0,
              fun _ => hp1, rfl⟩
          | none =>
            exact ⟨head, target, s1, _, _, none, rfl, ht, hc, hp0, fun _ => hp1, rfl⟩
        · have hdis2 : req.DisableHooks = false := by simpa using hdis
          simp only [hdis2, Bool.false_eq_true, if_false]
          have hpre := execHooks_notRun cc (rollbackRevision head target req).Namespace
            req.Timeout .PRE_ROLLBACK (rollbackRevision head target req).Hooks []
          rw [hp0] at hpre
          generalize execHooks cc (rollbackRevision head target req).Namespace
            req.Timeout .PRE_ROLLBACK (rollbackRevision head target req).Hooks [] = pre at hpre ⊢
          cases hpe : pre.err with
          | some e =>
            exact ⟨head, target, s1, pre.hooks, _, some e, rfl, ht, hc, hpre,
              fun h => absurd h (by simp), rfl⟩
          | none =>
            try simp only []
            cases ha : cc.Apply pre.log (rollbackRevision head target req).Namespace
                (rollbackRevision head target req).Manifest with
            | some reason =>
              exact ⟨head, target, s1, pre.hooks, _, some (.ApplyFailed reason), rfl, ht, hc,
                hpre, fun h => absurd h (by simp), rfl⟩
            | none =>
              try simp only []
              have hpost := execHooks_notRun cc (rollbackRevision head target req).Namespace
                req.Timeout .POST_ROLLBACK pre.hooks
                (pre.log ++ [ClusterCall.Apply (rollbackRevision head target req).Namespace
                  (rollbackRevision head target req).Manifest])
              rw [hpre] at hpost
              generalize execHooks cc (rollbackRevision head target req).Namespace
                req.Timeout .POST_ROLLBACK pre.hooks
                (pre.log ++ [ClusterCall.Apply (rollbackRevision head target req).Namespace
                  (rollbackRevision head target req).Manifest]) = post at hpost ⊢
              cases hpo : post.err with
              | some e =>
                exact ⟨head, target, s1, post.hooks, _, some e, rfl, ht, hc, hpost,
                  fun h => absurd h (by simp), rfl⟩
              | none =>
                exact ⟨head, target, s1, post.hooks, _, none, rfl, ht, hc, hpost,
                  fun h => absurd h (by simp), rfl⟩

/-- The last revision of the history is a stored revision of the release. -/
theorem head_mem (s : Store) (name : String) (head : Release)
    (h : (s.History name).getLast? = some head) : head ∈ s ∧ head.Name = name :=
  (mem_History s name head).mp (List.mem_of_getLast?_eq_some h)

/-- Facts about a rollback that persisted its new revision: what it returns and
what the store holds afterwards. -/
theorem RollbackRelease_persisted (cc : ClusterClient) (s : Store)
    (req : RollbackReleaseRequest) (r : Release)
    (hrel : (RollbackRelease cc s req).rel = some r) :
    ∃ head target hooks,
      (s.History req.Name).getLast? = some head
      ∧ resolveTarget s head req = .ok target
      ∧ (∀ x ∈ s, ¬ (x.Name = req.Name ∧ x.Version = head.Version + 1))
      ∧ hooks.map Hook.notRun = target.Hooks.map Hook.notRun
      ∧ (req.DisableHooks = true → hooks = target.Hooks)
      ∧ r = finalRevision (rollbackRevision head target req) hooks target
              (RollbackRelease cc s req).err
      ∧ (RollbackRelease cc s req).store.Get req.Name (head.Version + 1) = .ok r
      ∧ (∀ d, s.Deployed req.Name = .ok d →
          (RollbackRelease cc s req).store.Get req.Name d.Version
            = .ok (d.withCode .SUPERSEDED)) := by
  rcases RollbackRelease_shape cc s req with ⟨hnone, _, _⟩ | ⟨head, target, s1, hooks, log, err,
    hh, ht, hc, hk, hdis, heq⟩
  · rw [hnone] at hrel
    cases hrel
  · obtain ⟨hs1, hfresh⟩ := Create_ok s _ s1 hc
    have hfresh2 : ∀ x ∈ s, ¬ (x.Name = req.Name ∧ x.Version = head.Version + 1) := hfresh
    have hkey : ∀ e, (finalRevision (rollbackRevision head target req) hooks target e).Name
          = req.Name
        ∧ (finalRevision (rollbackRevision head target req) hooks target e).Version
          = head.Version + 1 := by
      intro e
      cases e <;> exact ⟨rfl, rfl⟩
    have hfinal : s1.any (fun x => x.isRev
        (finalRevision (rollbackRevision head target req) hooks target err).Name
        (finalRevision (rollbackRevision head target req) hooks target err).Version) = true := by
      rw [(hkey err).1, (hkey err).2, hs1, List.any_eq_true]
      exact ⟨rollbackRevision head target req, by simp, isRev_self _⟩
    have hprior : ∀ d, (s.Deployed req.Name).toOption = some d →
        s1.any (fun x => x.isRev d.Name d.Version) = true
        ∧ ¬ ((finalRevision (rollbackRevision head target req) hooks target err).Name = d.Name
            ∧ (finalRevision (rollbackRevision head target req) hooks target err).Version
                = d.Version) := by
      intro d hd
      have hd2 : s.Deployed req.Name = .ok d := by
        cases hdd : s.Deployed req.Name with
        | error e => rw [hdd] at hd; cases hd
        | ok d1 =>
          rw [hdd] at hd
          have : d1 = d := by simpa [Except.toOption] using hd
          rw [this]
      obtain ⟨hds, hdn, _⟩ := Deployed_ok s req.Name d hd2
      refine ⟨?_, ?_⟩
      · rw [hs1]
        exact any_of_mem_append s d _ hds
      · rw [(hkey err).1, (hkey err).2]
        rintro ⟨_, hv⟩
        exact hfresh2 d hds ⟨hdn, hv.symm⟩
    obtain ⟨c1, c2, _, c4, c5⟩ := commitRollback_spec s1 (s.Deployed req.Name).toOption
      (finalRevision (rollbackRevision head target req) hooks target err) log err hfinal hprior
    rw [← heq] at c1 c2 c4 c5
    rw [hrel] at c1
    have hr : r = finalRevision (rollbackRevision head target req) hooks target err := by
      injection c1
    refine ⟨head, target, hooks, hh, ht, hfresh2, hk, hdis, ?_, ?_, ?_⟩
    · rw [c2]
      exact hr
    · rw [hr]
      have := c4
      rw [(hkey err).1, (hkey err).2] at this
      exact this
    · intro d hd
      have hdn := (Deployed_ok s req.Name d hd).2.1
      have := c5 d (by rw [hd]; rfl)
      rw [hdn] at this
      exact this

/-- The history of a release is sorted by version. -/
theorem History_sorted (s : Store) (name : String) :
    (s.History name).Pairwise (fun a b => a.Version ≤ b.Version) := by
  haveI : IsTotal Release (fun a b => a.Version ≤ b.Version) := ⟨fun a b => le_total _ _⟩
  haveI : IsTrans Release (fun a b => a.Version ≤ b.Version) := ⟨fun a b c => le_trans⟩
  exact List.sorted_insertionSort _ _

/-- The last element of a list sorted by version has the greatest version. -/
theorem getLast?_max (l : List Release) (a : Release)
    (hs : l.Pairwise (fun a b => a.Version ≤ b.Version)) (h : l.getLast? = some a) :
    ∀ x ∈ l, x.Version ≤ a.Version := by
  obtain ⟨ys, rfl⟩ := List.getLast?_eq_some_iff.mp h
  intro x hx
  rw [List.mem_append] at hx
  rcases hx with hx | hx
  · exact (List.pairwise_append.mp hs).2.2 x hx a (by simp)
  · simp at hx
    rw [hx]

/-- An unset target resolves to the highest-versioned revision of the release that
is not `DELETED` and is older than the `DEPLOYED` one. -/
theorem resolveTarget_unset (s : Store) (head : Release) (req : RollbackReleaseRequest)
    (target : Release) (hv : req.Version = 0) (h : resolveTarget s head req = .ok target) :
    ∃ cur, s.Deployed req.Name = .ok cur
      ∧ target ∈ s.History req.Name
      ∧ target.Info.Status.Code ≠ .DELETED
      ∧ target.Version < cur.Version
      ∧ ∀ x ∈ s.History req.Name, x.Info.Status.Code ≠ .DELETED → x.Version < cur.Version →
          x.Version ≤ target.Version := by
  unfold resolveTarget at h
  simp only [hv, ne_eq, not_true_eq_false, if_false] at h
  cases hd : s.Deployed req.Name with
  | error e => rw [hd] at h; cases h
  | ok cur =>
    rw [hd] at h
    simp only [] at h
    cases hl : ((s.History req.Name).filter (fun r =>
        decide (r.Info.Status.Code ≠ .DELETED) && decide (r.Version < cur.Version))).getLast? with
    | none => rw [hl] at h; cases h
    | some t =>
      rw [hl] at h
      have ht : t = target := by injection h
      subst ht
      have hmem := List.mem_of_getLast?_eq_some hl
      have hf := List.mem_filter.mp hmem
      have hp : t.Info.Status.Code ≠ .DELETED ∧ t.Version < cur.Version := by
        simpa using hf.2
      refine ⟨cur, rfl, hf.1, hp.1, hp.2, ?_⟩
      intro x hx hxd hxv
      apply getLast?_max _ t ((History_sorted s req.Name).filter _) hl x
      rw [List.mem_filter]
      exact ⟨hx, by simp [hxd, hxv]⟩

/-- A resolved target is a revision of the release. -/
theorem resolveTarget_mem (s : Store) (head : Release) (req : RollbackReleaseRequest)
    (target : Release) (h : resolveTarget s head req = .ok target) :
    target ∈ s.History req.Name := by
  by_cases hv : req.Version = 0
  · obtain ⟨_, _, hm, _⟩ := resolveTarget_unset s head req target hv h
    exact hm
  · unfold resolveTarget at h
    simp only [ne_eq, hv, not_false_eq_true, if_true] at h
    cases hg : s.Get req.Name req.Version with
    | error e => rw [hg] at h; cases h
    | ok t =>
      rw [hg] at h
      simp only [] at h
      by_cases hth : t.Version = head.Version
      · simp [hth] at h
      · simp only [hth, if_false] at h
        have ht : t = target := by injection h
        subst ht
        unfold Store.Get at hg
        cases hf : s.find? (fun r => r.isRev req.Name req.Version) with
        | none => rw [hf] at hg; cases hg
        | some x =>
          rw [hf] at hg
          have hx : x = t := by injection hg
          subst hx
          rw [mem_History]
          have hp := List.find?_some hf
          exact ⟨List.mem_of_find?_eq_some hf, ((isRev_iff _ _ _).mp hp).1⟩

/-- The last of the versions `1..n`. -/
theorem range'_map_getLast? (n : Nat) (hn : 0 < n) :
    ((List.range' 1 n).map Int.ofNat).getLast? = some (n : Int) := by
  obtain ⟨k, rfl⟩ : ∃ k, n = k + 1 := ⟨n - 1, by omega⟩
  rw [List.range'_concat]
  simp
  omega

/-- The commit of a rollback always returns the revision. -/
theorem commitRollback_rel (s1 : Store) (prior : Option Release) (final : Release)
    (log : List ClusterCall) (err : Option Err) :
    (commitRollback s1 prior final log err).rel = some final := by
  unfold commitRollback
  simp only []
  repeat' split
  all_goals rfl

/-- C8, as amended: for every release with a `DEPLOYED` revision `d`, also under a
newer failed head, and every rollback request that passes target resolution, so
that `RollbackRelease` persists and returns a new revision, the stored status
of `d` after `RollbackRelease` returns is `SUPERSEDED`, whether the rollback
succeeded or failed. -/
theorem rollback_supersedes_deployed (cc : ClusterClient) (s : Store)
    (req : RollbackReleaseRequest) (d r : Release)
    (hd : s.Deployed req.Name = .ok d)
    (hrel : (RollbackRelease cc s req).rel = some r) :
    ∃ x, (RollbackRelease cc s req).store.Get req.Name d.Version = .ok x
      ∧ x.Info.Status.Code = .SUPERSEDED
      ∧ x = d.withCode .SUPERSEDED := by
  obtain ⟨_, _, _, _, _, _, _, _, _, _, hsup⟩ := RollbackRelease_persisted cc s req r hrel
  exact ⟨_, hsup d hd, rfl, rfl⟩

/-- C8 at the store of `TestRollbackWithReleaseVersion` with a cluster client
that fails every apply: the rollback to version 1 fails, and revision 2, which
was deployed under the failed head, is stored as superseded. -/
theorem rollback_supersedes_deployed_witness :
    storeFailedHead.Deployed "angry-panda"
        = .ok (mkRelease "angry-panda" 2 .DEPLOYED "stub manifest" stubHooks)
    ∧ (RollbackRelease failingClient storeFailedHead (mkRequest "angry-panda" 1 true)).err
        = some (.ApplyFailed "update failed")
    ∧ ∃ x, (RollbackRelease failingClient storeFailedHead
              (mkRequest "angry-panda" 1 true)).store.Get "angry-panda" 2 = .ok x
        ∧ x.Info.Status.Code = .SUPERSEDED
        ∧ x = (mkRelease "angry-panda" 2 .DEPLOYED "stub manifest" stubHooks).withCode
                .SUPERSEDED :=
  ⟨rfl, by decide,
   rollback_supersedes_deployed failingClient storeFailedHead (mkRequest "angry-panda" 1 true)
     (mkRelease "angry-panda" 2 .DEPLOYED "stub manifest" stubHooks)
     (failedRevision
        (rollbackRevision (mkRelease "angry-panda" 3 .FAILED "stub manifest" stubHooks)
          (mkRelease "angry-panda" 1 .SUPERSEDED "stub manifest" stubHooks)
          (mkRequest "angry-panda" 1 true))
        stubHooks (.ApplyFailed "update failed"))
     rfl (by decide)⟩

/-- C8 as stated fails: a rollback request whose target version does not exist
is rejected with `InvalidTarget` before anything is persisted, and the revision
that was deployed is still stored as `DEPLOYED`. -/
theorem rollback_rejected_keeps_deployed :
    storeFailedHead.Deployed "angry-panda"
        = .ok (mkRelease "angry-panda" 2 .DEPLOYED "stub manifest" stubHooks)
    ∧ (RollbackRelease okClient storeFailedHead (mkRequest "angry-panda" 7 true)).err
        = some .InvalidTarget
    ∧ (RollbackRelease okClient storeFailedHead (mkRequest "angry-panda" 7 true)).rel = none
    ∧ (RollbackRelease okClient storeFailedHead (mkRequest "angry-panda" 7 true)).store.Get
          "angry-panda" 2
        = .ok (mkRelease "angry-panda" 2 .DEPLOYED "stub manifest" stubHooks)
    ∧ (mkRelease "angry-panda" 2 .DEPLOYED "stub manifest" stubHooks).Info.Status.Code
        ≠ .SUPERSEDED :=
  ⟨rfl, by decide, by decide, rfl, by decide⟩

/-- C9: a successful rollback with no explicit target returns a revision `r` built
from a target that is the revision immediately preceding the current `DEPLOYED`
one: a revision of the release older than it, not `DELETED`, with no other such
revision in between.  `r` is stored under its version; its manifest is that of
the target; its hooks are those of the target, manifest and events included, up
to the last-run timestamps; its name is the requested name, its namespace that
of the release; it is `DEPLOYED` and described as "Rollback to" followed by the
version of the target. -/
theorem rollback_copies_previous (cc : ClusterClient) (s : Store)
    (req : RollbackReleaseRequest)
    (hv : req.Version = 0)
    (herr : (RollbackRelease cc s req).err = none) :
    ∃ r cur target,
      (RollbackRelease cc s req).rel = some r
      ∧ s.Deployed req.Name = .ok cur
      ∧ target ∈ s.History req.Name
      ∧ target.Info.Status.Code ≠ .DELETED
      ∧ target.Version < cur.Version
      ∧ (∀ x ∈ s.History req.Name, x.Info.Status.Code ≠ .DELETED → x.Version < cur.Version →
          x.Version ≤ target.Version)
      ∧ (RollbackRelease cc s req).store.Get req.Name r.Version = .ok r
      ∧ r.Manifest = target.Manifest
      ∧ r.Hooks.map (fun h => (h.Manifest, h.Events))
          = target.Hooks.map (fun h => (h.Manifest, h.Events))
      ∧ r.Hooks.map Hook.notRun = target.Hooks.map Hook.notRun
      ∧ r.Name = req.Name
      ∧ (∀ ns, (∀ x ∈ s.History req.Name, x.Namespace = ns) → r.Namespace = ns)
      ∧ r.Info.Description = "Rollback to " ++ toString target.Version
      ∧ r.Info.Status.Code = .DEPLOYED := by
  have hsome : ∃ r, (RollbackRelease cc s req).rel = some r := by
    rcases RollbackRelease_shape cc s req with ⟨_, _, hne⟩ | ⟨head, target, s1, hooks, log, err,
      _, _, _, _, _, heq⟩
    · exact absurd herr hne
    · rw [heq]
      exact ⟨_, commitRollback_rel _ _ _ _ _⟩
  obtain ⟨r, hrel⟩ := hsome
  obtain ⟨head, target, hooks, hh, ht, _, hk, _, hr, hget, _⟩ :=
    RollbackRelease_persisted cc s req r hrel
  rw [herr] at hr
  obtain ⟨cur, hcur, hmem, hnd, hlt, hmax⟩ := resolveTarget_unset s head req target hv ht
  have hver : r.Version = head.Version + 1 := by rw [hr]; rfl
  have hhooks : r.Hooks = hooks := by rw [hr]; rfl
  refine ⟨r, cur, target, hrel, hcur, hmem, hnd, hlt, hmax, ?_, ?_, ?_, ?_, ?_, ?_, ?_, ?_⟩
  · rw [hver]; exact hget
  · rw [hr]; rfl
  · rw [hhooks]
    have := congrArg (List.map (fun h : Hook => (h.Manifest, h.Events))) hk
    simpa [Function.comp_def, Hook.notRun] using this
  · rw [hhooks]; exact hk
  · rw [hr]; rfl
  · intro ns hns
    have : r.Namespace = head.Namespace := by rw [hr]; rfl
    rw [this]
    exact hns head (List.mem_of_getLast?_eq_some hh)
  · rw [hr]; rfl
  · rw [hr]; rfl

/-- C9 at the store of `TestRollbackRelease` before its second rollback: rolling
back from head 3 stores revision 4, a copy of revision 2 ("hello world", the
rollback hook), described "Rollback to 2". -/
theorem rollback_copies_previous_witness :
    (mkRequest "angry-panda" 0 false).Version = 0
    ∧ (RollbackRelease okClient storeThree (mkRequest "angry-panda" 0 false)).err = none
    ∧ (RollbackRelease okClient storeThree (mkRequest "angry-panda" 0 false)).rel.map
          (fun r => (r.Version, r.Manifest, r.Info.Description,
            r.Hooks.map (fun h => (h.Manifest, h.Events))))
        = some (4, "hello world", "Rollback to 2",
            [("manifestWithRollbackHooks",
              [Hook_Event.PRE_ROLLBACK, Hook_Event.POST_ROLLBACK])])
    ∧ ∃ r cur target,
      (RollbackRelease okClient storeThree (mkRequest "angry-panda" 0 false)).rel = some r
      ∧ storeThree.Deployed (mkRequest "angry-panda" 0 false).Name = .ok cur
      ∧ target ∈ storeThree.History (mkRequest "angry-panda" 0 false).Name
      ∧ target.Info.Status.Code ≠ .DELETED
      ∧ target.Version < cur.Version
      ∧ (∀ x ∈ storeThree.History (mkRequest "angry-panda" 0 false).Name,
          x.Info.Status.Code ≠ .DELETED → x.Version < cur.Version →
          x.Version ≤ target.Version)
      ∧ (RollbackRelease okClient storeThree (mkRequest "angry-panda" 0 false)).store.Get
          (mkRequest "angry-panda" 0 false).Name r.Version = .ok r
      ∧ r.Manifest = target.Manifest
      ∧ r.Hooks.map (fun h => (h.Manifest, h.Events))
          = target.Hooks.map (fun h => (h.Manifest, h.Events))
      ∧ r.Hooks.map Hook.notRun = target.Hooks.map Hook.notRun
      ∧ r.Name = (mkRequest "angry-panda" 0 false).Name
      ∧ (∀ ns, (∀ x ∈ storeThree.History (mkRequest "angry-panda" 0 false).Name,
          x.Namespace = ns) → r.Namespace = ns)
      ∧ r.Info.Description = "Rollback to " ++ toString target.Version
      ∧ r.Info.Status.Code = .DEPLOYED :=
  ⟨rfl, by decide, rfl,
   rollback_copies_previous okClient storeThree (mkRequest "angry-panda" 0 false) rfl
     (by decide)⟩

/-- C10: for a release whose history is the versions `1..n`, the revision that
`RollbackRelease` returns has version `n + 1` and is stored under that version;
its version is greater than that of every revision of the history, so it never
reuses the version of the target. -/
theorem rollback_version_is_next (cc : ClusterClient) (s : Store)
    (req : RollbackReleaseRequest) (r : Release) (n : Nat)
    (hhist : (s.History req.Name).map Release.Version = (List.range' 1 n).map Int.ofNat)
    (hrel : (RollbackRelease cc s req).rel = some r) :
    r.Version = (n : Int) + 1
    ∧ (RollbackRelease cc s req).store.Get req.Name ((n : Int) + 1) = .ok r
    ∧ (∀ x ∈ s.History req.Name, x.Version < r.Version)
    ∧ (∀ head target, (s.History req.Name).getLast? = some head →
        resolveTarget s head req = .ok target → target.Version ≠ r.Version) := by
  obtain ⟨head, target, hooks, hh, ht, _, _, _, hr, hget, _⟩ :=
    RollbackRelease_persisted cc s req r hrel
  have hn : 0 < n := by
    rcases Nat.eq_zero_or_pos n with h0 | h0
    · subst h0
      simp at hhist
      rw [hhist] at hh
      cases hh
    · exact h0
  have hhead : head.Version = (n : Int) := by
    have h1 := List.getLast?_map Release.Version (s.History req.Name)
    rw [hhist, range'_map_getLast? n hn, hh] at h1
    simpa using h1.symm
  have hver : r.Version = (n : Int) + 1 := by
    rw [hr, ← hhead]
    cases (RollbackRelease cc s req).err <;> rfl
  have hlt : ∀ x ∈ s.History req.Name, x.Version < r.Version := by
    intro x hx
    have := getLast?_max _ head (History_sorted s req.Name) hh x hx
    omega
  refine ⟨hver, ?_, hlt, ?_⟩
  · rw [← hhead]; exact hget
  · intro head1 target1 _ ht1
    exact ne_of_lt (hlt target1 (resolveTarget_mem s head1 req target1 ht1))

/-- C10 at the stores of `TestRollbackRelease`: after revisions 1 and 2 the
rollback returns and stores version 3, and after revisions 1 to 3 version 4. -/
theorem rollback_version_is_next_witness :
    (∃ r, (RollbackRelease okClient storeTwo (mkRequest "angry-panda" 0 false)).rel = some r
      ∧ r.Version = ((2 : Nat) : Int) + 1
      ∧ (RollbackRelease okClient storeTwo (mkRequest "angry-panda" 0 false)).store.Get
          "angry-panda" (((2 : Nat) : Int) + 1) = .ok r)
    ∧ (∃ r, (RollbackRelease okClient storeThree (mkRequest "angry-panda" 0 false)).rel = some r
      ∧ r.Version = ((3 : Nat) : Int) + 1
      ∧ (RollbackRelease okClient storeThree (mkRequest "angry-panda" 0 false)).store.Get
          "angry-panda" (((3 : Nat) : Int) + 1) = .ok r) :=
  ⟨⟨_, rfl,
      (rollback_version_is_next okClient storeTwo (mkRequest "angry-panda" 0 false) _ 2
        (by decide) rfl).1,
      (rollback_version_is_next okClient storeTwo (mkRequest "angry-panda" 0 false) _ 2
        (by decide) rfl).2.1⟩,
   ⟨_, rfl,
      (rollback_version_is_next okClient storeThree (mkRequest "angry-panda" 0 false) _ 3
        (by decide) rfl).1,
      (rollback_version_is_next okClient storeThree (mkRequest "angry-panda" 0 false) _ 3
        (by decide) rfl).2.1⟩⟩

/-- The version after the head is free: `Create` of the new revision succeeds. -/
theorem Create_fresh (s : Store) (req : RollbackReleaseRequest) (head target : Release)
    (hh : (s.History req.Name).getLast? = some head) :
    s.Create (rollbackRevision head target req) = .ok (s ++ [rollbackRevision head target req]) := by
  unfold Store.Create
  have hno : s.any (fun x => x.isRev (rollbackRevision head target req).Name
      (rollbackRevision head target req).Version) = false := by
    rw [Bool.eq_false_iff]
    intro hany
    rw [List.any_eq_true] at hany
    obtain ⟨x, hx, hk⟩ := hany
    obtain ⟨hn, hv⟩ := (isRev_iff _ _ _).mp hk
    have hn2 : x.Name = req.Name := hn
    have hv2 : x.Version = head.Version + 1 := hv
    have hmem : x ∈ s.History req.Name := (mem_History s req.Name x).mpr ⟨hx, hn2⟩
    have := getLast?_max _ head (History_sorted s req.Name) hh x hmem
    omega
  simp [hno]

/-- The commit of a rollback keeps the log of cluster calls. -/
theorem commitRollback_log (s1 : Store) (prior : Option Release) (final : Release)
    (log : List ClusterCall) (err : Option Err) :
    (commitRollback s1 prior final log err).log = log := by
  unfold commitRollback
  simp only []
  repeat' split
  all_goals rfl

/-- The commit of a failed rollback returns an error. -/
theorem commitRollback_err (s1 : Store) (prior : Option Release) (final : Release)
    (log : List ClusterCall) (e : Err) :
    (commitRollback s1 prior final log (some e)).err ≠ none := by
  unfold commitRollback
  simp only []
  repeat' split
  all_goals simp

/-- Outcome of a rollback whose target resolves: the new revision is persisted
and the rollback ends with the commit of its terminal state.  A success means
that the cluster client applied the manifest; with hooks disabled the only
cluster call is that apply and the only possible failure is its failure. -/
theorem RollbackRelease_outcome (cc : ClusterClient) (s : Store) (req : RollbackReleaseRequest)
    (head target : Release)
    (hh : (s.History req.Name).getLast? = some head)
    (ht : resolveTarget s head req = .ok target) :
    ∃ hooks log err,
      RollbackRelease cc s req
        = commitRollback (s ++ [rollbackRevision head target req])
            (s.Deployed req.Name).toOption
            (finalRevision (rollbackRevision head target req) hooks target err) log err
      ∧ (err = none → ∃ log0, cc.Apply log0 head.Namespace target.Manifest = none)
      ∧ (req.DisableHooks = true →
          hooks = target.Hooks
          ∧ log = [ClusterCall.Apply head.Namespace target.Manifest]
          ∧ (err = none ∨ ∃ reason, err = some (.ApplyFailed reason))) := by
  unfold RollbackRelease
  rw [hh]
  simp only []
  rw [ht]
  simp only []
  rw [Create_fresh s req head target hh]
  simp only []
  have hns : (rollbackRevision head target req).Namespace = head.Namespace := rfl
  have hmf : (rollbackRevision head target req).Manifest = target.Manifest := rfl
  have hhk : (rollbackRevision head target req).Hooks = target.Hooks := rfl
  by_cases hdis : req.DisableHooks = true
  · simp only [hdis, if_true]
    cases ha : cc.Apply [] (rollbackRevision head target req).Namespace
        (rollbackRevision head target req).Manifest with
    | some reason =>
      refine ⟨_, _, some (.ApplyFailed reason), rfl, ?_, ?_⟩
      · intro h; cases h
      · intro _
        exact ⟨hhk, by simp [hns, hmf], Or.inr ⟨reason, rfl⟩⟩
    | none =>
      refine ⟨_, _, none, rfl, ?_, ?_⟩
      · intro _
        exact ⟨[], by rw [← hns, ← hmf]; exact ha⟩
      · intro _
        exact ⟨hhk, by simp [hns, hmf], Or.inl rfl⟩
  · have hdis2 : req.DisableHooks = false := by simpa using hdis
    simp only [hdis2, Bool.false_eq_true, if_false]
    generalize execHooks cc (rollbackRevision head target req).Namespace
      req.Timeout .PRE_ROLLBACK (rollbackRevision head target req).Hooks [] = pre
    cases hpe : pre.err with
    | some e =>
      exact ⟨pre.hooks, _, some e, rfl, fun h => Option.noConfusion h, fun h => h.elim⟩
    | none =>
      try simp only []
      cases ha : cc.Apply pre.log (rollbackRevision head target req).Namespace
          (rollbackRevision head target req).Manifest with
      | some reason =>
        exact ⟨pre.hooks, _, some (.ApplyFailed reason), rfl, fun h => Option.noConfusion h,
          fun h => h.elim⟩
      | none =>
        try simp only []
        generalize execHooks cc (rollbackRevision head target req).Namespace
          req.Timeout .POST_ROLLBACK pre.hooks
          (pre.log ++ [ClusterCall.Apply (rollbackRevision head target req).Namespace
            (rollbackRevision head target req).Manifest]) = post
        have happ : ∃ log0, cc.Apply log0 head.Namespace target.Manifest = none :=
          ⟨pre.log, by rw [← hns, ← hmf]; exact ha⟩
        cases hpo : post.err with
        | some e =>
          exact ⟨post.hooks, _, some e, rfl, fun h => Option.noConfusion h, fun h => h.elim⟩
        | none =>
          exact ⟨post.hooks, _, none, rfl, fun _ => happ, fun h => h.elim⟩

/-- C11: when the target of a rollback resolves and the cluster client fails to
apply the rolled-back manifest, `RollbackRelease` returns both an error and the
new revision; that revision carries the manifest of the target under the next
version, its status is `FAILED`, and it is stored as returned. -/
theorem rollback_apply_failure (cc : ClusterClient) (s : Store) (req : RollbackReleaseRequest)
    (head target : Release)
    (hh : (s.History req.Name).getLast? = some head)
    (ht : resolveTarget s head req = .ok target)
    (hfail : ∀ log, cc.Apply log head.Namespace target.Manifest ≠ none) :
    ∃ r e,
      (RollbackRelease cc s req).rel = some r
      ∧ (RollbackRelease cc s req).err = some e
      ∧ r.Info.Status.Code = .FAILED
      ∧ r.Manifest = target.Manifest
      ∧ r.Version = head.Version + 1
      ∧ (RollbackRelease cc s req).store.Get req.Name r.Version = .ok r := by
  obtain ⟨hooks, log, err, heq, hsucc, _⟩ := RollbackRelease_outcome cc s req head target hh ht
  cases err with
  | none =>
    obtain ⟨log0, h0⟩ := hsucc rfl
    exact absurd h0 (hfail log0)
  | some e =>
    have hrel : (RollbackRelease cc s req).rel
        = some (failedRevision (rollbackRevision head target req) hooks e) := by
      rw [heq]
      exact commitRollback_rel _ _ _ _ _
    obtain ⟨head1, _, _, hh1, _, _, _, _, hr, hget, _⟩ :=
      RollbackRelease_persisted cc s req _ hrel
    have hhead : head1 = head := by
      rw [hh] at hh1
      injection hh1 with h
      exact h.symm
    subst hhead
    have herr : (RollbackRelease cc s req).err ≠ none := by
      rw [heq]
      exact commitRollback_err _ _ _ _ _
    obtain ⟨e1, he1⟩ := Option.ne_none_iff_exists'.mp herr
    exact ⟨_, e1, hrel, he1, rfl, rfl, rfl, hget⟩

/-- C11 at `TestRollbackReleaseFailure`: with a cluster client that fails every
apply, the rollback of the two-revision release returns the error of the apply
and revision 3, which is `FAILED`. -/
theorem rollback_apply_failure_witness :
    (storeTwo.History (mkRequest "angry-panda" 0 true).Name).getLast?
        = some (mkRelease "angry-panda" 2 .DEPLOYED "hello world" rollbackHooks)
    ∧ (RollbackRelease failingClient storeTwo (mkRequest "angry-panda" 0 true)).err
        = some (.ApplyFailed "update failed")
    ∧ (RollbackRelease failingClient storeTwo (mkRequest "angry-panda" 0 true)).rel.map
          (fun r => (r.Version, r.Info.Status.Code, r.Info.Description))
        = some (3, .FAILED, "apply failed: update failed")
    ∧ ∃ r e,
      (RollbackRelease failingClient storeTwo (mkRequest "angry-panda" 0 true)).rel = some r
      ∧ (RollbackRelease failingClient storeTwo (mkRequest "angry-panda" 0 true)).err = some e
      ∧ r.Info.Status.Code = .FAILED
      ∧ r.Manifest = (mkRelease "angry-panda" 1 .SUPERSEDED "stub manifest" stubHooks).Manifest
      ∧ r.Version = (mkRelease "angry-panda" 2 .DEPLOYED "hello world" rollbackHooks).Version + 1
      ∧ (RollbackRelease failingClient storeTwo (mkRequest "angry-panda" 0 true)).store.Get
          (mkRequest "angry-panda" 0 true).Name r.Version = .ok r :=
  ⟨by decide, by decide, rfl,
   rollback_apply_failure failingClient storeTwo (mkRequest "angry-panda" 0 true)
     (mkRelease "angry-panda" 2 .DEPLOYED "hello world" rollbackHooks)
     (mkRelease "angry-panda" 1 .SUPERSEDED "stub manifest" stubHooks)
     (by decide) rfl (fun _ h => Option.noConfusion h)⟩

/-- C12, as amended: a rollback requested with hooks disabled runs no hook: the
hooks of the returned revision are the hooks of the target as they are stored,
each with the last-run timestamp it has on the target, so the timestamp is unset
on every hook exactly when it is unset on every hook of the target; and the only
cluster call of the rollback is the apply of the manifest of the release. -/
theorem rollback_no_hooks (cc : ClusterClient) (s : Store) (req : RollbackReleaseRequest)
    (r : Release)
    (hdis : req.DisableHooks = true)
    (hrel : (RollbackRelease cc s req).rel = some r) :
    (∃ head target, (s.History req.Name).getLast? = some head
        ∧ resolveTarget s head req = .ok target
        ∧ r.Hooks = target.Hooks
        ∧ r.Hooks.map Hook.LastRun = target.Hooks.map Hook.LastRun
        ∧ ((∀ h ∈ r.Hooks, h.LastRun = 0) ↔ (∀ h ∈ target.Hooks, h.LastRun = 0)))
    ∧ (RollbackRelease cc s req).log = [ClusterCall.Apply r.Namespace r.Manifest] := by
  obtain ⟨head, target, hooks, hh, ht, _, _, hd, hr, _, _⟩ :=
    RollbackRelease_persisted cc s req r hrel
  obtain ⟨hooks2, log, err, heq, _, hlog⟩ := RollbackRelease_outcome cc s req head target hh ht
  obtain ⟨_, hl, _⟩ := hlog hdis
  have hhooks : r.Hooks = target.Hooks := by
    rw [hr, ← hd hdis]
    cases (RollbackRelease cc s req).err <;> rfl
  have hns : r.Namespace = head.Namespace := by
    rw [hr]; cases (RollbackRelease cc s req).err <;> rfl
  have hmf : r.Manifest = target.Manifest := by
    rw [hr]; cases (RollbackRelease cc s req).err <;> rfl
  refine ⟨⟨head, target, hh, ht, hhooks, by rw [hhooks], by rw [hhooks]⟩, ?_⟩
  rw [heq, commitRollback_log, hl, hns, hmf]

/-- C12 at `TestRollbackReleaseNoHooks`: the target carries the rollback hook,
which never ran; after the rollback with hooks disabled the hook of revision 3
has no last run and the only cluster call is the apply of the manifest.  The
same rollback with hooks enabled runs the hook before and after the apply and
leaves the time of its last run on it. -/
theorem rollback_no_hooks_witness :
    (mkRequest "angry-panda" 0 true).DisableHooks = true
    ∧ (RollbackRelease okClient storeRollbackHooks (mkRequest "angry-panda" 0 true)).rel.map
          (fun r => (r.Version, r.Info.Status.Code, r.Hooks.map (fun h => (h.Name, h.LastRun))))
        = some (3, .DEPLOYED, [("test-cm", 0)])
    ∧ (∃ r, (RollbackRelease okClient storeRollbackHooks (mkRequest "angry-panda" 0 true)).rel
          = some r
        ∧ (∃ head target,
            (storeRollbackHooks.History (mkRequest "angry-panda" 0 true).Name).getLast?
              = some head
            ∧ resolveTarget storeRollbackHooks head (mkRequest "angry-panda" 0 true) = .ok target
            ∧ r.Hooks = target.Hooks
            ∧ r.Hooks.map Hook.LastRun = target.Hooks.map Hook.LastRun
            ∧ ((∀ h ∈ r.Hooks, h.LastRun = 0) ↔ (∀ h ∈ target.Hooks, h.LastRun = 0)))
        ∧ (RollbackRelease okClient storeRollbackHooks (mkRequest "angry-panda" 0 true)).log
            = [ClusterCall.Apply r.Namespace r.Manifest])
    ∧ (RollbackRelease okClient storeRollbackHooks (mkRequest "angry-panda" 0 false)).rel.map
          (fun r => r.Hooks.map (fun h => (h.Name, h.LastRun)))
        = some [("test-cm", 4)]
    ∧ (RollbackRelease okClient storeRollbackHooks (mkRequest "angry-panda" 0 false)).log
        = [ClusterCall.Apply "default" "manifestWithRollbackHooks",
           ClusterCall.GetPhase "default" "manifestWithRollbackHooks" 0,
           ClusterCall.Apply "default" "stub manifest",
           ClusterCall.Apply "default" "manifestWithRollbackHooks",
           ClusterCall.GetPhase "default" "manifestWithRollbackHooks" 0] :=
  ⟨rfl, rfl,
    ⟨_, rfl,
      (rollback_no_hooks okClient storeRollbackHooks (mkRequest "angry-panda" 0 true) _ rfl
        rfl).1,
      (rollback_no_hooks okClient storeRollbackHooks (mkRequest "angry-panda" 0 true) _ rfl
        rfl).2⟩,
    rfl, rfl⟩

/-- C12 as stated fails: the target revision carries a hook for the rollback
events that ran after the install, at time 7.  The rollback with hooks disabled
succeeds, its only cluster call is the apply of the manifest, and the hook of
the returned revision carries the last-run timestamp 7 of the target, not an
unset one. -/
theorem rollback_no_hooks_keeps_last_run :
    resolveTarget storeHookRan (mkRelease "angry-panda" 2 .DEPLOYED "stub manifest" [])
        (mkRequest "angry-panda" 0 true)
      = .ok (mkRelease "angry-panda" 1 .SUPERSEDED "stub manifest" ranHooks)
    ∧ (ranHooks.map (fun h => (h.Name, h.Events, h.LastRun))
        = [("test-cm", [Hook_Event.POST_INSTALL, Hook_Event.PRE_ROLLBACK,
              Hook_Event.POST_ROLLBACK], 7)])
    ∧ (RollbackRelease okClient storeHookRan (mkRequest "angry-panda" 0 true)).err = none
    ∧ (RollbackRelease okClient storeHookRan (mkRequest "angry-panda" 0 true)).log
        = [ClusterCall.Apply "default" "stub manifest"]
    ∧ (RollbackRelease okClient storeHookRan (mkRequest "angry-panda" 0 true)).rel.map
          (fun r => (r.Version, r.Info.Status.Code, r.Hooks.map (fun h => (h.Name, h.LastRun))))
        = some (3, .DEPLOYED, [("test-cm", 7)])
    ∧ ¬ (∀ r, (RollbackRelease okClient storeHookRan (mkRequest "angry-panda" 0 true)).rel
          = some r → ∀ h ∈ r.Hooks, h.LastRun = 0) := by
  refine ⟨rfl, rfl, by decide, rfl, rfl, ?_⟩
  intro hall
  have h := hall _ rfl { mkHook "test-cm" "manifestWithRollbackHooks"
    [Hook_Event.POST_INSTALL, Hook_Event.PRE_ROLLBACK, Hook_Event.POST_ROLLBACK] with
    LastRun := 7 } (List.mem_singleton.mpr rfl)
  exact absurd h (by decide)


/-! ## Properties of the rollback command -/

/-- C13, evaluated on the source: for every pair of arguments the action is run
once, on `args[0]`, with the client as the flags left it, whatever `args[1]` is:
`rollback angry-panda 1` without flags runs the action with target version `0`,
not `1`. -/
theorem rollback_cmd_ignores_revision :
    (∀ (client : Rollback) (Run : Rollback → String → Option String) (a b : String),
        (newRollbackCmd client Run [a, b]).calls = [(client, a)])
    ∧ (newRollbackCmd defaultRollback (fun _ _ => none) ["angry-panda", "1"]).calls
        = [(defaultRollback, "angry-panda")]
    ∧ (newRollbackCmd defaultRollback (fun _ _ => none) ["angry-panda", "1"]).err = none
    ∧ defaultRollback.Version = 0 := by
  refine ⟨?_, rfl, rfl, rfl⟩
  intro client Run a b
  simp only [newRollbackCmd, ExactArgs, rollbackRunE, List.length_cons, List.length_nil]
  cases Run client a <;> rfl


/-! ## Properties of chart URLs -/

/-- Up to the first separator: the span of a list whose head part has no
separator. -/
theorem span_ne_sep (sep : Char) (a rest : List Char) (ha : sep ∉ a) :
    (a ++ sep :: rest).span (fun c => c ≠ sep) = (a, sep :: rest) := by
  induction a with
  | nil => simp [List.span_eq_take_drop, List.takeWhile, List.dropWhile]
  | cons x xs ih =>
    have hx : x ≠ sep := fun h => ha (by simp [h])
    have hxs : sep ∉ xs := fun h => ha (List.mem_cons_of_mem _ h)
    have := ih hxs
    simp only [List.span_eq_take_drop, Prod.mk.injEq] at this ⊢
    rw [List.cons_append, List.takeWhile_cons, List.dropWhile_cons]
    simp only [hx, ne_eq, not_false_eq_true, decide_True, if_true, this.1, this.2, and_self]

/-- The span of a list without separator is the whole list. -/
theorem span_no_sep (sep : Char) (a : List Char) (ha : sep ∉ a) :
    a.span (fun c => c ≠ sep) = (a, []) := by
  induction a with
  | nil => rfl
  | cons x xs ih =>
    have hx : x ≠ sep := fun h => ha (by simp [h])
    have hxs : sep ∉ xs := fun h => ha (List.mem_cons_of_mem _ h)
    have := ih hxs
    simp only [List.span_eq_take_drop, Prod.mk.injEq] at this ⊢
    rw [List.takeWhile_cons, List.dropWhile_cons]
    simp only [hx, ne_eq, not_false_eq_true, decide_True, if_true, this.1, this.2, and_self]

/-- Two separators outside the first two pieces give exactly those three pieces. -/
theorem splitNChars_three (sep : Char) (a b c : List Char) (ha : sep ∉ a) (hb : sep ∉ b) :
    splitNChars sep 3 (a ++ sep :: (b ++ sep :: c)) = [a, b, c] := by
  rw [splitNChars, span_ne_sep sep a _ ha]
  simp only []
  rw [splitNChars, span_ne_sep sep b _ hb]
  simp only [splitNChars]

/-- `SplitN` of `a/b/c` into three pieces, when `a` and `b` have no slash. -/
theorem SplitN_three (a b c : String) (ha : '/' ∉ a.toList) (hb : '/' ∉ b.toList) :
    SplitN (a ++ "/" ++ b ++ "/" ++ c) '/' 3 = [a, b, c] := by
  unfold SplitN
  have : (a ++ "/" ++ b ++ "/" ++ c).toList = a.toList ++ '/' :: (b.toList ++ '/' :: c.toList) := by
    simp [String.toList]
  rw [this, splitNChars_three '/' _ _ _ ha hb]
  simp [String.toList]

/-- `SplitN` of the path `/b/c` into three pieces, the first one empty. -/
theorem SplitN_path_three (b c : String) (hb : '/' ∉ b.toList) :
    SplitN ("/" ++ b ++ "/" ++ c) '/' 3 = ["", b, c] := by
  have := SplitN_three "" b c (by simp) hb
  simpa using this

/-- What follows the first piece: nothing, or a separator and a rest with one
separator less. -/
theorem span_snd_cases (sep : Char) (l : List Char) :
    (l.span (fun c => c ≠ sep)).2 = [] ∨
      ∃ rest, (l.span (fun c => c ≠ sep)).2 = sep :: rest
        ∧ l.count sep = rest.count sep + 1 := by
  induction l with
  | nil => left; rfl
  | cons x xs ih =>
    simp only [List.span_eq_take_drop] at ih ⊢
    rw [List.dropWhile_cons]
    by_cases hx : x = sep
    · right
      subst hx
      refine ⟨xs, ?_, ?_⟩
      · simp
      · simp
    · simp only [hx, ne_eq, not_false_eq_true, decide_True, if_true]
      rcases ih with h0 | ⟨rest, h1, h2⟩
      · left; exact h0
      · right
        refine ⟨rest, h1, ?_⟩
        rw [List.count_cons_of_ne (fun hc => hx hc.symm)]
        exact h2

/-- Fewer than two separators give fewer than three pieces. -/
theorem splitNChars_short (sep : Char) (s : List Char) (h : s.count sep < 2) :
    (splitNChars sep 3 s).length < 3 := by
  rw [splitNChars]
  rcases hsp : s.span (fun c => c ≠ sep) with ⟨a, tl⟩
  cases tl with
  | nil => simp
  | cons y rest =>
    simp only [List.length_cons]
    rcases span_snd_cases sep s with h0 | ⟨rest1, h1, h2⟩
    · rw [hsp] at h0; cases h0
    · rw [hsp] at h1
      have hr : rest = rest1 := by injection h1
      subst hr
      rw [splitNChars]
      rcases hsp2 : rest.span (fun c => c ≠ sep) with ⟨a2, tl2⟩
      cases tl2 with
      | nil => simp
      | cons y2 rest2 =>
        rcases span_snd_cases sep rest with h0 | ⟨rest3, h3, h4⟩
        · rw [hsp2] at h0; cases h0
        · omega

/-- A string ends with the suffix appended to it. -/
theorem HasSuffix_append (x suf : String) : HasSuffix (x ++ suf) suf = true := by
  simp [HasSuffix, String.toList]

/-- Trimming the suffix just appended gives the string back. -/
theorem TrimSuffix_append (x suf : String) : TrimSuffix (x ++ suf) suf = x := by
  simp [TrimSuffix, HasSuffix_append, String.toList]

/-- A text is a number when it is not empty and all its characters are digits. -/
theorem isNumber_iff (x : List Char) :
    isNumber x = true ↔ x ≠ [] ∧ ∀ c ∈ x, isDigitChar c = true := by
  cases x <;> simp [isNumber]

/-- A text is an identifier when it is not empty and all its characters are
identifier characters. -/
theorem isIdent_iff (x : List Char) :
    isIdent x = true ↔ x ≠ [] ∧ ∀ c ∈ x, isIdentChar c = true := by
  cases x <;> simp [isIdent]

/-- The parts of a well-formed semantic version. -/
theorem wellFormed_iff (v : SemVer) :
    v.wellFormed = true ↔
      (v.major ≠ [] ∧ ∀ c ∈ v.major, isDigitChar c = true)
      ∧ (v.minor ≠ [] ∧ ∀ c ∈ v.minor, isDigitChar c = true)
      ∧ (v.patch ≠ [] ∧ ∀ c ∈ v.patch, isDigitChar c = true)
      ∧ (∀ i ∈ v.pre, isIdent i = true) ∧ (∀ i ∈ v.build, isIdent i = true) := by
  simp only [SemVer.wellFormed, Bool.and_eq_true, isNumber_iff, List.all_eq_true, and_assoc]

set_option maxRecDepth 100000 in
/-- The expression of `tnregexp` compiles, to the tree `tarNameTree` with twelve
groups. -/
theorem tnregexp_eq : tnregexp = some { re := tarNameTree, numSubexp := 12 } := by
  rfl

/-- Recording a submatch of one group leaves the submatch of another group as it
was. -/
theorem capture_push_ne (caps : List (Nat × List Char)) (i j : Nat) (w : List Char)
    (h : i ≠ j) : capture ((i, w) :: caps) j = capture caps j := by
  simp [capture, List.find?, h]

/-- The submatch of a group is the text recorded last for it. -/
theorem capture_push_eq (caps : List (Nat × List Char)) (i : Nat) (w : List Char) :
    capture ((i, w) :: caps) i = String.mk w := by
  simp [capture, List.find?]

/-- Rule of concatenation. -/
theorem triple_seq {P M Post : MState → Prop} {a b : Regex}
    (ha : Triple P a M) (hb : Triple M b Post) : Triple P (.seq a b) Post := by
  intro Q s k hP hk
  rw [Regex.run]
  exact ha Q s _ hP (fun s1 h1 => hb Q s1 k h1 hk)

/-- Rule of an optional item that is present. -/
theorem triple_optTake {P Post : MState → Prop} {a : Regex}
    (ha : Triple P a Post) : Triple P (.opt a) Post := by
  intro Q s k hP hk
  rw [Regex.run]
  obtain ⟨st, hst, hq⟩ := ha Q s k hP hk
  rw [hst]
  exact ⟨st, rfl, hq⟩

/-- Rule of an optional item that fails: the search goes on without it. -/
theorem triple_optSkip {P : MState → Prop} {a : Regex}
    (ha : ∀ s, P s → Fails a s) : Triple P (.opt a) P := by
  intro Q s k hP hk
  rw [Regex.run, ha s hP k]
  exact hk s hP

/-- Rule of a literal character that is next in the text. -/
theorem triple_lit (c : Char) (r : List Char) (c1 c2 : String) :
    Triple (At (c :: r) c1 c2) (.lit c) (At r c1 c2) := by
  intro Q s k hP hk
  obtain ⟨h1, h2, h3⟩ := hP
  rw [Regex.run, h1]
  simp only [if_true]
  exact hk _ ⟨rfl, h2, h3⟩

/-- Rule of the end of the text. -/
theorem triple_eol (c1 c2 : String) : Triple (At [] c1 c2) .eol (At [] c1 c2) := by
  intro Q s k hP hk
  rw [Regex.run, hP.1]
  simp only [if_true]
  exact hk _ hP

/-- Rule of a group other than groups 1 and 2. -/
theorem triple_group {r0 r1 : List Char} {c1 c2 : String} {a : Regex} (i : Nat)
    (h1 : i ≠ 1) (h2 : i ≠ 2)
    (ha : Triple (At r0 c1 c2) a (At r1 c1 c2)) :
    Triple (At r0 c1 c2) (.group i a) (At r1 c1 c2) := by
  intro Q s k hP hk
  rw [Regex.run]
  apply ha Q s _ hP
  intro s1 hs1
  apply hk
  exact ⟨hs1.1, by rw [capture_push_ne _ _ _ _ h1]; exact hs1.2.1,
    by rw [capture_push_ne _ _ _ _ h2]; exact hs1.2.2⟩

/-- Rule of group 2: its submatch is the text its expression has read. -/
theorem triple_group2 {w r1 : List Char} {c1 c2 : String} {a : Regex}
    (ha : Triple (At (w ++ r1) c1 c2) a (At r1 c1 c2)) :
    Triple (At (w ++ r1) c1 c2) (.group 2 a) (At r1 c1 (String.mk w)) := by
  intro Q s k hP hk
  rw [Regex.run]
  apply ha Q s _ hP
  intro s1 hs1
  apply hk
  refine ⟨hs1.1, by rw [capture_push_ne _ _ _ _ (by decide)]; exact hs1.2.1, ?_⟩
  rw [capture_push_eq, hP.1, hs1.1]
  simp

/-- A literal character fails when the next character is another one or the text
is at its end. -/
theorem fails_lit (c : Char) (s : MState) (h : ∀ x ∈ s.rest.head?, x ≠ c) :
    Fails (.lit c) s := by
  intro k
  rw [Regex.run]
  cases hr : s.rest with
  | nil => rfl
  | cons x xs =>
    have : x ≠ c := h x (by simp [hr])
    simp [this]

/-- The dot fails at the end of the text. -/
theorem fails_any (s : MState) (h : s.rest = []) : Fails .any s := by
  intro k
  rw [Regex.run, h]

/-- A concatenation fails when its first item fails. -/
theorem fails_seq {a : Regex} (b : Regex) {s : MState} (h : Fails a s) : Fails (.seq a b) s := by
  intro k
  rw [Regex.run]
  exact h _

/-- A group fails when its expression fails. -/
theorem fails_group {a : Regex} (i : Nat) {s : MState} (h : Fails a s) :
    Fails (.group i a) s := by
  intro k
  rw [Regex.run]
  exact h _

/-- The loop over a class reads the whole run of characters of the class. -/
theorem loop_cls (rs : List (Char × Char)) (r : List Char) (c1 c2 : String)
    (hr : ∀ y ∈ r.head?, inRanges rs y = false) (Q : MState → Prop)
    (k : MState → Option MState) (hk : ∀ s1, At r c1 c2 s1 → Good Q (k s1)) :
    ∀ (a : List Char) (n : Nat) (s : MState), (∀ x ∈ a, inRanges rs x = true) →
      a.length ≤ n → At (a ++ r) c1 c2 s → Good Q (matchLoop (Regex.cls rs).run n s k) := by
  intro a
  induction a with
  | nil =>
    intro n s _ _ hs
    have hs' : At r c1 c2 s := hs
    cases n with
    | zero => exact hk s hs'
    | succ n =>
      rw [matchLoop]
      have : (Regex.cls rs).run s (fun s1 =>
          if s1.rest.length < s.rest.length then matchLoop (Regex.cls rs).run n s1 k else none)
          = none := by
        rw [Regex.run]
        cases hrest : s.rest with
        | nil => rfl
        | cons x xs =>
          have hx : inRanges rs x = false := hr x (by rw [← hs'.1, hrest]; simp)
          simp [hx]
      rw [this]
      exact hk s hs'
  | cons x xs ih =>
    intro n s ha hn hs
    cases n with
    | zero => simp at hn
    | succ n =>
      rw [matchLoop]
      have hx : inRanges rs x = true := ha x (List.mem_cons_self _ _)
      have hstep : (Regex.cls rs).run s (fun s1 =>
          if s1.rest.length < s.rest.length then matchLoop (Regex.cls rs).run n s1 k else none)
          = matchLoop (Regex.cls rs).run n (s.next (xs ++ r)) k := by
        rw [Regex.run, hs.1]
        simp [hx, MState.next]
      rw [hstep]
      obtain ⟨st, hst, hq⟩ := ih n (s.next (xs ++ r))
        (fun y hy => ha y (List.mem_cons_of_mem _ hy)) (by simpa using hn)
        ⟨rfl, hs.2.1, hs.2.2⟩
      rw [hst]
      exact ⟨st, rfl, hq⟩

/-- Rule of `+` on a class: it reads the whole run of characters of the class. -/
theorem triple_plusCls (rs : List (Char × Char)) (a r : List Char) (c1 c2 : String)
    (hne : a ≠ []) (ha : ∀ x ∈ a, inRanges rs x = true)
    (hr : ∀ y ∈ r.head?, inRanges rs y = false) :
    Triple (At (a ++ r) c1 c2) (.plus (.cls rs)) (At r c1 c2) := by
  intro Q s k hP hk
  cases a with
  | nil => exact absurd rfl hne
  | cons x xs =>
    rw [Regex.run, Regex.run, hP.1]
    have hx : inRanges rs x = true := ha x (List.mem_cons_self _ _)
    simp only [List.cons_append, hx, if_true]
    exact loop_cls rs r c1 c2 hr Q k hk xs _ _ (fun y hy => ha y (List.mem_cons_of_mem _ hy))
      (by simp [MState.next]) ⟨rfl, hP.2.1, hP.2.2⟩


/-- One round of the dotted identifier group. -/
theorem triple_dottedStep (j : Nat) (h1 : j ≠ 1) (h2 : j ≠ 2) (i r : List Char) (c1 c2 : String)
    (hi : isIdent i = true) (hr : ∀ y ∈ r.head?, inRanges identRanges y = false) :
    Triple (At ('.' :: (i ++ r)) c1 c2) (dottedRe j) (At r c1 c2) :=
  triple_group j h1 h2 (triple_seq (triple_lit '.' _ c1 c2)
    (triple_plusCls identRanges i r c1 c2 ((isIdent_iff i).mp hi).1
      ((isIdent_iff i).mp hi).2 hr))

/-- The repetition of the dotted identifier group reads every dotted identifier. -/
theorem loop_dotted (j : Nat) (h1 : j ≠ 1) (h2 : j ≠ 2) (r : List Char) (c1 c2 : String)
    (hr : ∀ y ∈ r.head?, y ≠ '.' ∧ inRanges identRanges y = false) (Q : MState → Prop)
    (k : MState → Option MState) (hk : ∀ s1, At r c1 c2 s1 → Good Q (k s1)) :
    ∀ (ids : List (List Char)) (n : Nat) (s : MState), (∀ i ∈ ids, isIdent i = true) →
      (dotted ids).length ≤ n → At (dotted ids ++ r) c1 c2 s →
      Good Q (matchLoop (dottedRe j).run n s k) := by
  intro ids
  induction ids with
  | nil =>
    intro n s _ _ hs
    have hs' : At r c1 c2 s := hs
    cases n with
    | zero => exact hk s hs'
    | succ n =>
      rw [matchLoop]
      have hf : Fails (dottedRe j) s :=
        fails_group j (fails_seq _ (fails_lit '.' s (fun x hx => (hr x (by rw [← hs'.1]; exact hx)).1)))
      rw [hf]
      exact hk s hs'
  | cons i rest ih =>
    intro n s hids hn hs
    have hs' : At ('.' :: (i ++ (dotted rest ++ r))) c1 c2 s := by
      simpa [dotted, At] using hs
    cases n with
    | zero => simp [dotted] at hn
    | succ n =>
      rw [matchLoop]
      have hhead : ∀ y ∈ (dotted rest ++ r).head?, inRanges identRanges y = false := by
        intro y hy
        cases rest with
        | nil => exact (hr y (by simpa [dotted] using hy)).2
        | cons i2 rest2 =>
          have : y = '.' := by simpa [dotted] using hy.symm
          subst this
          decide
      obtain ⟨st, hst, hq⟩ := triple_dottedStep j h1 h2 i (dotted rest ++ r) c1 c2
        (hids i (List.mem_cons_self _ _)) hhead Q s
        (fun s1 => if s1.rest.length < s.rest.length then matchLoop (dottedRe j).run n s1 k
          else none) hs' (by
          intro s1 hs1
          have hlt : s1.rest.length < s.rest.length := by
            rw [hs1.1, hs'.1]
            simp
            omega
          simp only [hlt, if_true]
          apply ih n s1 (fun x hx => hids x (List.mem_cons_of_mem _ hx)) _ hs1
          simp [dotted] at hn ⊢
          omega)
      rw [hst]
      exact ⟨st, rfl, hq⟩

/-- Rule of `*` on the dotted identifier group. -/
theorem triple_starDotted (j : Nat) (h1 : j ≠ 1) (h2 : j ≠ 2) (ids : List (List Char))
    (r : List Char) (c1 c2 : String) (hids : ∀ i ∈ ids, isIdent i = true)
    (hr : ∀ y ∈ r.head?, y ≠ '.' ∧ inRanges identRanges y = false) :
    Triple (At (dotted ids ++ r) c1 c2) (.star (dottedRe j)) (At r c1 c2) := by
  intro Q s k hP hk
  rw [Regex.run]
  exact loop_dotted j h1 h2 r c1 c2 hr Q k hk ids _ s hids (by rw [hP.1]; simp) hP

/-- Rule of the optional group of a separator and a list of identifiers: it
reads the list when there is one and nothing otherwise. -/
theorem triple_idents (sep : Char) (j : Nat) (hj : 2 < j) (ids : List (List Char))
    (r : List Char) (c1 c2 : String) (hids : ∀ i ∈ ids, isIdent i = true)
    (hr : ∀ y ∈ r.head?, y ≠ sep ∧ y ≠ '.' ∧ inRanges identRanges y = false) :
    Triple (At (identList sep ids ++ r) c1 c2) (.opt (identsRe sep j)) (At r c1 c2) := by
  cases ids with
  | nil =>
    apply triple_optSkip
    intro s hs
    have hs' : At r c1 c2 s := hs
    exact fails_group j (fails_seq _ (fails_lit sep s
      (fun x hx => (hr x (by rw [← hs'.1]; exact hx)).1)))
  | cons i rest =>
    apply triple_optTake
    have hhead : ∀ y ∈ (dotted rest ++ r).head?, inRanges identRanges y = false := by
      intro y hy
      cases rest with
      | nil => exact (hr y (by simpa [dotted] using hy)).2.2
      | cons i2 rest2 =>
        have : y = '.' := by simpa [dotted] using hy.symm
        subst this
        decide
    have := triple_group j (by omega) (by omega) (triple_seq (triple_lit sep _ c1 c2)
      (triple_group (j + 1) (by omega) (by omega)
        (triple_seq
          (triple_plusCls identRanges i (dotted rest ++ r) c1 c2
            ((isIdent_iff i).mp (hids i (List.mem_cons_self _ _))).1
            ((isIdent_iff i).mp (hids i (List.mem_cons_self _ _))).2 hhead)
          (triple_starDotted (j + 2) (by omega) (by omega) rest r c1 c2
            (fun x hx => hids x (List.mem_cons_of_mem _ hx))
            (fun y hy => ⟨(hr y hy).2.1, (hr y hy).2.2⟩)))))
    simpa [identList, identsRe, List.append_assoc] using this


/-- The dot is not a digit. -/
theorem not_digit_dot : inRanges digitRanges '.' = false := by decide

/-- What follows the patch number starts with a hyphen or a plus sign, if it is
not empty. -/
theorem head_identLists (pre build : List (List Char)) (y : Char)
    (hy : y ∈ (identList '-' pre ++ identList '+' build).head?) : y = '-' ∨ y = '+' := by
  cases pre with
  | cons i rest => left; simpa [identList] using hy.symm
  | nil =>
    cases build with
    | cons i rest => right; simpa [identList] using hy.symm
    | nil => simp [identList] at hy

/-- The body of the version group reads the text of a semantic version to its
end. -/
theorem triple_version (v : SemVer) (hv : v.wellFormed = true) (c1 c2 : String) :
    Triple (At v.text c1 c2) versionRe (At [] c1 c2) := by
  obtain ⟨hmaj, hmin, hpat, hpre, hbuild⟩ := (wellFormed_iff v).mp hv
  have hskip : Triple (At v.text c1 c2) (.opt (.lit 'v')) (At v.text c1 c2) := by
    apply triple_optSkip
    intro s hs
    apply fails_lit
    intro x hx
    rw [hs.1] at hx
    obtain ⟨hne, hd⟩ := hmaj
    cases hm : v.major with
    | nil => exact absurd hm hne
    | cons m ms =>
      have hxm : x = m := by simpa [SemVer.text, hm] using hx.symm
      have hdm : isDigitChar m = true := hd m (by rw [hm]; exact List.mem_cons_self _ _)
      rw [hxm]
      intro h
      rw [h] at hdm
      exact absurd hdm (by decide)
  have hmajor := triple_group 3 (by decide) (by decide)
    (triple_plusCls digitRanges v.major
      ('.' :: (v.minor ++ ('.' :: (v.patch ++ (identList '-' v.pre ++ identList '+' v.build)))))
      c1 c2 hmaj.1 hmaj.2 (by intro y hy; simp at hy; subst hy; decide))
  have hminor := triple_optTake (triple_group 4 (by decide) (by decide)
    (triple_seq (triple_lit '.' _ c1 c2)
      (triple_plusCls digitRanges v.minor
        ('.' :: (v.patch ++ (identList '-' v.pre ++ identList '+' v.build)))
        c1 c2 hmin.1 hmin.2 (by intro y hy; simp at hy; subst hy; decide))))
  have hpatch := triple_optTake (triple_group 5 (by decide) (by decide)
    (triple_seq (triple_lit '.' _ c1 c2)
      (triple_plusCls digitRanges v.patch
        (identList '-' v.pre ++ identList '+' v.build)
        c1 c2 hpat.1 hpat.2 (by
          intro y hy
          rcases head_identLists _ _ y hy with h | h <;> subst h <;> decide))))
  have hpreT := triple_idents '-' 6 (by decide) v.pre (identList '+' v.build) c1 c2 hpre (by
    intro y hy
    have : y = '+' := by
      cases hb : v.build with
      | nil => simp [hb, identList] at hy
      | cons i rest => simpa [hb, identList] using hy.symm
    subst this
    decide)
  have hbuildT := triple_idents '+' 9 (by decide) v.build [] c1 c2 hbuild (by simp)
  rw [List.append_nil] at hbuildT
  exact triple_seq hskip (triple_seq hmajor (triple_seq hminor (triple_seq hpatch
    (triple_seq hpreT hbuildT))))

/-- What follows the hyphen in the expression of `tnregexp` reads the text of a
semantic version to its end and records it as the submatch of group 2. -/
theorem triple_tail (v : SemVer) (hv : v.wellFormed = true) (c1 c2 : String) :
    Triple (At v.text c1 c2) tailRe (At [] c1 (String.mk v.text)) := by
  have h2 : Triple (At (v.text ++ []) c1 c2) (.group 2 versionRe)
      (At [] c1 (String.mk v.text)) :=
    triple_group2 (by rw [List.append_nil]; exact triple_version v hv c1 c2)
  rw [List.append_nil] at h2
  have htgz : Triple (At [] c1 (String.mk v.text)) (.opt tgzRe) (At [] c1 (String.mk v.text)) :=
    triple_optSkip (fun s hs => fails_group 12 (fails_seq _ (fails_any s hs.1)))
  exact triple_seq h2 (triple_seq htgz (triple_eol c1 _))

/-- The loop over a class gives up every prefix after which the continuation
fails. -/
theorem loop_backtrack (rs : List (Char × Char)) (r : List Char)
    (hr : ∀ y ∈ r.head?, inRanges rs y = false) (k : MState → Option MState) :
    ∀ (b : List Char) (n : Nat) (s : MState), (∀ x ∈ b, inRanges rs x = true) →
      b.length ≤ n → s.rest = b ++ r →
      (∀ p q, b = p ++ q → p ≠ [] → ∀ s1 : MState, s1.rest = q ++ r → k s1 = none) →
      matchLoop (Regex.cls rs).run n s k = k s := by
  intro b
  induction b with
  | nil =>
    intro n s _ _ hs _
    cases n with
    | zero => rfl
    | succ n =>
      rw [matchLoop]
      have : (Regex.cls rs).run s (fun s1 =>
          if s1.rest.length < s.rest.length then matchLoop (Regex.cls rs).run n s1 k else none)
          = none := by
        rw [Regex.run]
        cases hrest : s.rest with
        | nil => rfl
        | cons x xs =>
          have hx : inRanges rs x = false := hr x (by
            have : r = x :: xs := by rw [← hrest, hs]; rfl
            rw [this]; simp)
          simp [hx]
      rw [this]
  | cons x xs ih =>
    intro n s hb hn hs hfail
    cases n with
    | zero => simp at hn
    | succ n =>
      rw [matchLoop]
      have hx : inRanges rs x = true := hb x (List.mem_cons_self _ _)
      have hstep : (Regex.cls rs).run s (fun s1 =>
          if s1.rest.length < s.rest.length then matchLoop (Regex.cls rs).run n s1 k else none)
          = matchLoop (Regex.cls rs).run n (s.next (xs ++ r)) k := by
        rw [Regex.run, hs]
        simp [hx, MState.next]
      rw [hstep, ih n (s.next (xs ++ r)) (fun y hy => hb y (List.mem_cons_of_mem _ hy))
        (by simpa using hn) rfl
        (fun p q hpq hp s1 hs1 => hfail (x :: p) q (by rw [hpq]; rfl) (by simp) s1 hs1)]
      rw [hfail [x] xs rfl (by simp) (s.next (xs ++ r)) rfl]

/-- The loop over a class, when the continuation fails after every prefix longer
than `a` and succeeds after `a`: the result is that of the continuation after
`a`. -/
theorem loop_greedy_then (rs : List (Char × Char)) (r : List Char)
    (hr : ∀ y ∈ r.head?, inRanges rs y = false) (Q : MState → Prop)
    (k : MState → Option MState) (b : List Char) (hb : ∀ x ∈ b, inRanges rs x = true)
    (hfail : ∀ p q, b = p ++ q → p ≠ [] → ∀ s1 : MState, s1.rest = q ++ r → k s1 = none)
    (caps : List (Nat × List Char))
    (hk : ∀ s1 : MState, s1.rest = b ++ r → s1.caps = caps → Good Q (k s1)) :
    ∀ (a : List Char) (n : Nat) (s : MState), (∀ x ∈ a, inRanges rs x = true) →
      (a ++ b).length ≤ n → s.rest = a ++ (b ++ r) → s.caps = caps →
      Good Q (matchLoop (Regex.cls rs).run n s k) := by
  intro a
  induction a with
  | nil =>
    intro n s _ hn hs hc
    rw [loop_backtrack rs r hr k b n s hb (by simpa using hn) hs hfail]
    exact hk s hs hc
  | cons x xs ih =>
    intro n s ha hn hs hc
    cases n with
    | zero => simp at hn
    | succ n =>
      rw [matchLoop]
      have hx : inRanges rs x = true := ha x (List.mem_cons_self _ _)
      have hstep : (Regex.cls rs).run s (fun s1 =>
          if s1.rest.length < s.rest.length then matchLoop (Regex.cls rs).run n s1 k else none)
          = matchLoop (Regex.cls rs).run n (s.next (xs ++ (b ++ r))) k := by
        rw [Regex.run, hs]
        simp [hx, MState.next]
      rw [hstep]
      obtain ⟨st, hst, hq⟩ := ih n (s.next (xs ++ (b ++ r)))
        (fun y hy => ha y (List.mem_cons_of_mem _ hy)) (by simpa using hn) rfl hc
      rw [hst]
      exact ⟨st, rfl, hq⟩

/-- The operator `+` on a class, when the continuation fails after every prefix
longer than `a` and succeeds after `a`. -/
theorem plus_backtrack (rs : List (Char × Char)) (a b r : List Char) (hne : a ≠ [])
    (ha : ∀ x ∈ a, inRanges rs x = true) (hb : ∀ x ∈ b, inRanges rs x = true)
    (hr : ∀ y ∈ r.head?, inRanges rs y = false) (Q : MState → Prop)
    (k : MState → Option MState) (s : MState) (hs : s.rest = a ++ (b ++ r))
    (hfail : ∀ p q, b = p ++ q → p ≠ [] → ∀ s1 : MState, s1.rest = q ++ r → k s1 = none)
    (hk : ∀ s1 : MState, s1.rest = b ++ r → s1.caps = s.caps → Good Q (k s1)) :
    Good Q ((Regex.plus (.cls rs)).run s k) := by
  cases a with
  | nil => exact absurd rfl hne
  | cons x xs =>
    rw [Regex.run, Regex.run, hs]
    have hx : inRanges rs x = true := ha x (List.mem_cons_self _ _)
    simp only [List.cons_append, hx, if_true]
    exact loop_greedy_then rs r hr Q k b hb hfail s.caps hk xs _ _
      (fun y hy => ha y (List.mem_cons_of_mem _ hy)) (by simp [MState.next]) rfl rfl

/-- A digit is a name character of `TarNameRegex`. -/
theorem digit_name (c : Char) (h : isDigitChar c = true) : inRanges nameRanges c = true := by
  simp only [isDigitChar, inRanges, nameRanges, List.any_cons, List.any_nil, Bool.or_false,
    Bool.or_eq_true] at h ⊢
  exact Or.inl h

/-- The expression of `tnregexp` on `N-V`, for a name `N` of name characters and
the text `V` of a semantic version: the match exists, the submatch of group 1
is `N` and that of group 2 is `V`. -/
theorem tarName_match (N : List Char) (v : SemVer) (hne : N ≠ [])
    (hN : ∀ c ∈ N, isNameChar c = true) (hv : v.wellFormed = true) :
    ∃ st, findFrom tarNameTree 0 (N ++ '-' :: v.text) = some st
      ∧ capture st.caps 1 = String.mk N ∧ capture st.caps 2 = String.mk v.text := by
  have hgood : Good (fun st => capture st.caps 1 = String.mk N
      ∧ capture st.caps 2 = String.mk v.text)
      ((Regex.group 0 tarNameTree).run { pos := 0, rest := N ++ '-' :: v.text, caps := [] }
        some) := by
    rw [Regex.run, tarNameTree, Regex.run, Regex.run]
    simp only [if_true]
    rw [Regex.run, Regex.run]
    have hmaj := ((wellFormed_iff v).mp hv).1
    have htext : '-' :: v.text = ('-' :: v.major) ++ ('.' :: (v.minor ++ ('.' :: (v.patch ++
        (identList '-' v.pre ++ identList '+' v.build))))) := by
      simp [SemVer.text]
    apply plus_backtrack nameRanges N ('-' :: v.major)
      ('.' :: (v.minor ++ ('.' :: (v.patch ++ (identList '-' v.pre ++ identList '+' v.build)))))
      hne hN
      (by
        intro x hx
        rcases List.mem_cons.mp hx with h | h
        · subst h; decide
        · exact digit_name x (hmaj.2 x h))
      (by intro y hy; simp at hy; subst hy; decide)
    · rw [htext]
    · -- after a longer prefix the continuation needs a hyphen and finds a digit or the dot
      intro p q hpq hp s1 hs1
      cases p with
      | nil => exact absurd rfl hp
      | cons p0 ps =>
        have hq : v.major = ps ++ q := by
          simp at hpq
          exact hpq.2
        have hf : Fails (.seq (.lit '-') tailRe) { s1 with caps := (1, List.take
            (({ pos := 0, rest := N ++ '-' :: v.text, caps := [] } : MState).rest.length
              - s1.rest.length)
            ({ pos := 0, rest := N ++ '-' :: v.text, caps := [] } : MState).rest) :: s1.caps } := by
          apply fails_seq
          apply fails_lit
          intro x hx
          simp only [hs1] at hx
          cases hqq : q with
          | nil =>
            have : x = '.' := by simpa [hqq] using hx.symm
            rw [this]; decide
          | cons q0 qs =>
            have hxq : x = q0 := by simpa [hqq] using hx.symm
            have hd : isDigitChar q0 = true := hmaj.2 q0 (by rw [hq, hqq]; simp)
            rw [hxq]
            intro h
            rw [h] at hd
            exact absurd hd (by decide)
        exact hf _
    · intro s1 hs1 hc
      have hs1' : s1.rest = '-' :: v.text := by rw [hs1, htext]
      apply triple_seq (triple_lit '-' v.text (String.mk N) "") (triple_tail v hv (String.mk N) "")
      · refine ⟨hs1', ?_, ?_⟩
        · rw [capture_push_eq, hs1']
          simp
        · rw [capture_push_ne _ _ _ _ (by decide), hc]
          rfl
      · intro s2 hs2
        exact ⟨_, rfl, by rw [capture_push_ne _ _ _ _ (by decide)]; exact hs2.2.1,
          by rw [capture_push_ne _ _ _ _ (by decide)]; exact hs2.2.2⟩
  obtain ⟨st, hst, hq⟩ := hgood
  refine ⟨st, ?_, hq⟩
  cases N with
  | nil => exact absurd rfl hne
  | cons x xs =>
    rw [List.cons_append, findFrom]
    rw [List.cons_append] at hst
    rw [hst]

/-- The name and the version of the tar name `N-V.tgz`, for a name `N` of name
characters and the text `V` of a semantic version. -/
theorem parseTarName_split (N V : String) (v : SemVer) (hne : N.toList ≠ [])
    (hN : ∀ c ∈ N.toList, isNameChar c = true) (hv : v.wellFormed = true)
    (hV : V.toList = v.text) :
    parseTarName (N ++ "-" ++ V ++ ".tgz") = (N, V, none) := by
  obtain ⟨st, hst, h1, h2⟩ := tarName_match N.toList v hne hN hv
  have hlist : (N ++ "-" ++ V).toList = N.toList ++ '-' :: v.text := by
    rw [← hV]
    simp [String.toList]
  have hfind : Regexp.FindStringSubmatch { re := tarNameTree, numSubexp := 12 } (N ++ "-" ++ V)
      = some ((List.range 13).map (capture st.caps)) := by
    simp only [Regexp.FindStringSubmatch, hlist, hst]
  have hN1 : capture st.caps 1 = N := h1
  have hV2 : capture st.caps 2 = V := by rw [h2, ← hV]; rfl
  unfold parseTarName
  simp only [HasSuffix_append, if_true, TrimSuffix_append, tnregexp_eq, hfind]
  have e1 : ((List.range 13).map (capture st.caps)).getD 1 "" = capture st.caps 1 := rfl
  have e2 : ((List.range 13).map (capture st.caps)).getD 2 "" = capture st.caps 2 := rfl
  rw [e1, e2, hN1, hV2]

set_option maxRecDepth 100000 in
/-- The tar name expression does not match the empty name. -/
theorem parseTarName_empty :
    parseTarName "" = ("", "", some "invalid name ")
    ∧ parseTarName ".tgz" = ("", "", some "invalid name ") :=
  ⟨rfl, rfl⟩

set_option maxRecDepth 100000 in
/-- C14, evaluated on the source: `Local` returns `LocalRef` and a nil error on
every URL; on the remote URLs parsed from the short and the long form of the
package comment it returns the empty path and no error. -/
theorem Local_never_fails :
    (∀ u : URL, u.Local = (u.LocalRef, none))
    ∧ (∃ u, Parse exampleNet "helm:example.com/foo/bar#1.2.3" = .ok u
        ∧ u.IsLocal = false ∧ u.Local = ("", none))
    ∧ (∃ u, Parse exampleNet "https://example.com/foo/bar-1.2.3.tgz" = .ok u
        ∧ u.IsLocal = false ∧ u.Local = ("", none)) :=
  ⟨fun _ => rfl, ⟨_, rfl, rfl, rfl⟩, ⟨_, rfl, rfl, rfl⟩⟩

/-- A parsed URL is local exactly when the scheme found by `url.Parse` is none of
`helm`, `http`, `https`. -/
theorem Parse_isLocal (lib : NetLib) (path : String) (u : URL) (hp : Parse lib path = .ok u) :
    ∃ pu, lib.Parse path = .ok pu
      ∧ (u.IsLocal = true ↔ pu.Scheme ≠ SchemeHelm ∧ pu.Scheme ≠ SchemeHTTP
          ∧ pu.Scheme ≠ SchemeHTTPS) := by
  unfold Parse at hp
  cases hpu : lib.Parse path with
  | error e => rw [hpu] at hp; cases hp
  | ok pu =>
    rw [hpu] at hp
    refine ⟨pu, rfl, ?_⟩
    simp only [] at hp
    by_cases h1 : pu.Scheme = SchemeHelm
    · simp only [h1, if_true] at hp
      split at hp
      · cases hp
      · injection hp with hp
        subst hp
        simp [URL.IsLocal, h1]
    · simp only [h1, if_false] at hp
      by_cases h2 : pu.Scheme = SchemeHTTP ∨ pu.Scheme = SchemeHTTPS
      · simp only [h2, if_true] at hp
        split at hp
        · cases hp
        · split at hp
          · cases hp
          · injection hp with hp
            subst hp
            rcases h2 with h2 | h2 <;> simp [URL.IsLocal, h2]
      · simp only [h2, if_false] at hp
        have h3 : pu.Scheme ≠ SchemeHTTP ∧ pu.Scheme ≠ SchemeHTTPS := by
          constructor
          · exact fun h => h2 (Or.inl h)
          · exact fun h => h2 (Or.inr h)
        split at hp
        · injection hp with hp
          subst hp
          simp [URL.IsLocal, h1, h3.1, h3.2]
        · injection hp with hp
          subst hp
          simp [URL.IsLocal, h1, h3.1, h3.2]

/-- C15: for every URL returned by `Parse`, `Short` fails exactly when the URL is
local, and then with `ErrLocal` and the empty string; the same holds for `Long`
with either value of `secure`; and the URL is local exactly when the parsed
scheme is none of `helm`, `http`, `https`. -/
theorem Short_Long_fail_iff_local (lib : NetLib) (path : String) (u : URL) (secure : Bool)
    (hp : Parse lib path = .ok u) :
    ((u.Short lib).2 ≠ none ↔ u.IsLocal = true)
    ∧ (u.IsLocal = true → u.Short lib = ("", some ErrLocal))
    ∧ ((u.Long lib secure).2 ≠ none ↔ u.IsLocal = true)
    ∧ (u.IsLocal = true → u.Long lib secure = ("", some ErrLocal))
    ∧ (∃ pu, lib.Parse path = .ok pu
        ∧ (u.IsLocal = true ↔ pu.Scheme ≠ SchemeHelm ∧ pu.Scheme ≠ SchemeHTTP
            ∧ pu.Scheme ≠ SchemeHTTPS)) := by
  refine ⟨?_, ?_, ?_, ?_, Parse_isLocal lib path u hp⟩
  · unfold URL.Short
    by_cases h : u.IsLocal = true <;> simp [h]
  · intro h
    simp [URL.Short, h]
  · unfold URL.Long
    by_cases h : u.IsLocal = true <;> simp [h]
  · intro h
    simp [URL.Long, h]

/-- C15 at a `file` URL, which is local, and at the short form of the package
comment, which is not. -/
theorem Short_Long_fail_iff_local_witness :
    Parse exampleNet "file:///foo/bar" = .ok localFooBar
    ∧ localFooBar.Short exampleNet = ("", some ErrLocal)
    ∧ localFooBar.Long exampleNet true = ("", some ErrLocal)
    ∧ (∃ u, Parse exampleNet "helm:example.com/foo/bar#1.2.3" = .ok u
        ∧ u.IsLocal = false
        ∧ u.Short exampleNet = ("helm:example.com/foo/bar#1.2.3", none)
        ∧ u.Long exampleNet true = ("https://example.com/foo/bar-1.2.3.tgz", none)) :=
  ⟨rfl,
   (Short_Long_fail_iff_local exampleNet "file:///foo/bar" localFooBar true rfl).2.1 rfl,
   (Short_Long_fail_iff_local exampleNet "file:///foo/bar" localFooBar true rfl).2.2.2.1 rfl,
   ⟨_, rfl, rfl, by decide, by decide⟩⟩

set_option maxRecDepth 100000 in
/-- C16, as amended: let `N` be a non-empty chart name of letters, digits and
underscores (hyphens and slashes are covered too) and `V` the text of a
semantic version.  When `url.Parse` splits the long form `https://H/B/N-V.tgz`
into scheme, host `H` and path `/B/N-V.tgz` and the short form `helm:H/B/N#V`
into scheme, opaque part `H/B/N` and fragment `V`, both forms parse to host
`H`, bucket `B`, name `N`, version `V`: the expression `TarNameRegex` splits
`N-V` into `N` and `V`.  `Parse` fails when the opaque part of a `helm` URL or
the path of an `http` or `https` URL has fewer than two slashes, and when the
third part of the path of an `http` or `https` URL is empty or only `.tgz`. -/
theorem Parse_long_and_short (lib : NetLib) (H B N V : String) (v : SemVer)
    (hH : '/' ∉ H.toList) (hB : '/' ∉ B.toList)
    (hne : N.toList ≠ []) (hN : ∀ c ∈ N.toList, isNameChar c = true)
    (hv : v.wellFormed = true) (hV : V.toList = v.text)
    (hlong : lib.Parse ("https://" ++ H ++ "/" ++ B ++ "/" ++ N ++ "-" ++ V ++ ".tgz")
      = .ok { Scheme := "https", Opaque := "", Host := H,
              Path := "/" ++ B ++ "/" ++ (N ++ "-" ++ V ++ ".tgz"), Fragment := "" })
    (hshort : lib.Parse ("helm:" ++ H ++ "/" ++ B ++ "/" ++ N ++ "#" ++ V)
      = .ok { Scheme := "helm", Opaque := H ++ "/" ++ B ++ "/" ++ N, Host := "", Path := "",
              Fragment := V }) :
    (∃ u, Parse lib ("https://" ++ H ++ "/" ++ B ++ "/" ++ N ++ "-" ++ V ++ ".tgz") = .ok u
      ∧ u.Host = H ∧ u.Bucket = B ∧ u.Name = N ∧ u.Version = V ∧ u.IsLocal = false)
    ∧ (∃ u, Parse lib ("helm:" ++ H ++ "/" ++ B ++ "/" ++ N ++ "#" ++ V) = .ok u
      ∧ u.Host = H ∧ u.Bucket = B ∧ u.Name = N ∧ u.Version = V ∧ u.IsLocal = false)
    ∧ (∀ path pu, lib.Parse path = .ok pu →
        (pu.Scheme = SchemeHelm ∧ pu.Opaque.toList.count '/' < 2)
          ∨ ((pu.Scheme = SchemeHTTP ∨ pu.Scheme = SchemeHTTPS)
              ∧ pu.Path.toList.count '/' < 2) →
        ∃ e, Parse lib path = .error e)
    ∧ (∀ path pu, lib.Parse path = .ok pu →
        (pu.Scheme = SchemeHTTP ∨ pu.Scheme = SchemeHTTPS) →
        ((SplitN pu.Path '/' 3).getD 2 "" = "" ∨ (SplitN pu.Path '/' 3).getD 2 "" = ".tgz") →
        ∃ e, Parse lib path = .error e) := by
  refine ⟨?_, ?_, ?_, ?_⟩
  · have hsplit := SplitN_path_three B (N ++ "-" ++ V ++ ".tgz") hB
    have htar := parseTarName_split N V v hne hN hv hV
    refine ⟨{ Scheme := "https", Host := H, Bucket := B, Name := N, Version := V,
              LocalRef := "", isLocal := false,
              original := "https://" ++ H ++ "/" ++ B ++ "/" ++ N ++ "-" ++ V ++ ".tgz" },
      ?_, rfl, rfl, rfl, rfl, rfl⟩
    unfold Parse
    rw [hlong]
    simp only [hsplit]
    simp [SchemeHelm, SchemeHTTP, SchemeHTTPS, htar]
  · have hsplit := SplitN_three H B N hH hB
    refine ⟨{ Scheme := "helm", Host := H, Bucket := B, Name := N, Version := V,
              LocalRef := "", isLocal := false,
              original := "helm:" ++ H ++ "/" ++ B ++ "/" ++ N ++ "#" ++ V },
      ?_, rfl, rfl, rfl, rfl, rfl⟩
    unfold Parse
    rw [hshort]
    simp only [hsplit]
    simp [SchemeHelm]
  · intro path pu hpu hmiss
    unfold Parse
    rw [hpu]
    rcases hmiss with ⟨hs, hc⟩ | ⟨hs, hc⟩
    · have hlen : (SplitN pu.Opaque '/' 3).length < 3 := by
        unfold SplitN
        rw [List.length_map]
        exact splitNChars_short '/' _ hc
      simp only [hs, if_true, hlen]
      exact ⟨_, rfl⟩
    · have hlen : (SplitN pu.Path '/' 3).length < 3 := by
        unfold SplitN
        rw [List.length_map]
        exact splitNChars_short '/' _ hc
      have hnh : pu.Scheme ≠ SchemeHelm := by
        rcases hs with h | h <;> rw [h] <;> decide
      simp only [hnh, if_false, hs, if_true, hlen]
      exact ⟨_, rfl⟩
  · intro path pu hpu hs hempty
    unfold Parse
    rw [hpu]
    have hnh : pu.Scheme ≠ SchemeHelm := by
      rcases hs with h | h <;> rw [h] <;> decide
    simp only [hnh, if_false, hs, if_true]
    split
    · exact ⟨_, rfl⟩
    · rcases hempty with h | h
      · rw [h, parseTarName_empty.1]
        exact ⟨_, rfl⟩
      · rw [h, parseTarName_empty.2]
        exact ⟨_, rfl⟩

set_option maxRecDepth 100000 in
/-- C16 at the chart of the package comment: both forms give `example.com`,
`foo`, `bar`, `1.2.3`; the short form without chart name fails, and so does the
long form with an empty chart name. -/
theorem Parse_long_and_short_witness :
    (∃ u, Parse exampleNet "https://example.com/foo/bar-1.2.3.tgz" = .ok u
      ∧ u.Host = "example.com" ∧ u.Bucket = "foo" ∧ u.Name = "bar" ∧ u.Version = "1.2.3"
      ∧ u.IsLocal = false)
    ∧ (∃ u, Parse exampleNet "helm:example.com/foo/bar#1.2.3" = .ok u
      ∧ u.Host = "example.com" ∧ u.Bucket = "foo" ∧ u.Name = "bar" ∧ u.Version = "1.2.3"
      ∧ u.IsLocal = false)
    ∧ (∃ e, Parse exampleNet "helm:example.com/foo" = .error e)
    ∧ (∃ e, Parse exampleNet "https://example.com/foo/" = .error e) :=
  ⟨(Parse_long_and_short exampleNet "example.com" "foo" "bar" "1.2.3"
      { major := ['1'], minor := ['2'], patch := ['3'], pre := [], build := [] }
      (by decide) (by decide) (by decide) (by decide) (by decide) rfl rfl rfl).1,
   (Parse_long_and_short exampleNet "example.com" "foo" "bar" "1.2.3"
      { major := ['1'], minor := ['2'], patch := ['3'], pre := [], build := [] }
      (by decide) (by decide) (by decide) (by decide) (by decide) rfl rfl rfl).2.1,
   (Parse_long_and_short exampleNet "example.com" "foo" "bar" "1.2.3"
      { major := ['1'], minor := ['2'], patch := ['3'], pre := [], build := [] }
      (by decide) (by decide) (by decide) (by decide) (by decide) rfl rfl rfl).2.2.1
      "helm:example.com/foo" _ rfl (Or.inl ⟨rfl, by decide⟩),
   (Parse_long_and_short exampleNet "example.com" "foo" "bar" "1.2.3"
      { major := ['1'], minor := ['2'], patch := ['3'], pre := [], build := [] }
      (by decide) (by decide) (by decide) (by decide) (by decide) rfl rfl rfl).2.2.2
      "https://example.com/foo/" _ rfl (Or.inr rfl) (Or.inl (by decide))⟩

set_option maxRecDepth 100000 in
/-- C16 as stated fails: a short form with an empty chart name and a short form
with an empty bucket parse without error, to a URL with the empty name and to
a URL with the empty bucket; so does a long form with an empty bucket. -/
theorem Parse_accepts_empty_parts :
    Parse exampleNet "helm:example.com/foo/"
      = .ok { Scheme := "helm", Host := "example.com", Bucket := "foo", Name := "",
              Version := "", LocalRef := "", isLocal := false,
              original := "helm:example.com/foo/" }
    ∧ Parse exampleNet "helm:example.com//bar#1.2.3"
      = .ok { Scheme := "helm", Host := "example.com", Bucket := "", Name := "bar",
              Version := "1.2.3", LocalRef := "", isLocal := false,
              original := "helm:example.com//bar#1.2.3" }
    ∧ Parse exampleNet "https://example.com//bar-1.2.3.tgz"
      = .ok { Scheme := "https", Host := "example.com", Bucket := "", Name := "bar",
              Version := "1.2.3", LocalRef := "", isLocal := false,
              original := "https://example.com//bar-1.2.3.tgz" } :=
  ⟨rfl, rfl, rfl⟩

/-- C17, as amended: an input that `url.Parse` accepts with a scheme that is none
of `helm`, `http`, `https`, `file` (a relative or absolute path that it accepts
has the empty scheme) parses to a local URL whose `LocalRef` is the input,
unchanged; an input that `url.Parse` rejects, path or not, makes `Parse` fail
with the error of `url.Parse`. -/
theorem Parse_local_as_is (lib : NetLib) (path : String) :
    (∀ pu, lib.Parse path = .ok pu →
      pu.Scheme ≠ SchemeHelm → pu.Scheme ≠ SchemeHTTP → pu.Scheme ≠ SchemeHTTPS →
      pu.Scheme ≠ SchemeFile →
      ∃ u, Parse lib path = .ok u ∧ u.IsLocal = true ∧ u.LocalRef = path
        ∧ u.Local = (path, none))
    ∧ (∀ e, lib.Parse path = .error e → Parse lib path = .error e) := by
  refine ⟨?_, ?_⟩
  · intro pu hpu hhelm hhttp hhttps hfile
    refine ⟨{ Scheme := "", Host := "", Bucket := "", Name := "", Version := "",
              LocalRef := path, isLocal := true, original := path }, ?_, rfl, rfl, rfl⟩
    unfold Parse
    rw [hpu]
    simp [hhelm, hhttp, hhttps, hfile]
  · intro e he
    unfold Parse
    rw [he]

/-- C17 at a relative path, an absolute path and a URL of another scheme, which
parse to themselves, and at a relative path that `url.Parse` rejects. -/
theorem Parse_local_as_is_witness :
    (∃ u, Parse exampleNet "./charts/alpine" = .ok u ∧ u.IsLocal = true
      ∧ u.LocalRef = "./charts/alpine" ∧ u.Local = ("./charts/alpine", none))
    ∧ (∃ u, Parse exampleNet "/charts/alpine" = .ok u ∧ u.IsLocal = true
      ∧ u.LocalRef = "/charts/alpine" ∧ u.Local = ("/charts/alpine", none))
    ∧ (∃ u, Parse exampleNet "s3://charts/alpine" = .ok u ∧ u.IsLocal = true
      ∧ u.LocalRef = "s3://charts/alpine" ∧ u.Local = ("s3://charts/alpine", none))
    ∧ Parse exampleNet "./charts/100%"
        = .error "parse \"./charts/100%\": invalid URL escape \"%\"" :=
  ⟨(Parse_local_as_is exampleNet "./charts/alpine").1 _ rfl (by decide) (by decide) (by decide)
      (by decide),
   (Parse_local_as_is exampleNet "/charts/alpine").1 _ rfl (by decide) (by decide) (by decide)
      (by decide),
   (Parse_local_as_is exampleNet "s3://charts/alpine").1 _ rfl (by decide) (by decide)
      (by decide) (by decide),
   (Parse_local_as_is exampleNet "./charts/100%").2 _ rfl⟩

/-- C17 as stated fails: the relative path `./charts/100%` holds a percent sign
that starts no escape; `url.Parse` rejects it, so `Parse` returns that error
and no local URL. -/
theorem Parse_rejects_path :
    exampleNet.Parse "./charts/100%"
      = .error "parse \"./charts/100%\": invalid URL escape \"%\""
    ∧ Parse exampleNet "./charts/100%"
      = .error "parse \"./charts/100%\": invalid URL escape \"%\""
    ∧ ¬ ∃ u, Parse exampleNet "./charts/100%" = .ok u := by
  refine ⟨rfl, rfl, ?_⟩
  rintro ⟨u, hu⟩
  have h : Parse exampleNet "./charts/100%"
      = .error "parse \"./charts/100%\": invalid URL escape \"%\"" := rfl
  rw [h] at hu
  cases hu

/-! ## Properties of chart files -/

/-- Assigning to a key that is absent appends the entry. -/
theorem mapAssign_fresh {V : Type} (m : List (Bytes × V)) (k : Bytes) (v : V)
    (h : k ∉ m.map Prod.fst) : mapAssign m k v = m ++ [(k, v)] := by
  unfold mapAssign
  congr 1
  rw [List.filter_eq_self]
  intro e he
  have : e.1 ≠ k := fun hk => h (by rw [← hk]; exact List.mem_map_of_mem _ he)
  simpa using this

/-- In a map with one entry per key, indexing the key of an entry gives its
value. -/
theorem mapIndex_of_mem {V : Type} (m : List (Bytes × V)) (hnd : (m.map Prod.fst).Nodup)
    (e : Bytes × V) (he : e ∈ m) : mapIndex m e.1 = some e.2 := by
  induction m with
  | nil => cases he
  | cons x xs ih =>
    rw [List.map_cons, List.nodup_cons] at hnd
    unfold mapIndex
    rw [List.find?_cons]
    rcases List.mem_cons.mp he with h | h
    · subst h
      simp
    · have hne : x.1 ≠ e.1 := fun hx => hnd.1 (by rw [hx]; exact List.mem_map_of_mem _ h)
      simp only [hne, decide_False]
      exact ih hnd.2 h

/-- A value found by indexing belongs to an entry of the map. -/
theorem mapIndex_some {V : Type} (m : List (Bytes × V)) (k : Bytes) (v : V)
    (h : mapIndex m k = some v) : (k, v) ∈ m := by
  unfold mapIndex at h
  cases hf : m.find? (fun e => decide (e.1 = k)) with
  | none => rw [hf] at h; cases h
  | some e =>
    rw [hf] at h
    have hk : e.1 = k := by simpa using List.find?_some hf
    have hv : e.2 = v := by simpa using h
    have := List.mem_of_find?_eq_some hf
    rw [← hk, ← hv]
    exact this

/-- Indexing misses exactly the keys that are absent. -/
theorem mapIndex_none {V : Type} (m : List (Bytes × V)) (k : Bytes) :
    mapIndex m k = none ↔ k ∉ m.map Prod.fst := by
  unfold mapIndex
  rw [Option.map_eq_none', List.find?_eq_none]
  simp only [decide_eq_true_eq, List.mem_map, Prod.exists, exists_and_right, exists_eq_right,
    not_exists, Prod.forall]
  constructor
  · intro h x hx
    exact h k x hx rfl
  · intro h a b hab hak
    subst hak
    exact h b hab

/-- The loop that fills a map from entries with distinct keys appends one entry
per element, in order. -/
theorem fold_mapAssign (key val : Bytes → Bytes) (es acc : List (Bytes × Bytes))
    (hnd : (acc.map Prod.fst ++ es.map (fun e => key e.1)).Nodup) :
    es.foldl (fun m e => mapAssign m (key e.1) (val e.2)) acc
      = acc ++ es.map (fun e => (key e.1, val e.2)) := by
  induction es generalizing acc with
  | nil => simp
  | cons e rest ih =>
    rw [List.foldl_cons]
    have hfresh : key e.1 ∉ acc.map Prod.fst := by
      intro hmem
      have := (List.nodup_append.mp hnd).2.2
      exact this hmem (by simp)
    rw [mapAssign_fresh acc _ _ hfresh]
    have hnd2 : ((acc ++ [(key e.1, val e.2)]).map Prod.fst
        ++ rest.map (fun e => key e.1)).Nodup := by
      simpa [List.append_assoc] using hnd
    rw [ih _ hnd2]
    simp

/-- The loop of `Glob` with a matcher keeps the matched entries, in order. -/
theorem fold_glob (g : Bytes → Bool) (es acc : List (Bytes × Bytes))
    (hnd : (acc.map Prod.fst ++ es.map Prod.fst).Nodup) :
    es.foldl
        (fun nf e =>
          match nf, some g with
          | some nf, some g => if g e.1 then some (mapAssign nf e.1 e.2) else some nf
          | _, _ => none)
        (some acc)
      = some (acc ++ es.filter (fun e => g e.1)) := by
  induction es generalizing acc with
  | nil => simp
  | cons e rest ih =>
    rw [List.foldl_cons]
    simp only []
    have hfresh : e.1 ∉ acc.map Prod.fst := by
      intro hmem
      have := (List.nodup_append.mp hnd).2.2
      exact this hmem (by simp)
    by_cases hg : g e.1 = true
    · simp only [hg, if_true]
      rw [mapAssign_fresh acc _ _ hfresh]
      have hnd2 : ((acc ++ [(e.1, e.2)]).map Prod.fst ++ rest.map Prod.fst).Nodup := by
        simpa [List.append_assoc] using hnd
      rw [ih _ hnd2]
      simp [List.filter_cons, hg]
    · simp only [hg, Bool.false_eq_true, if_false]
      have hnd2 : (acc.map Prod.fst ++ rest.map Prod.fst).Nodup := by
        have := hnd
        rw [List.map_cons] at this
        exact (List.nodup_append.mpr ⟨(List.nodup_append.mp this).1,
          ((List.nodup_cons.mp (List.nodup_append.mp this).2.1)).2,
          fun a ha hb => (List.nodup_append.mp this).2.2 ha (List.mem_cons_of_mem _ hb)⟩)
      rw [ih _ hnd2]
      simp [List.filter_cons, hg]

/-- Indexing the entries whose key a matcher accepts. -/
theorem mapIndex_filter (g : Bytes → Bool) (es : List (Bytes × Bytes)) (n : Bytes) :
    mapIndex (es.filter (fun e => g e.1)) n = if g n then mapIndex es n else none := by
  induction es with
  | nil => simp [mapIndex]
  | cons e rest ih =>
    unfold mapIndex at ih ⊢
    rw [List.filter_cons]
    by_cases hg : g e.1 = true
    · simp only [hg, if_true, List.find?_cons]
      by_cases hk : e.1 = n
      · subst hk
        simp [hg]
      · simp only [hk, decide_False]
        exact ih
    · simp only [hg, Bool.false_eq_true, if_false, List.find?_cons]
      by_cases hk : e.1 = n
      · subst hk
        simp only [decide_True, Option.map_some']
        rw [ih]
        simp [hg]
      · simp only [hk, decide_False]
        exact ih

/-- The index of the character of a 6-bit value is that value. -/
theorem b64Index_b64Char (i : Nat) (h : i < 64) : b64Index (b64Char i) = some i := by
  have : ∀ j : Fin 64, b64Index (b64Char j.val) = some j.val := by decide
  exact this ⟨i, h⟩

/-- No character of the alphabet is the padding character. -/
theorem b64Char_ne_pad (i : Nat) (h : i < 64) : b64Char i ≠ b64Pad := by
  have : ∀ j : Fin 64, b64Char j.val ≠ b64Pad := by decide
  exact this ⟨i, h⟩

/-- A byte is determined by its value. -/
theorem ofNat_val_eq (a : Byte) (n : Nat) (h : n = a.val) : (Fin.ofNat n : Byte) = a := by
  apply Fin.ext
  subst h
  simp [Fin.ofNat]

/-- Decoding the standard base64 encoding of a byte sequence gives the sequence
back. -/
theorem DecodeString_EncodeToString (v : Bytes) : DecodeString (EncodeToString v) = some v := by
  induction v using EncodeToString.induct with
  | case1 a b c rest ih =>
    have ha := a.isLt
    have hb := b.isLt
    have hc := c.isLt
    rw [EncodeToString, DecodeString]
    rw [b64Index_b64Char _ (by omega), b64Index_b64Char _ (by omega)]
    simp only []
    have h2 : b64Char (b.val % 16 * 4 + c.val / 64) ≠ b64Pad := b64Char_ne_pad _ (by omega)
    have h3 : b64Char (c.val % 64) ≠ b64Pad := b64Char_ne_pad _ (by omega)
    simp only [h2, h3, false_and, and_false, if_false]
    rw [b64Index_b64Char _ (by omega), b64Index_b64Char _ (by omega)]
    simp only [ih, Option.map_some']
    congr 1
    rw [ofNat_val_eq a _ (by omega), ofNat_val_eq b _ (by omega), ofNat_val_eq c _ (by omega)]
  | case2 a b =>
    have ha := a.isLt
    have hb := b.isLt
    rw [EncodeToString, DecodeString]
    rw [b64Index_b64Char _ (by omega), b64Index_b64Char _ (by omega)]
    simp only []
    have h2 : b64Char (b.val % 16 * 4) ≠ b64Pad := b64Char_ne_pad _ (by omega)
    simp only [h2, false_and, and_false, if_false]
    rw [b64Index_b64Char _ (by omega)]
    simp only [and_self, if_true]
    rw [ofNat_val_eq a _ (by omega), ofNat_val_eq b _ (by omega)]
  | case3 a =>
    have ha := a.isLt
    rw [EncodeToString, DecodeString]
    rw [b64Index_b64Char _ (by omega), b64Index_b64Char _ (by omega)]
    simp only [and_self, if_true]
    rw [ofNat_val_eq a _ (by omega)]
  | case4 => rfl

/-- C18: `GetBytes` returns the stored content when the name is a key of the
files and the empty byte slice when it is not, also for the nil map; `Get` is
the string of those bytes, hence the empty string for a missing key. -/
theorem GetBytes_Get (f : Files) (name : Bytes) :
    (∀ v, mapIndex f.entries name = some v → f.GetBytes name = v)
    ∧ (mapIndex f.entries name = none → f.GetBytes name = [])
    ∧ (name ∉ f.entries.map Prod.fst → f.GetBytes name = [] ∧ f.Get name = [])
    ∧ f.Get name = f.GetBytes name
    ∧ ((f.entries.map Prod.fst).Nodup → ∀ e ∈ f.entries, f.GetBytes e.1 = e.2 ∧ f.Get e.1 = e.2)
    ∧ Files.nil.GetBytes name = [] := by
  have hnone : mapIndex f.entries name = none → f.GetBytes name = [] := by
    intro h
    simp [Files.GetBytes, h]
  refine ⟨?_, hnone, ?_, rfl, ?_, rfl⟩
  · intro v h
    simp [Files.GetBytes, h]
  · intro h
    have := hnone ((mapIndex_none _ _).mpr h)
    exact ⟨this, this⟩
  · intro hnd e he
    have := mapIndex_of_mem f.entries hnd e he
    have hg : f.GetBytes e.1 = e.2 := by simp [Files.GetBytes, this]
    exact ⟨hg, hg⟩

/-- C19, as amended: with `g` the matcher `Glob` uses, which is the compiled
pattern when the pattern compiles and the compiled `**` when it does not,
`Glob` returns a files object whose keys are exactly the names of `f` that `g`
matches, each with the content it has in `f`, and leaves `f` unchanged. -/
theorem Glob_matched (lib : ChartLib) (f : Files) (pattern : Bytes) (g : Bytes → Bool)
    (hnd : (f.entries.map Prod.fst).Nodup)
    (hg : globMatcher lib pattern = some g) :
    (f.Glob lib pattern).1 = f
    ∧ (f.Glob lib pattern).2 = some (.map (f.entries.filter (fun e => g e.1)))
    ∧ (∀ n, n ∈ (f.entries.filter (fun e => g e.1)).map Prod.fst
        ↔ n ∈ f.entries.map Prod.fst ∧ g n = true)
    ∧ (∀ n, mapIndex (f.entries.filter (fun e => g e.1)) n
        = if g n then mapIndex f.entries n else none)
    ∧ (∀ g1, lib.Compile pattern ['/'] = .ok g1 → g1 = g)
    ∧ ((∀ g1, lib.Compile pattern ['/'] ≠ .ok g1) → lib.Compile (ascii "**") [] = .ok g) := by
  refine ⟨rfl, ?_, ?_, mapIndex_filter g f.entries, ?_, ?_⟩
  · unfold Files.Glob
    simp only [hg]
    have := fold_glob g f.entries [] (by simpa using hnd)
    have this2 := congrArg (Option.map Files.map) this
    simp only [List.nil_append, Option.map_some'] at this2
    exact this2
  · intro n
    simp only [List.mem_map, List.mem_filter]
    constructor
    · rintro ⟨e, ⟨he, hge⟩, rfl⟩
      exact ⟨⟨e, he, rfl⟩, hge⟩
    · rintro ⟨⟨e, he, rfl⟩, hge⟩
      exact ⟨e, ⟨he, hge⟩, rfl⟩
  · intro g1 h1
    unfold globMatcher at hg
    rw [h1] at hg
    injection hg
  · intro hno
    unfold globMatcher at hg
    cases hc : lib.Compile pattern ['/'] with
    | ok g1 => exact absurd hc (hno g1)
    | error e =>
      rw [hc] at hg
      simp only [] at hg
      cases hc2 : lib.Compile (ascii "**") [] with
      | error e2 => rw [hc2] at hg; cases hg
      | ok g2 =>
        rw [hc2] at hg
        injection hg with hg
        rw [hg]

/-- C19 at the three example files: `config/*` selects the configuration file and
leaves the files unchanged. -/
theorem Glob_matched_witness :
    (exampleFiles.entries.map Prod.fst).Nodup
    ∧ (exampleFiles.Glob exampleChart (ascii "config/*")).1 = exampleFiles
    ∧ (exampleFiles.Glob exampleChart (ascii "config/*")).2
        = some (.map [(ascii "config/a.toml", ascii "a = 1")])
    ∧ (exampleFiles.Glob exampleChart (ascii "config/*")).2
        = some (.map (exampleFiles.entries.filter
            (fun e => (ascii "config/").isPrefixOf e.1))) :=
  ⟨by decide, rfl, by decide,
   (Glob_matched exampleChart exampleFiles (ascii "config/*")
      (fun n => (ascii "config/").isPrefixOf n) (by decide) rfl).2.1⟩

/-- C19 as stated fails: the pattern `[` does not compile, so no name matches it,
yet `Glob` falls back to `**` and returns all three files. -/
theorem Glob_fallback_matches_all :
    (exampleChart.Compile (ascii "[") ['/']).toOption.isNone = true
    ∧ (exampleFiles.Glob exampleChart (ascii "[")).2 = some exampleFiles
    ∧ exampleFiles.entries.length = 3 := by
  refine ⟨by decide, by decide, by decide⟩

/-- C20: `AsConfig` and `AsSecrets` return the empty string for the nil files.  For
files whose names have pairwise distinct base names they marshal a map with
exactly one entry per file, in which `path.Base` of the file name is mapped to
the content as a string (`AsConfig`) or to its standard base64 encoding
(`AsSecrets`), and decoding that encoding gives back the bytes of the file. -/
theorem AsConfig_AsSecrets_data (lib : ChartLib) (es : List (Bytes × Bytes))
    (hnd : (es.map (fun e => pathBase e.1)).Nodup) :
    Files.nil.AsConfig lib = [] ∧ Files.nil.AsSecrets lib = []
    ∧ (Files.map es).AsConfig lib = ToYaml lib (configData (.map es))
    ∧ (Files.map es).AsSecrets lib = ToYaml lib (secretsData (.map es))
    ∧ configData (.map es) = es.map (fun e => (pathBase e.1, e.2))
    ∧ secretsData (.map es) = es.map (fun e => (pathBase e.1, EncodeToString e.2))
    ∧ (configData (.map es)).length = es.length
    ∧ (secretsData (.map es)).length = es.length
    ∧ (∀ e ∈ es, mapIndex (configData (.map es)) (pathBase e.1) = some e.2)
    ∧ (∀ e ∈ es, mapIndex (secretsData (.map es)) (pathBase e.1) = some (EncodeToString e.2)
        ∧ DecodeString (EncodeToString e.2) = some e.2) := by
  have hc : configData (.map es) = es.map (fun e => (pathBase e.1, e.2)) := by
    unfold configData
    have := fold_mapAssign pathBase id es [] (by simpa using hnd)
    simpa [Files.entries] using this
  have hs : secretsData (.map es) = es.map (fun e => (pathBase e.1, EncodeToString e.2)) := by
    unfold secretsData
    have := fold_mapAssign pathBase EncodeToString es [] (by simpa using hnd)
    simpa [Files.entries] using this
  have hndc : ((es.map (fun e => (pathBase e.1, e.2))).map Prod.fst).Nodup := by
    simpa [List.map_map, Function.comp_def] using hnd
  have hnds : ((es.map (fun e => (pathBase e.1, EncodeToString e.2))).map Prod.fst).Nodup := by
    simpa [List.map_map, Function.comp_def] using hnd
  refine ⟨rfl, rfl, rfl, rfl, hc, hs, ?_, ?_, ?_, ?_⟩
  · rw [hc, List.length_map]
  · rw [hs, List.length_map]
  · intro e he
    rw [hc]
    exact mapIndex_of_mem _ hndc (pathBase e.1, e.2) (List.mem_map_of_mem _ he)
  · intro e he
    rw [hs]
    exact ⟨mapIndex_of_mem _ hnds (pathBase e.1, EncodeToString e.2)
      (List.mem_map_of_mem (fun e => (pathBase e.1, EncodeToString e.2)) he),
      DecodeString_EncodeToString e.2⟩

/-- C20 at the three example files: the two maps, the base64 text of the binary
key and its decoding. -/
theorem AsConfig_AsSecrets_data_witness :
    (exampleFiles.entries.map (fun e => pathBase e.1)).Nodup
    ∧ configData exampleFiles
        = [(ascii "a.toml", ascii "a = 1"), (ascii "key.pem", [0, 255, 16]),
           (ascii "README.md", ascii "hi")]
    ∧ secretsData exampleFiles
        = [(ascii "a.toml", ascii "YSA9IDE="), (ascii "key.pem", ascii "AP8Q"),
           (ascii "README.md", ascii "aGk=")]
    ∧ DecodeString (ascii "AP8Q") = some [0, 255, 16]
    ∧ exampleFiles.AsConfig exampleChart
        = ascii "a.toml: a = 1\nkey.pem: " ++ [0, 255, 16] ++ ascii "\nREADME.md: hi\n"
    ∧ (secretsData exampleFiles).length = 3 :=
  ⟨by decide, by decide, by decide, by decide, by decide,
   (AsConfig_AsSecrets_data exampleChart exampleFiles.entries (by decide)).2.2.2.2.2.2.2.1⟩

/-! ## Properties of the HTTP getter -/

/-- C21, as amended: when the client answers with status 200, `Get` returns a
buffer holding the bytes that reading the body delivered, together with the
error that ended the reading: a nil error when the body was read to its end.
When the request cannot be built, the client fails, or the status is anything
other than 200, `Get` returns a non-nil error and an empty buffer. -/
theorem Get_returns_body (lib : HttpLib) (g : HTTPGetter) (href : String) :
    (∀ req resp, lib.NewRequest "GET" href = .ok req →
        lib.Do (g.prepare lib req) = .ok resp → resp.StatusCode = 200 →
        (g.Get lib href).buf = resp.Body.data
        ∧ (g.Get lib href).err = resp.Body.err
        ∧ (resp.Body.err = none → (g.Get lib href).err = none))
    ∧ (∀ e, lib.NewRequest "GET" href = .error e →
        (g.Get lib href).buf = [] ∧ (g.Get lib href).err = some e)
    ∧ (∀ req e, lib.NewRequest "GET" href = .ok req →
        lib.Do (g.prepare lib req) = .error e →
        (g.Get lib href).buf = [] ∧ (g.Get lib href).err = some e)
    ∧ (∀ req resp, lib.NewRequest "GET" href = .ok req →
        lib.Do (g.prepare lib req) = .ok resp → resp.StatusCode ≠ 200 →
        (g.Get lib href).buf = []
        ∧ (g.Get lib href).err
            = some ("failed to fetch " ++ href ++ " : " ++ resp.Status)) := by
  refine ⟨?_, ?_, ?_, ?_⟩
  · intro req resp hreq hdo hst
    simp [HTTPGetter.Get, HTTPGetter.get, hreq, hdo, hst]
  · intro e hreq
    simp [HTTPGetter.Get, HTTPGetter.get, hreq]
  · intro req e hreq hdo
    simp [HTTPGetter.Get, HTTPGetter.get, hreq, hdo]
  · intro req resp hreq hdo hst
    simp [HTTPGetter.Get, HTTPGetter.get, hreq, hdo, hst]

/-- C21 as stated fails: the client answers with status 200 and the reading of
the body breaks off; `Get` returns the bytes read so far and a non-nil error.
For the index it returns the whole body and no error, for the missing file an
error and an empty buffer. -/
theorem Get_body_read_error :
    (exampleHttp.Do (plainGetter.prepare exampleHttp
        { Method := "GET", URL := "https://example.com/broken", Header := [] })).toOption.map
          (fun resp => resp.StatusCode) = some 200
    ∧ (plainGetter.Get exampleHttp "https://example.com/broken").err = some "unexpected EOF"
    ∧ (plainGetter.Get exampleHttp "https://example.com/broken").buf = ascii "ent"
    ∧ (plainGetter.Get exampleHttp "https://example.com/index.yaml")
        = { buf := ascii "entries", err := none, closed := true }
    ∧ (plainGetter.Get exampleHttp "https://example.com/missing")
        = { buf := [], err := some "failed to fetch https://example.com/missing : 404 Not Found",
            closed := false } := by
  refine ⟨by decide, by decide, by decide, by decide, by decide⟩


/-! ## Order of the steps of a test -/

/-- C22, as amended: for each test that `Run` executes the steps happen in this
order: the "running" status is streamed first, the test resource is created in
the cluster after that, and the wait for the completed phase of the pod comes
last, followed by at most one terminal status; a failed creation is followed by
an error message instead of the wait.  The resource of a test is never created
before its "running" status has been streamed. -/
theorem runTest_steps_in_order (lib : Lib) (env : Environment) (log : List Event) (m : String) :
    (∀ e, newTest lib m = .error e → (runTest lib env log m).log = log)
    ∧ (∀ t0, newTest lib m = .ok t0 →
        (runTest lib env log m).log = log ++ [Event.send (.running t0.result.Name)]
        ∨ (∃ info, (runTest lib env log m).log
            = log ++ [Event.send (.running t0.result.Name),
                Event.kube (.Create env.Namespace m), Event.send (.error info)])
        ∨ (runTest lib env log m).log
            = log ++ [Event.send (.running t0.result.Name),
                Event.kube (.Create env.Namespace m),
                Event.kube (.WaitAndGetCompletedPodPhase env.Namespace m
                  (wrapInt64 (env.Timeout * timeSecond)))]
        ∨ (∃ terminal, (runTest lib env log m).log
            = log ++ [Event.send (.running t0.result.Name),
                Event.kube (.Create env.Namespace m),
                Event.kube (.WaitAndGetCompletedPodPhase env.Namespace m
                  (wrapInt64 (env.Timeout * timeSecond))),
                Event.send terminal]
            ∧ (terminal = .success t0.result.Name ∨ terminal = .failed t0.result.Name
                ∨ ∃ info, terminal = .unknown t0.result.Name info))) := by
  constructor
  · intro e he
    unfold runTest
    rw [he]
  · intro t0 hn
    obtain ⟨sh, _, _, ht0⟩ := newTest_ok lib m t0 hn
    subst ht0
    unfold runTest
    rw [hn]
    simp only [streamRunning, streamError, streamUnknown, streamSuccess, streamFailed,
      streamMessage, createTestPod, getPodExitStatus]
    repeat' split
    all_goals (simp only [Prod.mk.injEq] at *)
    all_goals (casesm* _ ∧ _)
    all_goals subst_vars
    all_goals simp_all

/-- C22 as stated fails: for the first of the three pods, and in the whole run,
the "running" status is streamed before the pod is created. -/
theorem running_streamed_before_create :
    (runTest podLib threePodsEnv [] "a").log
        = [Event.send (.running "a"), Event.kube (.Create "default" "a"),
           Event.kube (.WaitAndGetCompletedPodPhase "default" "a" 300000000000),
           Event.send (.success "a")]
    ∧ (threePodsSuite.Run podLib threePodsEnv).log.take 2
        = [Event.send (.running "a"), Event.kube (.Create "default" "a")]
    ∧ ([Event.send (.running "a"), Event.kube (.Create "default" "a"),
          Event.kube (.WaitAndGetCompletedPodPhase "default" "a" 300000000000),
          Event.send (.success "a")].indexOf (Event.send (.running "a"))
        < [Event.send (.running "a"), Event.kube (.Create "default" "a"),
            Event.kube (.WaitAndGetCompletedPodPhase "default" "a" 300000000000),
            Event.send (.success "a")].indexOf (Event.kube (.Create "default" "a"))) := by
  refine ⟨by decide, by decide, by decide⟩

end Helm
